import Mathlib

/-!
# git-gpt: the chunked summarization pipeline

A shallow embedding of the Go sources `utils/utils.go`, `gpt/client.go`,
`git/operation.go` and `cmd/commit.go`, followed by theorems about them.

Conventions of the embedding.

* A Go `string` is the list of its Unicode code points (`Str`); texts are
  valid UTF-8.  `len(s)` is the UTF-8 byte length (`byteLen`) and
  `utf8.RuneCountInString(s)` is the list length.
* `ParseGitStatus` takes `len` of a line and slices it at byte offsets; for it
  a string is the list of its bytes (`Bytes`).
* Go `int` values are integers.  `wrap64` is applied where a result can leave
  the 64-bit range on well-typed inputs: the subtraction
  `tokenLimit - c.maxTokens` and the additions of usage counts that come from
  the completion backend.  Lengths of strings and the `+= 1` counters cannot
  reach `2^63` and are left exact; so is the arithmetic of `SplitText`, which
  stays in range for every positive `chunkSize`.
* A Go function of result type `(T, error)` returns a `Result T`; a run-time
  panic (indexing an empty slice) is an outcome of its own.
* State is passed explicitly: a function that reads or writes `c.stats` or
  calls the completion backend takes a `World` and returns the new one.  A
  loop that can return from the enclosing function is a recursive function
  that runs the rest of the loop and the statements after it.
* The completion backend, the tokenizer, the template engine, `strings.ToLower`
  and the file readers are parameters of the embedding (`Env`).
-/

namespace GitGpt

/-- A Go string, as its sequence of code points. -/
abbrev Str := List Char

/-- Go `len(s)`: the number of bytes of the UTF-8 encoding. -/
def byteLen (s : Str) : Nat := (s.map Char.utf8Size).sum

/-- Go `unicode.IsSpace`: the Latin-1 space characters and the code points of
the Unicode `White_Space` property. -/
def isSpace (c : Char) : Bool :=
  let n := c.toNat
  (9 ≤ n && n ≤ 13) || n == 0x20 || n == 0x85 || n == 0xA0 || n == 0x1680 ||
  (0x2000 ≤ n && n ≤ 0x200A) || n == 0x2028 || n == 0x2029 || n == 0x202F ||
  n == 0x205F || n == 0x3000

/-- Go `strings.TrimSpace`: drops leading and trailing white space. -/
def trimSpace (s : Str) : Str :=
  ((s.dropWhile isSpace).reverse.dropWhile isSpace).reverse

/-- Scanner behind `Fields`: returns the word that starts at the head of the
input (empty when the input starts with white space or is empty) and the
fields that follow it. -/
def splitWords : Str → Str × List Str
  | [] => ([], [])
  | c :: cs =>
    let r := splitWords cs
    if isSpace c then ([], if r.1 = [] then r.2 else r.1 :: r.2)
    else (c :: r.1, r.2)

/-- Go `strings.Fields`: the maximal runs of non-space characters, in order. -/
def Fields (s : Str) : List Str :=
  let r := splitWords s
  if r.1 = [] then r.2 else r.1 :: r.2

/-- Go `strings.Join`. -/
def Join : List Str → Str → Str
  | [], _ => []
  | [a], _ => a
  | a :: b :: rest, sep => a ++ sep ++ Join (b :: rest) sep

/-- Loop state of `SplitText`. -/
structure SplitState where
  chunks : List Str
  currentChunk : Str
  remainingSpace : Int
  deriving DecidableEq, Repr

/-- One iteration of the loop of `SplitText` (utils.go, lines 222-235). -/
def splitStep (chunkSize : Int) (st : SplitState) (word : Str) : SplitState :=
  let wordLength : Int := (word.length : Int) + 1
  if wordLength ≤ st.remainingSpace then
    { chunks := st.chunks
      currentChunk := st.currentChunk ++ word ++ [' ']
      remainingSpace := st.remainingSpace - wordLength }
  else
    { chunks := st.chunks ++ [trimSpace st.currentChunk]
      currentChunk := word ++ [' ']
      remainingSpace := chunkSize - wordLength }

/-- `SplitText` (utils.go, lines 211-241). -/
def SplitText (text : Str) (chunkSize : Int) : List Str :=
  let words := Fields text
  let st := words.foldl (splitStep chunkSize) ⟨[], [], chunkSize⟩
  st.chunks ++ [trimSpace st.currentChunk]

/-- Word-greedy length of a text: the sum over its words of rune count + 1. -/
def greedyLen (s : Str) : Int := ((Fields s).map (fun w => (w.length : Int) + 1)).sum

/-- A word: non-empty and free of white space. -/
def IsWord (w : Str) : Prop := w ≠ [] ∧ ∀ c ∈ w, isSpace c = false


/-- The bound of `SplitText` on one chunk: its word-greedy length is at most
`chunkSize`, or it is a single word whose unit (rune count + 1) exceeds
`chunkSize`. -/
def ChunkWithin (chunkSize : Int) (chunk : Str) : Prop :=
  greedyLen chunk ≤ chunkSize ∨
    ∃ w, Fields chunk = [w] ∧ chunkSize < (w.length : Int) + 1

/-! ### Library functions used by the client -/

/-- Go `strings.Contains`. -/
def Contains : Str → Str → Bool
  | [], sub => sub.isEmpty
  | c :: cs, sub => sub.isPrefixOf (c :: cs) || Contains cs sub

/-- Scan of `filepath.Ext` from the end of the path: stops at a separator,
returns the suffix that starts at the last dot. -/
def extScan : List Char → Str → Str
  | [], _ => []
  | c :: rest, acc =>
    if c = '/' then [] else if c = '.' then c :: acc else extScan rest (c :: acc)

/-- Go `filepath.Ext` (Unix separators). -/
def Ext (path : Str) : Str := extScan path.reverse []

/-- Go `filepath.Base` (Unix separators). -/
def Base (path : Str) : Str :=
  if path = [] then ['.']
  else
    let stripped := path.reverse.dropWhile (fun c => c == '/')
    let last := (stripped.takeWhile (fun c => c != '/')).reverse
    if last = [] then ['/'] else last

/-- Two's-complement wrap of a Go `int` (64 bits). -/
def wrap64 (x : Int) : Int := (x + 2 ^ 63) % 2 ^ 64 - 2 ^ 63

/-- The value is representable as a Go `int`. -/
def fitsInt64 (x : Int) : Prop := -(2 ^ 63) ≤ x ∧ x < 2 ^ 63

instance (x : Int) : Decidable (fitsInt64 x) := by unfold fitsInt64; infer_instance

/-! ### Data of the client (gpt/client.go and the go-openai types it uses) -/

/-- Error values built by the code, and errors handed over by a library
(tokenizer lookup, template execution, completion backend, file and git
access), which the code only passes on. -/
inductive GoError where
  | tooManyTokens (numTokens tokenLimit : Int)
  | notImplemented (model : Str)
  | templateNotFound (name : Str)
  | external (msg : Str)
  deriving DecidableEq, Repr

/-- Outcome of a Go function of result type `(T, error)`: the value with a nil
error, a value together with a non-nil error, or a run-time panic. -/
inductive Result (α : Type) where
  | ok (val : α)
  | error (val : α) (err : GoError)
  | runtimePanic
  deriving DecidableEq, Repr

/-- `openai.ChatCompletionMessage` (the fields the client reads or writes). -/
structure ChatCompletionMessage where
  Role : Str
  Content : Str
  Name : Str
  deriving DecidableEq, Repr

/-- `openai.ChatCompletionRequest`; the two `float32` settings are only copied
from the configuration and are carried as rationals. -/
structure ChatCompletionRequest where
  Model : Str
  Messages : List ChatCompletionMessage
  Stream : Bool
  N : Int
  MaxTokens : Int
  Temperature : Rat
  TopP : Rat
  deriving DecidableEq, Repr

/-- `openai.Usage`. -/
structure Usage where
  PromptTokens : Int
  CompletionTokens : Int
  TotalTokens : Int
  deriving DecidableEq, Repr

/-- `openai.ChatCompletionChoice`. -/
structure ChatCompletionChoice where
  Message : ChatCompletionMessage
  deriving DecidableEq, Repr

/-- `openai.ChatCompletionResponse`. -/
structure ChatCompletionResponse where
  Choices : List ChatCompletionChoice
  Usage : Usage
  deriving DecidableEq, Repr

/-- Outcome of one call of the completion backend. -/
inductive TransportOutcome where
  | ok (resp : ChatCompletionResponse)
  | error (err : GoError)
  deriving DecidableEq, Repr

/-- One call of the completion backend: the request and what came back. -/
structure Call where
  request : ChatCompletionRequest
  outcome : TransportOutcome
  deriving DecidableEq, Repr

/-- Modelled from the spec: the declaration of `gpt.Stats` is not among the
sources.  Its fields are the five counters that the data model names (files
processed, requests issued, prompt, completion and total token sums) under the
names that client.go uses for them. -/
structure Stats where
  NumFiles : Int
  NumRequests : Int
  PromptTokens : Int
  CompletionTokens : Int
  TotalTokens : Int
  deriving DecidableEq, Repr

/-- Mutable state of a run: the `Stats` behind `c.stats` and the log of the
calls made to the completion backend, oldest first. -/
structure World where
  stats : Stats
  calls : List Call
  deriving DecidableEq, Repr

/-- `utils.Data`: the template data, as key and value pairs. -/
abbrev Data := List (Str × Str)

/-- Collaborators of the embedded code.  `encodingForModel` is
`tiktoken.EncodingForModel` followed by `len(tkm.Encode(s, nil, nil))`;
`templates` is the map filled by `LoadTemplates`, a template being the function
that `Execute` computes; `transport` is `c.client.CreateChatCompletion`, which
may answer according to the calls it has seen; the four names are the template
name constants of package `gpt`; `toLower` is `strings.ToLower`; the last three
are `utils.ReadFile`, `gitHelper.ShowDeletedFile` and `gitHelper.DiffFile`. -/
structure Env where
  encodingForModel : Str → Except GoError (Str → Nat)
  templates : Str → Option (Data → Except GoError Str)
  transport : List Call → ChatCompletionRequest → TransportOutcome
  SummarizeFileTemplate : Str
  PrevChunkSummaryTemplate : Str
  SummarizeDiffTemplate : Str
  SummarizeChangesTemplate : Str
  toLower : Str → Str
  readFile : Str → Except GoError Str
  showDeletedFile : Str → Except GoError Str
  diffFile : Str → Except GoError Str

/-- The `client` struct; `c.client` and `c.stats` live in `Env` and `World`. -/
structure client where
  model : Str
  stream : Bool
  maxTokens : Int
  temperature : Rat
  topP : Rat
  maxChunkSize : Int
  deriving DecidableEq, Repr

/-- `git.GitOperation`. -/
abbrev GitOperation := Str

def OPERATION_ADD : GitOperation := "A".toList
def OPERATION_DEL : GitOperation := "D".toList
def OPERATION_MOD : GitOperation := "M".toList

def ChatMessageRoleSystem : Str := "system".toList
def ChatMessageRoleUser : Str := "user".toList

/-- The table `tokensMap` (client.go, lines 39-52). -/
def tokensMapEntries : List (Str × Int) :=
  [ ("gpt-4-32k-0613".toList, 32768),
    ("gpt-4-32k-0314".toList, 32768),
    ("gpt-4-32k".toList, 32768),
    ("gpt-4-0613".toList, 8192),
    ("gpt-4-0314".toList, 8192),
    ("gpt-4".toList, 8192),
    ("gpt-3.5-turbo-0613".toList, 4096),
    ("gpt-3.5-turbo-0301".toList, 4096),
    ("gpt-3.5-turbo-16k".toList, 16384),
    ("gpt-3.5-turbo-16k-0613".toList, 16384),
    ("gpt-3.5-turbo".toList, 4096),
    ("gpt-3.5-turbo-instruct".toList, 4096) ]

/-- The lookup `tokensMap[model]`; a missing key reads as 0. -/
def tokensMap (model : Str) : Int :=
  match tokensMapEntries.lookup model with
  | some limit => limit
  | none => 0

/-! ### The token estimate (client.go, lines 55-98) -/

/-- The `switch model` of `countTokens`: `tokensPerMessage` and `tokensPerName`
of an explicitly listed model, `none` for the `default` case. -/
def tokensPerModel (model : Str) : Option (Int × Int) :=
  if model = "gpt-3.5-turbo-0613".toList ∨ model = "gpt-3.5-turbo-16k-0613".toList ∨
      model = "gpt-4-0314".toList ∨ model = "gpt-4-32k-0314".toList ∨
      model = "gpt-4-0613".toList ∨ model = "gpt-4-32k-0613".toList then
    some (3, 1)
  else if model = "gpt-3.5-turbo-0301".toList then
    some (4, -1)
  else
    none

/-- The counting loop of `countTokens` (lines 85-97), reply priming included. -/
def countMessages (tkm : Str → Nat) (tokensPerMessage tokensPerName : Int)
    (messages : List ChatCompletionMessage) : Int :=
  messages.foldl
    (fun numTokens msg =>
      numTokens + tokensPerMessage + (tkm msg.Content : Int) + (tkm msg.Role : Int)
        + (tkm msg.Name : Int) + (if msg.Name ≠ [] then tokensPerName else 0))
    0 + 3

/-- The body of `countTokens`, with the function that stands at its two
recursive call sites as a parameter; the value that accompanies an error
is 0. -/
def countTokensBody (env : Env) (recur : Str → List ChatCompletionMessage → Result Int)
    (model : Str) (messages : List ChatCompletionMessage) : Result Int :=
  match env.encodingForModel model with
  | .error err => .error 0 err
  | .ok tkm =>
    match tokensPerModel model with
    | some (tokensPerMessage, tokensPerName) =>
      .ok (countMessages tkm tokensPerMessage tokensPerName messages)
    | none =>
      if Contains model "gpt-3.5-turbo".toList then
        recur "gpt-3.5-turbo-0613".toList messages
      else if Contains model "gpt-4".toList then
        recur "gpt-4-0613".toList messages
      else
        .error 0 (.notImplemented model)

/-- `countTokens`.  Both recursive calls name a model that the `switch` lists,
so the recursion is one level deep; a second level, which the code cannot
reach, is cut off. -/
def countTokens (env : Env) (model : Str) (messages : List ChatCompletionMessage) : Result Int :=
  countTokensBody env (countTokensBody env (fun _ _ => .runtimePanic)) model messages

/-! ### `getDeveloperTypeByExtension` (client.go, lines 100-152) -/

def devTypeTable : List (List String × String) :=
  [ ([".js", ".jsx", ".mjs", ".cjs", ".mjsx", ".cjsx"], "JavaScript"),
    ([".ts", ".tsx", ".mts", ".cts", ".mtsx", ".ctsx"], "TypeScript"),
    ([".py"], "Python"),
    ([".java", ".jsp"], "Java"),
    ([".scala", ".sc"], "Scala"),
    ([".kt", ".kts"], "Kotlin"),
    ([".groovy", ".gvy", ".gy", ".gsh"], "Groovy"),
    ([".rb"], "Ruby"),
    ([".php", ".phtml"], "PHP"),
    ([".r"], "R-Lang"),
    ([".c"], "C"),
    ([".cs"], "C#"),
    ([".cpp", ".cc", ".cxx", ".h", ".hpp"], "C++"),
    ([".go"], "Go"),
    ([".aspx", ".ascx", ".cshtml"], "ASP.NET"),
    ([".sh", ".bash", ".bat", ".ps1", ".cmd"], "Shell or batch scripts"),
    ([".html", ".htm", ".css", ".less", ".scss", ".sass", ".styl", ".stylus", ".vue", ".ejs"],
      "Frontend"),
    ([".rs"], "Rust"),
    ([".sql"], "SQL") ]

/-- The `switch extension` of `getDeveloperTypeByExtension`. -/
def devTypeOf (extension : Str) : Str :=
  match devTypeTable.find? (fun row => row.1.any (fun e => e.toList == extension)) with
  | some row => row.2.toList
  | none => []

def getDeveloperTypeByExtension (env : Env) (fileName : Str) : Str :=
  let extension := env.toLower (Ext fileName)
  let devType := devTypeOf extension
  if devType = [] then "expert programmer".toList
  else "expert ".toList ++ devType ++ " developer".toList

/-! ### Templates (utils/template.go, lines 57-77) -/

/-- `processTemplate`: the rendered buffer, or the error (with a nil buffer). -/
def processTemplate (env : Env) (name : Str) (data : Data) : Except GoError Str :=
  match env.templates name with
  | none => .error (.templateNotFound name)
  | some t => t data

/-- `GetTemplateByString`: the pair `(string, error)` it returns, the text
being the trimmed rendering, or, with an error, the trimmed text that
`String()` gives for a nil buffer. -/
def GetTemplateByString (env : Env) (name : Str) (data : Data) : Str × Option GoError :=
  match processTemplate env name data with
  | .ok tpl => (trimSpace tpl, none)
  | .error err => (trimSpace "<nil>".toList, some err)

/-! ### The completion call (client.go, lines 176-208) -/

/-- The message list built by `createChatCompletion` (lines 177-189). -/
def buildMessages (content : Str) (systemMessages : List Str) : List ChatCompletionMessage :=
  systemMessages.map
      (fun msg => { Role := ChatMessageRoleSystem, Content := trimSpace msg, Name := [] })
    ++ [{ Role := ChatMessageRoleUser, Content := trimSpace content, Name := [] }]

/-- The request built by `createChatCompletion` (lines 197-205). -/
def buildRequest (c : client) (messages : List ChatCompletionMessage) : ChatCompletionRequest :=
  { Model := c.model
    Messages := messages
    Stream := c.stream
    N := 1
    MaxTokens := c.maxTokens
    Temperature := c.temperature
    TopP := c.topP }

/-- The token estimate as `createChatCompletion` reads it: the error of
`countTokens` is dropped and its accompanying value 0 is used. -/
def estimateOrZero (env : Env) (model : Str) (messages : List ChatCompletionMessage) : Int :=
  match countTokens env model messages with
  | .ok numTokens => numTokens
  | .error numTokens _ => numTokens
  | .runtimePanic => 0

/-- `createChatCompletion`: the budget check, then one call of the backend,
which is recorded in the log. -/
def client.createChatCompletion (c : client) (env : Env) (w : World) (content : Str)
    (systemMessages : List Str) : TransportOutcome × World :=
  let messages := buildMessages content systemMessages
  let tokenLimit := tokensMap c.model
  let numTokens := estimateOrZero env c.model messages
  if numTokens > wrap64 (tokenLimit - c.maxTokens) then
    (.error (.tooManyTokens numTokens tokenLimit), w)
  else
    let req := buildRequest c messages
    let out := env.transport w.calls req
    (out, { w with calls := w.calls ++ [{ request := req, outcome := out }] })

/-- The four statements that follow a successful completion call (for instance
lines 262-265): the request counter and the three token sums. -/
def Stats.record (s : Stats) (u : Usage) : Stats :=
  { s with
    NumRequests := s.NumRequests + 1
    PromptTokens := wrap64 (s.PromptTokens + u.PromptTokens)
    CompletionTokens := wrap64 (s.CompletionTokens + u.CompletionTokens)
    TotalTokens := wrap64 (s.TotalTokens + u.TotalTokens) }

/-- `c.stats.NumFiles += 1`. -/
def Stats.countFile (s : Stats) : Stats := { s with NumFiles := s.NumFiles + 1 }

/-! ### The summarizers (client.go, lines 210-392) -/

/-- The block that follows every call site of `createChatCompletion` (lines
258-266, 311-319, 342-350, 359-367 and 382-391): return `""` and the error if
the call failed, else record the usage and read the trimmed text of the first
choice; indexing an empty `Choices` panics. -/
def client.completionStep (c : client) (env : Env) (w : World) (content : Str)
    (systemMsgs : List Str) : Result Str × World :=
  match c.createChatCompletion env w content systemMsgs with
  | (.error err, w1) => (.error [] err, w1)
  | (.ok resp, w1) =>
    let w2 := { w1 with stats := w1.stats.record resp.Usage }
    match resp.Choices with
    | [] => (.runtimePanic, w2)
    | choice :: _ => (.ok (trimSpace choice.Message.Content), w2)

/-- The system messages of one chunk (lines 228-256): the rendered template
and, only if a previous summary exists, the rendered continuation template. -/
def chunkSystemMsgs (env : Env) (template : Str) (data : Data) (prevChunkSummary : Str) :
    Except GoError (List Str) :=
  match GetTemplateByString env template data with
  | (_, some err) => .error err
  | (tmpMsg, none) =>
    if prevChunkSummary ≠ [] then
      match GetTemplateByString env env.PrevChunkSummaryTemplate
          [("prevChunkSummary".toList, prevChunkSummary)] with
      | (_, some err) => .error err
      | (tmpMsg2, none) => .ok [tmpMsg, tmpMsg2]
    else
      .ok [tmpMsg]

/-- The chunk loop shared by `SummarizeFile` (lines 227-272) and
`SummarizeDiff` (lines 281-325), which differ in the template and its data
only, followed by the two closing statements: run on the chunks that remain,
with the current `prevChunkSummary` and `result`. -/
def client.summarizeRest (c : client) (env : Env) (template : Str) (data : Str → Data) :
    List Str → Str → List Str → World → Result Str × World
  | [], _, result, w =>
    (.ok (trimSpace (Join result " ".toList)), { w with stats := w.stats.countFile })
  | chunk :: rest, prevChunkSummary, result, w =>
    match chunkSystemMsgs env template (data prevChunkSummary) prevChunkSummary with
    | .error err => (.error [] err, w)
    | .ok systemMsgs =>
      match c.completionStep env w chunk systemMsgs with
      | (.error val err, w1) => (.error val err, w1)
      | (.runtimePanic, w1) => (.runtimePanic, w1)
      | (.ok completion, w1) =>
        c.summarizeRest env template data rest completion (result ++ [completion]) w1

/-- The verb of `SummarizeFile` (lines 213-221). -/
def operationVerb (op : GitOperation) : Str :=
  if op = OPERATION_ADD then "Added".toList
  else if op = OPERATION_DEL then "Removed".toList
  else "Modified".toList

/-- Template data of `SummarizeFile` (lines 231-236). -/
def fileData (env : Env) (op : GitOperation) (fileName prevChunkSummary : Str) : Data :=
  [ ("operation".toList, op),
    ("devType".toList, getDeveloperTypeByExtension env fileName),
    ("file".toList, Base fileName),
    ("prevChunkSummary".toList, prevChunkSummary) ]

/-- Template data of `SummarizeDiff` (lines 285-289). -/
def diffData (env : Env) (fileName prevChunkSummary : Str) : Data :=
  [ ("devType".toList, getDeveloperTypeByExtension env fileName),
    ("file".toList, Base fileName),
    ("prevChunkSummary".toList, prevChunkSummary) ]

/-- `SummarizeFile` (client.go, lines 210-273). -/
def client.SummarizeFile (c : client) (env : Env) (w : World) (op : GitOperation)
    (fileName fileContent : Str) : Result Str × World :=
  let result := [operationVerb op ++ " file `".toList ++ fileName ++ "`: ".toList]
  let chunks := SplitText fileContent c.maxChunkSize
  c.summarizeRest env env.SummarizeFileTemplate (fileData env op fileName) chunks [] result w

/-- `SummarizeDiff` (client.go, lines 275-326). -/
def client.SummarizeDiff (c : client) (env : Env) (w : World) (fileName diff : Str) :
    Result Str × World :=
  let result := ["Modified file `".toList ++ fileName ++ "`: ".toList]
  let chunks := SplitText diff c.maxChunkSize
  c.summarizeRest env env.SummarizeDiffTemplate (diffData env fileName) chunks [] result w

/-- The loop of `SummarizeChanges` and what follows it (lines 340-370): run on
the summaries that remain, with the current `prompt` and `result`. -/
def client.aggregateRest (c : client) (env : Env) (systemMsg : Str) :
    List Str → Str → List Str → World → Result Str × World
  | [], prompt, result, w =>
    if trimSpace prompt ≠ [] then
      match c.completionStep env w prompt [systemMsg] with
      | (.error val err, w1) => (.error val err, w1)
      | (.runtimePanic, w1) => (.runtimePanic, w1)
      | (.ok text, w1) => (.ok (trimSpace (Join (result ++ [text]) "\n".toList)), w1)
    else
      (.ok (trimSpace (Join result "\n".toList)), w)
  | summary :: rest, prompt, result, w =>
    if ((byteLen prompt : Int) + (byteLen summary : Int)) > c.maxChunkSize then
      match c.completionStep env w prompt [systemMsg] with
      | (.error val err, w1) => (.error val err, w1)
      | (.runtimePanic, w1) => (.runtimePanic, w1)
      | (.ok text, w1) =>
        c.aggregateRest env systemMsg rest ("\n".toList ++ summary) (result ++ [text]) w1
    else
      c.aggregateRest env systemMsg rest (prompt ++ "\n".toList ++ summary) result w

/-- `SummarizeChanges` (client.go, lines 328-371). -/
def client.SummarizeChanges (c : client) (env : Env) (w : World) (changes : List Str) :
    Result Str × World :=
  match GetTemplateByString env env.SummarizeChangesTemplate [] with
  | (_, some err) => (.error [] err, w)
  | (systemMsg, none) => c.aggregateRest env systemMsg changes [] [] w

/-- `FinalizeCommitMsg` (client.go, lines 373-392). -/
def client.FinalizeCommitMsg (c : client) (env : Env) (w : World) (prompt : Str) :
    Result Str × World :=
  match GetTemplateByString env env.SummarizeChangesTemplate [] with
  | (_, some err) => (.error [] err, w)
  | (systemMsg, none) => c.completionStep env w prompt [systemMsg]

/-! ### The commit command (utils.go lines 36-95 and 201-209, commit.go lines 106-185) -/

def binaryExtensions : List String :=
  [ ".ai", ".bmp", ".eps", ".gif", ".ico", ".jng", ".jp2", ".jpg", ".jpeg", ".jpx", ".jxr",
    ".pdf", ".png", ".psb", ".psd", ".svgz", ".tif", ".tiff", ".wbmp", ".webp", ".kar", ".m4a",
    ".mid", ".midi", ".mp3", ".ogg", ".ra", ".3gpp", ".3gp", ".as", ".asf", ".asx", ".fla",
    ".flv", ".m4v", ".mng", ".mov", ".mp4", ".mpeg", ".mpg", ".ogv", ".swc", ".swf", ".webm",
    ".7z", ".gz", ".jar", ".rar", ".tar", ".zip", ".ttf", ".eot", ".otf", ".woff", ".woff2",
    ".exe", ".pyc" ]

/-- `IsBinaryFile` (utils.go, lines 201-209). -/
def IsBinaryFile (env : Env) (fileName : Str) : Bool :=
  let extension := env.toLower (Ext fileName)
  binaryExtensions.any (fun ext => ext.toList == extension)

/-- Lines 177-185 of the commit command: aggregate, then finalize.  The value
is the commit message returned by `FinalizeCommitMsg`. -/
def commitFinish (c : client) (env : Env) (changeSummaries : List Str) (w : World) :
    Result Str × World :=
  match c.SummarizeChanges env w changeSummaries with
  | (.error _ err, w1) => (.error [] err, w1)
  | (.runtimePanic, w1) => (.runtimePanic, w1)
  | (.ok summary, w1) => c.FinalizeCommitMsg env w1 summary

/-- The loop over `modifiedFiles` (lines 158-175) and what follows it. -/
def commitModified (c : client) (env : Env) :
    List Str → List Str → World → Result Str × World
  | [], changeSummaries, w => commitFinish c env changeSummaries w
  | fileName :: rest, changeSummaries, w =>
    if IsBinaryFile env fileName then
      commitModified c env rest
        (changeSummaries ++ ["Replaced binary file `".toList ++ fileName ++ "`".toList]) w
    else
      match env.diffFile fileName with
      | .error err => (.error [] err, w)
      | .ok diff =>
        match c.SummarizeDiff env w fileName diff with
        | (.error _ err, w1) => (.error [] err, w1)
        | (.runtimePanic, w1) => (.runtimePanic, w1)
        | (.ok summary, w1) => commitModified c env rest (changeSummaries ++ [summary]) w1

/-- The loop over `removedFiles` (lines 134-156) and what follows it. -/
def commitRemoved (c : client) (env : Env) (modifiedFiles : List Str) :
    List Str → List Str → World → Result Str × World
  | [], changeSummaries, w => commitModified c env modifiedFiles changeSummaries w
  | fileName :: rest, changeSummaries, w =>
    if IsBinaryFile env fileName then
      commitRemoved c env modifiedFiles rest
        (changeSummaries ++ ["Removed binary file `".toList ++ fileName ++ "`".toList]) w
    else
      match env.showDeletedFile fileName with
      | .error err => (.error [] err, w)
      | .ok fileContent =>
        match c.SummarizeFile env w OPERATION_DEL fileName (trimSpace fileContent) with
        | (.error _ err, w1) => (.error [] err, w1)
        | (.runtimePanic, w1) => (.runtimePanic, w1)
        | (.ok summary, w1) =>
          commitRemoved c env modifiedFiles rest (changeSummaries ++ [summary]) w1

/-- The loop over `addedFiles` (lines 110-132) and what follows it. -/
def commitAdded (c : client) (env : Env) (removedFiles modifiedFiles : List Str) :
    List Str → List Str → World → Result Str × World
  | [], changeSummaries, w => commitRemoved c env modifiedFiles removedFiles changeSummaries w
  | fileName :: rest, changeSummaries, w =>
    if IsBinaryFile env fileName then
      commitAdded c env removedFiles modifiedFiles rest
        (changeSummaries ++ ["Added binary file `".toList ++ fileName ++ "`".toList]) w
    else
      match env.readFile fileName with
      | .error err => (.error [] err, w)
      | .ok fileContent =>
        match c.SummarizeFile env w OPERATION_ADD fileName (trimSpace fileContent) with
        | (.error _ err, w1) => (.error [] err, w1)
        | (.runtimePanic, w1) => (.runtimePanic, w1)
        | (.ok summary, w1) =>
          commitAdded c env removedFiles modifiedFiles rest (changeSummaries ++ [summary]) w1

/-- The summarization pipeline of the commit command (lines 108-185), on the
three lists returned by `ParseGitStatus`. -/
def commitPipeline (c : client) (env : Env) (addedFiles removedFiles modifiedFiles : List Str)
    (w : World) : Result Str × World :=
  commitAdded c env removedFiles modifiedFiles addedFiles [] w

/-! ### A concrete environment for the examples -/

/-- ASCII lower-casing, which is what `strings.ToLower` does on ASCII text. -/
def asciiToLower (s : Str) : Str := s.map Char.toLower

/-- The choice of the example backend carrying the text `reply`. -/
def replyChoice (reply : Str) : ChatCompletionChoice :=
  { Message := { Role := "assistant".toList, Content := reply, Name := [] } }

/-- The response of the example backend carrying the text `reply`. -/
def replyWith (reply : Str) : ChatCompletionResponse :=
  { Choices := [replyChoice reply]
    Usage := { PromptTokens := 7, CompletionTokens := 2, TotalTokens := 9 } }

/-- An environment for the examples.  The tokenizer counts one token per rune;
every template is loaded and renders to its own name followed by the value of
`prevChunkSummary`; the backend answers its i-th call with the i-th text of
`replies` and fails when the texts are used up; the readers return `content`. -/
def exampleEnv (replies : List Str) (content : Str) : Env :=
  { encodingForModel := fun _ => .ok (fun s => s.length)
    templates := fun name => some (fun data =>
      .ok (name ++ " ".toList ++ (data.lookup "prevChunkSummary".toList).getD []))
    transport := fun calls _ =>
      match replies.get? calls.length with
      | some reply => .ok (replyWith reply)
      | none => .error (.external "no reply".toList)
    SummarizeFileTemplate := "summarize_file".toList
    PrevChunkSummaryTemplate := "prev_chunk_summary".toList
    SummarizeDiffTemplate := "summarize_diff".toList
    SummarizeChangesTemplate := "summarize_changes".toList
    toLower := asciiToLower
    readFile := fun _ => .ok content
    showDeletedFile := fun _ => .ok content
    diffFile := fun _ => .ok content }

/-- A client for the examples: model gpt-4, 100 reserved completion tokens. -/
def exampleClient (maxChunkSize : Int) : client :=
  { model := "gpt-4".toList
    stream := false
    maxTokens := 100
    temperature := 2 / 5
    topP := 1
    maxChunkSize := maxChunkSize }

/-- The state of a client fresh from `gpt.New`: zero `Stats`, no call made. -/
def World.fresh : World :=
  { stats := { NumFiles := 0, NumRequests := 0, PromptTokens := 0, CompletionTokens := 0,
               TotalTokens := 0 }
    calls := [] }

/-! ### Vocabulary of the statements -/

/-- The budget check of `createChatCompletion` lets the request through. -/
def withinBudget (c : client) (env : Env) (content : Str) (systemMessages : List Str) : Prop :=
  ¬ (estimateOrZero env c.model (buildMessages content systemMessages)
      > wrap64 (tokensMap c.model - c.maxTokens))

instance (c : client) (env : Env) (content : Str) (systemMessages : List Str) :
    Decidable (withinBudget c env content systemMessages) := by
  unfold withinBudget; infer_instance

/-- The responses of the calls that the backend answered without an error. -/
def okResponses : List Call → List ChatCompletionResponse
  | [] => []
  | call :: rest =>
    match call.outcome with
    | .ok resp => resp :: okResponses rest
    | .error _ => okResponses rest

/-- The three token counters are Go `int` values. -/
def Stats.wellFormed (s : Stats) : Prop :=
  fitsInt64 s.PromptTokens ∧ fitsInt64 s.CompletionTokens ∧ fitsInt64 s.TotalTokens

instance (s : Stats) : Decidable s.wellFormed := by unfold Stats.wellFormed; infer_instance

/-- The trimmed text of the first choice of a call, if the call succeeded and
the response has a choice. -/
def Call.completionText (call : Call) : Option Str :=
  match call.outcome with
  | .ok resp =>
    match resp.Choices with
    | choice :: _ => some (trimSpace choice.Message.Content)
    | [] => none
  | .error _ => none

/-- The calls of `w2` that were made after `w1`. -/
def newCalls (w1 w2 : World) : List Call := w2.calls.drop w1.calls.length


/-- The accounting of a run from `w1` to `w2`: the log only grew, the request
counter grew by the number of calls answered without an error, and each token
counter grew by the sum of the matching usage counts of those answers (a Go
`int` addition, hence `wrap64`). -/
def Accounted (w1 w2 : World) : Prop :=
  w2.calls = w1.calls ++ newCalls w1 w2 ∧
  w2.stats.NumRequests = w1.stats.NumRequests + ((okResponses (newCalls w1 w2)).length : Int) ∧
  w2.stats.PromptTokens = wrap64 (w1.stats.PromptTokens
    + ((okResponses (newCalls w1 w2)).map (fun r => r.Usage.PromptTokens)).sum) ∧
  w2.stats.CompletionTokens = wrap64 (w1.stats.CompletionTokens
    + ((okResponses (newCalls w1 w2)).map (fun r => r.Usage.CompletionTokens)).sum) ∧
  w2.stats.TotalTokens = wrap64 (w1.stats.TotalTokens
    + ((okResponses (newCalls w1 w2)).map (fun r => r.Usage.TotalTokens)).sum)

/-- Step-by-step form of the accounting: the counters of `w2` are those of
`w1` after one `Stats.record` per successful answer among `new`. -/
def Recorded (w1 w2 : World) (new : List Call) : Prop :=
  w2.calls = w1.calls ++ new ∧
  w2.stats.NumRequests = w1.stats.NumRequests + ((okResponses new).length : Int) ∧
  w2.stats.PromptTokens = (okResponses new).foldl
    (fun acc r => wrap64 (acc + r.Usage.PromptTokens)) w1.stats.PromptTokens ∧
  w2.stats.CompletionTokens = (okResponses new).foldl
    (fun acc r => wrap64 (acc + r.Usage.CompletionTokens)) w1.stats.CompletionTokens ∧
  w2.stats.TotalTokens = (okResponses new).foldl
    (fun acc r => wrap64 (acc + r.Usage.TotalTokens)) w1.stats.TotalTokens



/-- The number of files of a list that `IsBinaryFile` does not classify as
binary. -/
def nonBinaryCount (env : Env) (files : List Str) : Int :=
  ((files.filter (fun f => !IsBinaryFile env f)).length : Int)


/-- The example environment with a backend mocked to answer every call with
the text `reply`. -/
def mockEnv (reply content : Str) : Env :=
  { exampleEnv [] content with transport := fun _ _ => .ok (replyWith reply) }

/-- The previous-chunk summary in force when call number `i` of the calls `new`
of one summarization is made: `start` for the first call, afterwards the
trimmed text of the first choice of the call before. -/
def prevSummaryAt (start : Str) (new : List Call) : Nat → Str
  | 0 => start
  | i + 1 =>
    match new[i]? with
    | some call => call.completionText.getD []
    | none => []

/-- The system messages that go with a previous-chunk summary `prev`: the
rendered template, followed by the rendered continuation template only if
`prev` is not empty. -/
def systemMsgsFor (env : Env) (template : Str) (data : Str → Data) (prev : Str) : List Str :=
  if prev = [] then
    [(GetTemplateByString env template (data prev)).1]
  else
    [(GetTemplateByString env template (data prev)).1,
     (GetTemplateByString env env.PrevChunkSummaryTemplate
        [("prevChunkSummary".toList, prev)]).1]

/-- Carry-forward along the calls `new` made for the chunks `chunks`, the
first of them with previous summary `start`: call number `i` is made for chunk
number `i` with the system messages of the summary in force, and every call
that is followed by another one succeeded with a first choice, whose trimmed
text is the summary in force for the next call. -/
def CarriesForward (env : Env) (template : Str) (data : Str → Data) (start : Str)
    (chunks : List Str) (new : List Call) : Prop :=
  (∀ i call, new[i]? = some call →
    ∃ chunk, chunks[i]? = some chunk ∧
      call.request.Messages
        = buildMessages chunk (systemMsgsFor env template data (prevSummaryAt start new i))) ∧
  (∀ i, i + 1 < new.length →
    ∃ call resp choice others, new[i]? = some call ∧ call.outcome = .ok resp ∧
      resp.Choices = choice :: others ∧
      prevSummaryAt start new (i + 1) = trimSpace choice.Message.Content)

/-- The models that the `switch` of `countTokens` lists with
`tokensPerMessage = 3` and `tokensPerName = 1` (client.go, lines 63-68). -/
def listedModels31 : List Str :=
  [ "gpt-3.5-turbo-0613".toList, "gpt-3.5-turbo-16k-0613".toList, "gpt-4-0314".toList,
    "gpt-4-32k-0314".toList, "gpt-4-0613".toList, "gpt-4-32k-0613".toList ]

/-- The estimate of one message: `P` tokens per message, the encoded lengths
of content, role and name, and `A` more when the name is not empty. -/
def messageTokens (enc : Str → Nat) (P A : Int) (msg : ChatCompletionMessage) : Int :=
  P + (enc msg.Content : Int) + (enc msg.Role : Int) + (enc msg.Name : Int)
    + (if msg.Name ≠ [] then A else 0)

/-- An example environment in which the tokenizer lookup fails for every
model; the backend answers every call with the text `reply`. -/
def noTokenizerEnv (reply : Str) : Env :=
  { mockEnv reply [] with
    encodingForModel := fun _ => .error (.external "no encoding for model".toList) }

/-- A client configured with a model that neither the tokenizer nor
`countTokens` nor `tokensMap` knows. -/
def unknownModelClient (maxTokens : Int) : client :=
  { exampleClient 100 with model := "llama-2".toList, maxTokens := maxTokens }

/-- An example environment whose backend answers every call, without an error,
with a response that has no choice. -/
def noChoiceEnv : Env :=
  { exampleEnv [] "hello world".toList with
    transport := fun _ _ =>
      .ok { Choices := [], Usage := { PromptTokens := 7, CompletionTokens := 0,
                                      TotalTokens := 7 } } }

/-- The contents of the user messages of a request. -/
def userContents (req : ChatCompletionRequest) : List Str :=
  (req.Messages.filter (fun m => m.Role == ChatMessageRoleUser)).map (fun m => m.Content)

/-- The word that starts chunk `b` would overflow chunk `a`: the word-greedy
length of `a` plus the unit (rune count + 1) of the first word of `b` exceeds
`chunkSize`. -/
def Overflows (chunkSize : Int) (a b : Str) : Prop :=
  ∃ w rest, Fields b = w :: rest ∧ chunkSize < greedyLen a + ((w.length : Int) + 1)

/-- Every two consecutive chunks of the list are related by `Overflows`. -/
def PairsOverflow (chunkSize : Int) : List Str → Prop
  | a :: b :: rest => Overflows chunkSize a b ∧ PairsOverflow chunkSize (b :: rest)
  | _ => True


/-- The buffer that the loop of `SummarizeChanges` builds from a batch of
summaries: every summary preceded by a newline. -/
def bufferOf (batch : List Str) : Str := batch.flatMap (fun s => "\n".toList ++ s)

/-- The loop variables of `SummarizeFile` and `SummarizeDiff` when the loop,
started with `prevChunkSummary`, `result` and the state `w`, has gone through
the given chunks without leaving the function: the new `prevChunkSummary`,
`result` and state; `none` when one of these chunks made the function
return or panic. -/
def client.summarizeReach (c : client) (env : Env) (template : Str) (data : Str → Data) :
    List Str → Str → List Str → World → Option (Str × List Str × World)
  | [], prevChunkSummary, result, w => some (prevChunkSummary, result, w)
  | chunk :: rest, prevChunkSummary, result, w =>
    match chunkSystemMsgs env template (data prevChunkSummary) prevChunkSummary with
    | .error _ => none
    | .ok systemMsgs =>
      match c.completionStep env w chunk systemMsgs with
      | (.ok completion, w1) =>
        c.summarizeReach env template data rest completion (result ++ [completion]) w1
      | _ => none

/-! ### `ParseGitStatus` (git/operation.go, lines 35-57)

`ParseGitStatus` takes `len` of a line and slices it at byte offsets, so here a
Go string is the list of its bytes. -/

/-- A Go string as the list of its bytes (each below 256). -/
abbrev Bytes := List Nat

/-- UTF-8 encoding of one code point. -/
def encodeRune (n : Nat) : Bytes :=
  if n < 0x80 then [n]
  else if n < 0x800 then [0xC0 + n / 64, 0x80 + n % 64]
  else if n < 0x10000 then [0xE0 + n / 4096, 0x80 + (n / 64) % 64, 0x80 + n % 64]
  else [0xF0 + n / 262144, 0x80 + (n / 4096) % 64, 0x80 + (n / 64) % 64, 0x80 + n % 64]

/-- The bytes of a text. -/
def utf8Bytes (s : Str) : Bytes := s.flatMap (fun c => encodeRune c.toNat)

/-- The ASCII white space of Go: tab, newline, vertical tab, form feed,
carriage return and space. -/
def isAsciiSpaceByte (b : Nat) : Bool :=
  b == 9 || b == 10 || b == 11 || b == 12 || b == 13 || b == 32

/-- The third byte of a three-byte white-space code point, given the first
two: U+1680, U+2000 to U+200A, U+2028, U+2029, U+202F, U+205F and U+3000. -/
def isSpaceTriple (b1 b2 b3 : Nat) : Bool :=
  (b1 == 0xE1 && b2 == 0x9A && b3 == 0x80) ||
  (b1 == 0xE2 && b2 == 0x80 &&
    ((0x80 ≤ b3 && b3 ≤ 0x8A) || b3 == 0xA8 || b3 == 0xA9 || b3 == 0xAF)) ||
  (b1 == 0xE2 && b2 == 0x81 && b3 == 0x9F) ||
  (b1 == 0xE3 && b2 == 0x80 && b3 == 0x80)

/-- The two-byte white-space code points U+0085 and U+00A0. -/
def isSpacePair (b1 b2 : Nat) : Bool :=
  b1 == 0xC2 && (b2 == 0x85 || b2 == 0xA0)

/-- Width in bytes of the white-space code point that starts the text, 0 if
the text does not start with white space (`utf8.DecodeRuneInString` followed by
`unicode.IsSpace`; bytes that are not valid UTF-8 are not white space). -/
def leadingSpaceWidth : Bytes → Nat
  | [] => 0
  | [b1] => if isAsciiSpaceByte b1 then 1 else 0
  | [b1, b2] => if isAsciiSpaceByte b1 then 1 else if isSpacePair b1 b2 then 2 else 0
  | b1 :: b2 :: b3 :: _ =>
    if isAsciiSpaceByte b1 then 1
    else if isSpacePair b1 b2 then 2
    else if isSpaceTriple b1 b2 b3 then 3
    else 0

/-- Width in bytes of the white-space code point that ends the text whose
bytes are given last byte first, 0 if the text does not end with white space
(`utf8.DecodeLastRuneInString` followed by `unicode.IsSpace`). -/
def trailingSpaceWidth : Bytes → Nat
  | [] => 0
  | [b1] => if isAsciiSpaceByte b1 then 1 else 0
  | [b2, b1] => if isAsciiSpaceByte b2 then 1 else if isSpacePair b1 b2 then 2 else 0
  | b3 :: b2 :: b1 :: _ =>
    if isAsciiSpaceByte b3 then 1
    else if isSpacePair b2 b3 then 2
    else if isSpaceTriple b1 b2 b3 then 3
    else 0

/-- Drops white-space code points from the front, at most `fuel` of them. -/
def trimLeftFuel : Nat → Bytes → Bytes
  | 0, s => s
  | fuel + 1, s =>
    match leadingSpaceWidth s with
    | 0 => s
    | k + 1 => trimLeftFuel fuel (s.drop (k + 1))

/-- Drops white-space code points from the end of the text whose bytes are
given last byte first, at most `fuel` of them. -/
def trimRightFuel : Nat → Bytes → Bytes
  | 0, s => s
  | fuel + 1, s =>
    match trailingSpaceWidth s with
    | 0 => s
    | k + 1 => trimRightFuel fuel (s.drop (k + 1))

/-- Go `strings.TrimSpace` on bytes; a text of `n` bytes has at most `n`
code points to drop. -/
def trimSpaceBytes (s : Bytes) : Bytes :=
  let left := trimLeftFuel s.length s
  (trimRightFuel left.length left.reverse).reverse

/-- Go `strings.Split(s, "\n")`: the pieces between the newline bytes; there is
always at least one piece. -/
def splitLines : Bytes → List Bytes
  | [] => [[]]
  | b :: rest =>
    if b = 10 then [] :: splitLines rest
    else
      match splitLines rest with
      | first :: others => (b :: first) :: others
      | [] => [[b]]

/-- The three result lists of `ParseGitStatus`. -/
structure StatusLists where
  added : List Bytes
  removed : List Bytes
  modified : List Bytes
  deriving DecidableEq, Repr

/-- One iteration of the loop of `ParseGitStatus` (lines 38-54). -/
def parseStatusLine (acc : StatusLists) (line : Bytes) : StatusLists :=
  if line.length < 4 then acc
  else
    let status := trimSpaceBytes (line.take 2)
    let file := trimSpaceBytes (line.drop 3)
    if status = utf8Bytes OPERATION_ADD then { acc with added := acc.added ++ [file] }
    else if status = utf8Bytes OPERATION_DEL then { acc with removed := acc.removed ++ [file] }
    else if status = utf8Bytes OPERATION_MOD then { acc with modified := acc.modified ++ [file] }
    else acc

/-- `ParseGitStatus` (git/operation.go, lines 35-57). -/
def ParseGitStatus (status : Bytes) : StatusLists :=
  (splitLines status).foldl parseStatusLine { added := [], removed := [], modified := [] }

/-- The line is one that `ParseGitStatus` files under the operation `op`: it
has at least 4 bytes and its first two bytes trim to `op`. -/
def lineHasStatus (op : GitOperation) (line : Bytes) : Bool :=
  decide (4 ≤ line.length) && decide (trimSpaceBytes (line.take 2) = utf8Bytes op)

/-! ### The hook installer (utils/template.go, lines 79-83; git/git.go, lines 36-41
and 200-217) -/

/-- `GetTemplateByBytes`: the trimmed rendering with a nil error.  When
`processTemplate` returns an error its buffer is nil, and `tpl.Bytes()`, which
unlike `tpl.String()` reads the fields of the buffer, is evaluated before the
`return`: a nil-pointer panic. -/
def GetTemplateByBytes (env : Env) (name : Str) (data : Data) : Result Str :=
  match processTemplate env name data with
  | .ok tpl => .ok (trimSpace tpl)
  | .error _ => .runtimePanic

/-- The constant `hookFileName` (git.go, line 36). -/
def hookFileName : Str := "prepare-commit-msg".toList

/-- The variable `hookTemplate`, the text of the hook script (git.go, lines
38-41). -/
def hookTemplate : Str := "#!/bin/sh\n\ngit gpt commit --file $1 --preview\n".toList

/-- Collaborators of `InstallHook`: the outcome of `gc.hookPath()`,
`utils.IsFile`, `path.Join` and `os.WriteFile` (`none` for a nil error). -/
structure GitEnv where
  hookPath : Except GoError Str
  isFile : Str → Bool
  pathJoin : Str → Str → Str
  writeFile : Str → Str → Option GoError

/-- `InstallHook` (git.go, lines 200-217); it returns an error only. -/
def InstallHook (env : Env) (git : GitEnv) : Result Unit :=
  match git.hookPath with
  | .error err => .error () err
  | .ok hookPath =>
    let target := git.pathJoin (trimSpace hookPath) hookFileName
    if git.isFile target then
      .error () (.external "hook file prepare-commit-msg exist".toList)
    else
      match GetTemplateByBytes env hookTemplate [] with
      | .error _ err => .error () err
      | .runtimePanic => .runtimePanic
      | .ok content =>
        match git.writeFile target content with
        | some err => .error () err
        | none => .ok ()

/-- The example environment with the template map as `LoadTemplates` leaves
it: the four templates that the client names are loaded, no other name is. -/
def loadedEnv : Env :=
  { exampleEnv [] [] with
    templates := fun name =>
      if name = "summarize_file".toList ∨ name = "prev_chunk_summary".toList ∨
          name = "summarize_diff".toList ∨ name = "summarize_changes".toList then
        (exampleEnv [] []).templates name
      else none }

/-- An example repository for `InstallHook`: the hooks directory is found, no
hook file exists yet, and writing a file succeeds. -/
def exampleGit : GitEnv :=
  { hookPath := .ok ".git/hooks\n".toList
    isFile := fun _ => false
    pathJoin := fun dir file => dir ++ "/".toList ++ file
    writeFile := fun _ _ => none }

/-! ## Theorems -/

theorem splitWords_fst_noSpace (s : Str) : ∀ c ∈ (splitWords s).1, isSpace c = false := by
  induction s with
  | nil => simp [splitWords]
  | cons c cs ih =>
    by_cases hc : isSpace c = true
    · simp [splitWords, hc]
    · simp only [splitWords, hc]
      intro d hd
      simp at hd
      rcases hd with rfl | hd
      · simpa using hc
      · exact ih d hd

theorem splitWords_snd_isWord (s : Str) : ∀ w ∈ (splitWords s).2, IsWord w := by
  induction s with
  | nil => simp [splitWords]
  | cons c cs ih =>
    by_cases hc : isSpace c = true
    · simp only [splitWords, hc, if_true]
      by_cases h1 : (splitWords cs).1 = []
      · simpa [h1] using ih
      · intro w hw
        simp [h1] at hw
        rcases hw with rfl | hw
        · exact ⟨h1, splitWords_fst_noSpace cs⟩
        · exact ih w hw
    · simpa [splitWords, hc] using ih

theorem Fields_isWord (s : Str) : ∀ w ∈ Fields s, IsWord w := by
  intro w hw
  unfold Fields at hw
  by_cases h1 : (splitWords s).1 = []
  · simp [h1] at hw
    exact splitWords_snd_isWord s w hw
  · simp [h1] at hw
    rcases hw with rfl | hw
    · exact ⟨h1, splitWords_fst_noSpace s⟩
    · exact splitWords_snd_isWord s w hw

theorem splitWords_cons_space (c : Char) (cs : Str) (hc : isSpace c = true) :
    splitWords (c :: cs) =
      ([], if (splitWords cs).1 = [] then (splitWords cs).2
           else (splitWords cs).1 :: (splitWords cs).2) := by
  simp [splitWords, hc]

theorem splitWords_cons_noSpace (c : Char) (cs : Str) (hc : isSpace c = false) :
    splitWords (c :: cs) = (c :: (splitWords cs).1, (splitWords cs).2) := by
  simp [splitWords, hc]

theorem splitWords_append_space (a : Str) (sp : Char) (b : Str) (hsp : isSpace sp = true) :
    splitWords (a ++ sp :: b) = ((splitWords a).1, (splitWords a).2 ++ Fields b) := by
  induction a with
  | nil => simp [splitWords, hsp, Fields]
  | cons c cs ih =>
    by_cases hc : isSpace c = true
    · rw [List.cons_append, splitWords_cons_space _ _ hc, splitWords_cons_space _ _ hc, ih]
      by_cases h1 : (splitWords cs).1 = [] <;> simp [h1]
    · have hc2 : isSpace c = false := by simpa using hc
      rw [List.cons_append, splitWords_cons_noSpace _ _ hc2, splitWords_cons_noSpace _ _ hc2, ih]

theorem Fields_append_space (a : Str) (sp : Char) (b : Str) (hsp : isSpace sp = true) :
    Fields (a ++ sp :: b) = Fields a ++ Fields b := by
  unfold Fields
  rw [splitWords_append_space a sp b hsp]
  by_cases h1 : (splitWords a).1 = [] <;> simp [h1, Fields]

theorem splitWords_of_noSpace (w : Str) (h : ∀ c ∈ w, isSpace c = false) :
    splitWords w = (w, []) := by
  induction w with
  | nil => rfl
  | cons c cs ih =>
    have hc : isSpace c = false := h c (by simp)
    have := ih (fun d hd => h d (by simp [hd]))
    simp [splitWords, hc, this]

theorem Fields_word (w : Str) (h : IsWord w) : Fields w = [w] := by
  simp [Fields, splitWords_of_noSpace w h.2, h.1]

theorem Fields_nil : Fields [] = [] := rfl

theorem Fields_all_space (t : Str) (h : ∀ c ∈ t, isSpace c = true) : Fields t = [] := by
  induction t with
  | nil => rfl
  | cons c cs ih =>
    have := Fields_append_space [] c cs (h c (by simp))
    simp only [List.nil_append] at this
    rw [this, Fields_nil, ih (fun d hd => h d (by simp [hd]))]
    rfl

theorem Fields_append_all_space (a t : Str) (h : ∀ c ∈ t, isSpace c = true) :
    Fields (a ++ t) = Fields a := by
  cases t with
  | nil => simp
  | cons c cs =>
    rw [Fields_append_space a c cs (h c (by simp)),
      Fields_all_space cs (fun d hd => h d (by simp [hd]))]
    simp

theorem Fields_all_space_append (t b : Str) (h : ∀ c ∈ t, isSpace c = true) :
    Fields (t ++ b) = Fields b := by
  induction t with
  | nil => rfl
  | cons c cs ih =>
    have := Fields_append_space [] c (cs ++ b) (h c (by simp))
    simp only [List.nil_append] at this
    rw [List.cons_append, this, Fields_nil, ih (fun d hd => h d (by simp [hd]))]
    rfl

theorem Fields_dropWhile (s : Str) : Fields (s.dropWhile isSpace) = Fields s := by
  conv_rhs => rw [← List.takeWhile_append_dropWhile isSpace s]
  rw [Fields_all_space_append]
  intro c hc
  exact (List.mem_takeWhile_imp hc)

theorem Fields_rdropWhile (s : Str) :
    Fields ((s.reverse.dropWhile isSpace).reverse) = Fields s := by
  have h : s = (s.reverse.dropWhile isSpace).reverse ++ (s.reverse.takeWhile isSpace).reverse := by
    rw [← List.reverse_append, List.takeWhile_append_dropWhile, List.reverse_reverse]
  conv_rhs => rw [h]
  rw [Fields_append_all_space]
  intro c hc
  exact List.mem_takeWhile_imp (List.mem_reverse.mp hc)

theorem Fields_trimSpace (s : Str) : Fields (trimSpace s) = Fields s := by
  unfold trimSpace
  rw [Fields_rdropWhile, Fields_dropWhile]

theorem Fields_Join_space (chunks : List Str) :
    Fields (Join chunks [' ']) = (chunks.map Fields).flatten := by
  induction chunks with
  | nil => rfl
  | cons a rest ih =>
    cases rest with
    | nil => simp [Join]
    | cons b rest2 =>
      simp only [Join, List.append_assoc, List.singleton_append]
      rw [Fields_append_space a ' ' _ (by decide), ih]
      simp

theorem Fields_word_space (w : Str) (h : IsWord w) (rest : Str) :
    Fields (w ++ ' ' :: rest) = w :: Fields rest := by
  rw [Fields_append_space w ' ' rest (by decide), Fields_word w h]
  rfl

theorem Fields_append_word (cur w : Str) (hw : IsWord w)
    (hcur : cur = [] ∨ ∃ a sp, cur = a ++ [sp] ∧ isSpace sp = true) :
    Fields (cur ++ w ++ [' ']) = Fields cur ++ [w] := by
  rcases hcur with rfl | ⟨a, sp, rfl, hsp⟩
  · simpa using Fields_word_space w hw []
  · have h1 : a ++ [sp] ++ w ++ [' '] = a ++ sp :: (w ++ ' ' :: []) := by simp
    have h2 : a ++ [sp] = a ++ sp :: [] := rfl
    rw [h1, Fields_append_space a sp _ hsp, h2, Fields_append_space a sp [] hsp,
      Fields_word_space w hw []]
    simp [Fields_nil]

theorem splitStep_words (n : Int) (st : SplitState) (w : Str) (hw : IsWord w)
    (hcur : st.currentChunk = [] ∨ ∃ a sp, st.currentChunk = a ++ [sp] ∧ isSpace sp = true) :
    ((splitStep n st w).chunks.map Fields).flatten ++ Fields (splitStep n st w).currentChunk
      = ((st.chunks.map Fields).flatten ++ Fields st.currentChunk) ++ [w] ∧
    ((splitStep n st w).currentChunk = [] ∨
      ∃ a sp, (splitStep n st w).currentChunk = a ++ [sp] ∧ isSpace sp = true) := by
  unfold splitStep
  by_cases hle : ((w.length : Int) + 1) ≤ st.remainingSpace
  · simp only [hle, if_true]
    refine ⟨?_, Or.inr ⟨st.currentChunk ++ w, ' ', rfl, by decide⟩⟩
    rw [Fields_append_word _ _ hw hcur]
    simp
  · simp only [hle, if_false]
    refine ⟨?_, Or.inr ⟨w, ' ', rfl, by decide⟩⟩
    have : Fields (w ++ [' ']) = [w] := by simpa using Fields_word_space w hw []
    simp [Fields_trimSpace, this]

theorem foldl_splitStep_words (n : Int) (ws : List Str) :
    ∀ (st : SplitState), (∀ w ∈ ws, IsWord w) →
    (st.currentChunk = [] ∨ ∃ a sp, st.currentChunk = a ++ [sp] ∧ isSpace sp = true) →
    (((ws.foldl (splitStep n) st).chunks.map Fields).flatten
        ++ Fields (ws.foldl (splitStep n) st).currentChunk
      = ((st.chunks.map Fields).flatten ++ Fields st.currentChunk) ++ ws) := by
  induction ws with
  | nil => intro st _ _; simp
  | cons w rest ih =>
    intro st hws hcur
    have hstep := splitStep_words n st w (hws w (by simp)) hcur
    rw [List.foldl_cons, ih _ (fun v hv => hws v (by simp [hv])) hstep.2, hstep.1]
    simp

/-- The words of the chunks of `SplitText`, chunk after chunk, are the words
of the text. -/
theorem SplitText_words (text : Str) (n : Int) :
    ((SplitText text n).map Fields).flatten = Fields text := by
  have h := foldl_splitStep_words n (Fields text) ⟨[], [], n⟩ (Fields_isWord text) (Or.inl rfl)
  unfold SplitText
  simp only [List.map_append, List.flatten_append, List.map_cons, List.map_nil,
    Fields_trimSpace]
  simpa [Fields_nil] using h

/-- C1: for every text and positive chunk size, joining the chunks of
`SplitText` with single spaces and splitting the result on white space gives
exactly the word sequence of the text, in order. -/
theorem SplitText_join_fields (text : Str) (chunkSize : Int) (hpos : 0 < chunkSize) :
    Fields (Join (SplitText text chunkSize) [' ']) = Fields text := by
  have _ := hpos
  rw [Fields_Join_space, SplitText_words]

theorem SplitText_join_fields_witness :
    (0 : Int) < 5 ∧
    Fields (Join (SplitText "abcde fg  h\tij".toList 5) [' ']) = Fields "abcde fg  h\tij".toList :=
  ⟨by decide, SplitText_join_fields "abcde fg  h\tij".toList 5 (by decide)⟩

theorem greedyLen_trimSpace (s : Str) : greedyLen (trimSpace s) = greedyLen s := by
  simp [greedyLen, Fields_trimSpace]

theorem ChunkWithin_of_single (n : Int) (chunk w : Str) (h : Fields chunk = [w]) :
    ChunkWithin n chunk := by
  by_cases hle : greedyLen chunk ≤ n
  · exact Or.inl hle
  · refine Or.inr ⟨w, h, ?_⟩
    simp [greedyLen, h] at hle
    omega

theorem ChunkWithin_trimSpace (n : Int) (s : Str) (h : ChunkWithin n s) :
    ChunkWithin n (trimSpace s) := by
  unfold ChunkWithin at *
  rw [greedyLen_trimSpace, Fields_trimSpace]
  exact h

/-- Invariant of the loop of `SplitText` that carries the size bound. -/
theorem splitStep_bound (n : Int) (st : SplitState) (w : Str) (hw : IsWord w)
    (hcur : st.currentChunk = [] ∨ ∃ a sp, st.currentChunk = a ++ [sp] ∧ isSpace sp = true)
    (hrem : st.remainingSpace = n - greedyLen st.currentChunk)
    (hone : 0 ≤ st.remainingSpace ∨ ∃ v, Fields st.currentChunk = [v])
    (hchunks : ∀ c ∈ st.chunks, ChunkWithin n c) :
    (splitStep n st w).remainingSpace = n - greedyLen (splitStep n st w).currentChunk ∧
    (0 ≤ (splitStep n st w).remainingSpace ∨ ∃ v, Fields (splitStep n st w).currentChunk = [v]) ∧
    (∀ c ∈ (splitStep n st w).chunks, ChunkWithin n c) := by
  unfold splitStep
  by_cases hle : ((w.length : Int) + 1) ≤ st.remainingSpace
  · simp only [hle, if_true]
    refine ⟨?_, Or.inl (by omega), hchunks⟩
    simp only [greedyLen, Fields_append_word _ _ hw hcur, List.map_append, List.sum_append,
      List.map_cons, List.map_nil, List.sum_cons, List.sum_nil]
    simp only [greedyLen] at hrem
    omega
  · simp only [hle, if_false]
    have hf : Fields (w ++ [' ']) = [w] := by simpa using Fields_word_space w hw []
    refine ⟨?_, Or.inr ⟨w, hf⟩, ?_⟩
    · simp [greedyLen, hf]
    · intro c hc
      rcases List.mem_append.mp hc with hc | hc
      · exact hchunks c hc
      · simp only [List.mem_singleton] at hc
        subst hc
        apply ChunkWithin_trimSpace
        rcases hone with h0 | ⟨v, hv⟩
        · exact Or.inl (by omega)
        · exact ChunkWithin_of_single n _ v hv

theorem foldl_splitStep_bound (n : Int) (ws : List Str) :
    ∀ (st : SplitState), (∀ w ∈ ws, IsWord w) →
    (st.currentChunk = [] ∨ ∃ a sp, st.currentChunk = a ++ [sp] ∧ isSpace sp = true) →
    st.remainingSpace = n - greedyLen st.currentChunk →
    (0 ≤ st.remainingSpace ∨ ∃ v, Fields st.currentChunk = [v]) →
    (∀ c ∈ st.chunks, ChunkWithin n c) →
    (0 ≤ (ws.foldl (splitStep n) st).remainingSpace ∨
        ∃ v, Fields (ws.foldl (splitStep n) st).currentChunk = [v]) ∧
    (ws.foldl (splitStep n) st).remainingSpace
      = n - greedyLen (ws.foldl (splitStep n) st).currentChunk ∧
    (∀ c ∈ (ws.foldl (splitStep n) st).chunks, ChunkWithin n c) := by
  induction ws with
  | nil => intro st _ _ hrem hone hch; exact ⟨hone, hrem, hch⟩
  | cons w rest ih =>
    intro st hws hcur hrem hone hch
    have hw := hws w (by simp)
    have hb := splitStep_bound n st w hw hcur hrem hone hch
    have hc := (splitStep_words n st w hw hcur).2
    rw [List.foldl_cons]
    exact ih _ (fun v hv => hws v (by simp [hv])) hc hb.1 hb.2.1 hb.2.2

/-- C2 (amended): for every text and positive chunk size, every chunk of
`SplitText` has word-greedy length at most `chunkSize`, except possibly a chunk
that consists of a single word whose rune count + 1 exceeds `chunkSize`. -/
theorem SplitText_chunk_bound (text : Str) (chunkSize : Int) (hpos : 0 < chunkSize) :
    ∀ chunk ∈ SplitText text chunkSize,
      greedyLen chunk ≤ chunkSize ∨
        ∃ w, Fields chunk = [w] ∧ chunkSize < (w.length : Int) + 1 := by
  have h := foldl_splitStep_bound chunkSize (Fields text) ⟨[], [], chunkSize⟩
    (Fields_isWord text) (Or.inl rfl) (by simp [greedyLen, Fields_nil]) (Or.inl (le_of_lt hpos))
    (by simp)
  intro chunk hchunk
  unfold SplitText at hchunk
  rcases List.mem_append.mp hchunk with hc | hc
  · exact h.2.2 chunk hc
  · simp only [List.mem_singleton] at hc
    subst hc
    apply ChunkWithin_trimSpace
    rcases h.1 with h0 | ⟨v, hv⟩
    · exact Or.inl (by have := h.2.1; omega)
    · exact ChunkWithin_of_single chunkSize _ v hv

theorem SplitText_chunk_bound_witness :
    (0 : Int) < 5 ∧
    ∀ chunk ∈ SplitText "abcde fg h ij".toList 5,
      greedyLen chunk ≤ 5 ∨ ∃ w, Fields chunk = [w] ∧ (5 : Int) < (w.length : Int) + 1 :=
  ⟨by decide, SplitText_chunk_bound "abcde fg h ij".toList 5 (by decide)⟩

/-- C2 as stated fails: with `chunkSize = 5` the text "x abcde" yields the
chunks "x" and "abcde"; the second has word-greedy length 6, although its
single word has exactly 5 runes and so is not longer than `chunkSize`. -/
theorem SplitText_chunk_bound_counterexample :
    SplitText "x abcde".toList 5 = ["x".toList, "abcde".toList] ∧
    ¬ (∀ chunk ∈ SplitText "x abcde".toList 5,
        greedyLen chunk ≤ 5 ∨ ∃ w, Fields chunk = [w] ∧ (5 : Int) < (w.length : Int)) := by
  refine ⟨by decide, ?_⟩
  intro h
  have hmem : "abcde".toList ∈ SplitText "x abcde".toList 5 := by decide
  rcases h _ hmem with h1 | ⟨w, hw, hlen⟩
  · exact absurd h1 (by decide)
  · have hf : Fields "abcde".toList = ["abcde".toList] := by decide
    rw [hf] at hw
    have hw2 : w = "abcde".toList := by simpa using hw.symm
    subst hw2
    exact absurd hlen (by decide)

/-- C9 (code at the failing input): for the one-word text "abc" and
`chunkSize = 2` the loop flushes the still empty current chunk, so `SplitText`
returns an empty first chunk followed by "abc". -/
theorem SplitText_empty_first_chunk :
    SplitText "abc".toList 2 = [[], "abc".toList] ∧ Fields "abc".toList = ["abc".toList] := by
  decide




/-! ### The completion call -/

theorem wrap64_of_fits (x : Int) (h : fitsInt64 x) : wrap64 x = x := by
  unfold wrap64
  unfold fitsInt64 at h
  omega

theorem wrap64_fits (x : Int) : fitsInt64 (wrap64 x) := by
  unfold wrap64 fitsInt64
  omega

theorem wrap64_add_wrap64 (a b : Int) : wrap64 (wrap64 a + b) = wrap64 (a + b) := by
  unfold wrap64
  omega

theorem createChatCompletion_rejected (c : client) (env : Env) (w : World) (content : Str)
    (systemMessages : List Str) (h : ¬ withinBudget c env content systemMessages) :
    c.createChatCompletion env w content systemMessages =
      (.error (.tooManyTokens (estimateOrZero env c.model (buildMessages content systemMessages))
        (tokensMap c.model)), w) := by
  unfold withinBudget at h
  simp only [not_not] at h
  simp [client.createChatCompletion, h]

theorem createChatCompletion_sent (c : client) (env : Env) (w : World) (content : Str)
    (systemMessages : List Str) (h : withinBudget c env content systemMessages) :
    c.createChatCompletion env w content systemMessages =
      (env.transport w.calls (buildRequest c (buildMessages content systemMessages)),
       { w with calls := w.calls ++
          [{ request := buildRequest c (buildMessages content systemMessages)
             outcome := env.transport w.calls
               (buildRequest c (buildMessages content systemMessages)) }] }) := by
  unfold withinBudget at h
  simp [client.createChatCompletion, h]

theorem estimateOrZero_of_ok (env : Env) (model : Str) (messages : List ChatCompletionMessage)
    (E : Int) (h : countTokens env model messages = .ok E) :
    estimateOrZero env model messages = E := by
  simp [estimateOrZero, h]

/-- C3: if the token estimate of the configured model succeeds with value `E`,
the limit from `tokensMap` is `L` and `M` completion tokens are reserved (with
`L - M` a Go `int`), then `createChatCompletion` returns the too-many-tokens
error and leaves the call log untouched when `E > L - M`, and calls the backend
exactly once, returning its outcome, when `E ≤ L - M`; so a call is logged
only if `E ≤ L - M`. -/
theorem createChatCompletion_budget (c : client) (env : Env) (w : World) (content : Str)
    (systemMessages : List Str) (E : Int)
    (hE : countTokens env c.model (buildMessages content systemMessages) = .ok E)
    (hfit : fitsInt64 (tokensMap c.model - c.maxTokens)) :
    (E > tokensMap c.model - c.maxTokens →
      c.createChatCompletion env w content systemMessages
        = (.error (.tooManyTokens E (tokensMap c.model)), w)) ∧
    (E ≤ tokensMap c.model - c.maxTokens →
      (c.createChatCompletion env w content systemMessages).1
          = env.transport w.calls (buildRequest c (buildMessages content systemMessages)) ∧
      (c.createChatCompletion env w content systemMessages).2.calls
          = w.calls ++ [{ request := buildRequest c (buildMessages content systemMessages)
                          outcome := env.transport w.calls
                            (buildRequest c (buildMessages content systemMessages)) }] ∧
      (c.createChatCompletion env w content systemMessages).2.stats = w.stats) ∧
    ((c.createChatCompletion env w content systemMessages).2.calls ≠ w.calls →
      E ≤ tokensMap c.model - c.maxTokens) := by
  have hest := estimateOrZero_of_ok env c.model _ E hE
  have hwrap := wrap64_of_fits _ hfit
  refine ⟨?_, ?_, ?_⟩
  · intro hgt
    have hno : ¬ withinBudget c env content systemMessages := by
      unfold withinBudget
      rw [hest, hwrap]
      exact not_not.mpr hgt
    rw [createChatCompletion_rejected c env w content systemMessages hno, hest]
  · intro hle
    have hyes : withinBudget c env content systemMessages := by
      unfold withinBudget
      rw [hest, hwrap]
      exact not_lt.mpr hle
    rw [createChatCompletion_sent c env w content systemMessages hyes]
    exact ⟨rfl, rfl, rfl⟩
  · intro hne
    by_contra hgt
    have hno : ¬ withinBudget c env content systemMessages := by
      unfold withinBudget
      rw [hest, hwrap]
      exact not_not.mpr (not_le.mp hgt)
    rw [createChatCompletion_rejected c env w content systemMessages hno] at hne
    exact hne rfl

theorem createChatCompletion_budget_witness :
    countTokens (exampleEnv ["ok".toList] []) (exampleClient 100).model
        (buildMessages "hello".toList ["sys".toList]) = .ok 27 ∧
    fitsInt64 (tokensMap (exampleClient 100).model - (exampleClient 100).maxTokens) ∧
    ((27 : Int) ≤ tokensMap (exampleClient 100).model - (exampleClient 100).maxTokens →
      ((exampleClient 100).createChatCompletion (exampleEnv ["ok".toList] []) World.fresh
          "hello".toList ["sys".toList]).1
        = (exampleEnv ["ok".toList] []).transport World.fresh.calls
            (buildRequest (exampleClient 100) (buildMessages "hello".toList ["sys".toList])) ∧
      ((exampleClient 100).createChatCompletion (exampleEnv ["ok".toList] []) World.fresh
          "hello".toList ["sys".toList]).2.calls
        = World.fresh.calls ++
            [{ request :=
                 buildRequest (exampleClient 100) (buildMessages "hello".toList ["sys".toList])
               outcome := (exampleEnv ["ok".toList] []).transport World.fresh.calls
                 (buildRequest (exampleClient 100)
                   (buildMessages "hello".toList ["sys".toList])) }] ∧
      ((exampleClient 100).createChatCompletion (exampleEnv ["ok".toList] []) World.fresh
          "hello".toList ["sys".toList]).2.stats = World.fresh.stats) :=
  ⟨by decide, by decide,
    (createChatCompletion_budget (exampleClient 100) (exampleEnv ["ok".toList] []) World.fresh
      "hello".toList ["sys".toList] 27 (by decide) (by decide)).2.1⟩

/-! ### The completion step and the accounting of usage -/

theorem okResponses_append (a b : List Call) :
    okResponses (a ++ b) = okResponses a ++ okResponses b := by
  induction a with
  | nil => rfl
  | cons call rest ih =>
    simp only [List.cons_append, okResponses]
    cases call.outcome <;> simp [ih]

theorem Recorded.refl (w : World) : Recorded w w [] := by
  simp [Recorded, okResponses]

theorem Recorded.trans {w1 w2 w3 : World} {n1 n2 : List Call}
    (h1 : Recorded w1 w2 n1) (h2 : Recorded w2 w3 n2) : Recorded w1 w3 (n1 ++ n2) := by
  obtain ⟨a1, b1, c1, d1, e1⟩ := h1
  obtain ⟨a2, b2, c2, d2, e2⟩ := h2
  refine ⟨?_, ?_, ?_, ?_, ?_⟩
  · rw [a2, a1, List.append_assoc]
  · rw [b2, b1, okResponses_append, List.length_append]; push_cast; ring
  · rw [c2, c1, okResponses_append, List.foldl_append]
  · rw [d2, d1, okResponses_append, List.foldl_append]
  · rw [e2, e1, okResponses_append, List.foldl_append]

/-- What `completionStep` does, case by case: a request outside the budget is
rejected and leaves the state alone; otherwise exactly one call is logged, and
the usage is recorded exactly when the backend answered without an error. -/
theorem completionStep_cases (c : client) (env : Env) (w : World) (content : Str)
    (systemMsgs : List Str) :
    (¬ withinBudget c env content systemMsgs ∧
      ∃ err, c.completionStep env w content systemMsgs = (.error [] err, w)) ∨
    (withinBudget c env content systemMsgs ∧
      ∃ call : Call,
        call.request = buildRequest c (buildMessages content systemMsgs) ∧
        call.outcome = env.transport w.calls call.request ∧
        ((∃ err, call.outcome = .error err ∧
            c.completionStep env w content systemMsgs
              = (.error [] err, { stats := w.stats, calls := w.calls ++ [call] })) ∨
         (∃ resp, call.outcome = .ok resp ∧ resp.Choices = [] ∧
            c.completionStep env w content systemMsgs
              = (.runtimePanic,
                  { stats := w.stats.record resp.Usage, calls := w.calls ++ [call] })) ∨
         (∃ resp choice others, call.outcome = .ok resp ∧ resp.Choices = choice :: others ∧
            c.completionStep env w content systemMsgs
              = (.ok (trimSpace choice.Message.Content),
                  { stats := w.stats.record resp.Usage, calls := w.calls ++ [call] })))) := by
  by_cases hb : withinBudget c env content systemMsgs
  · right
    refine ⟨hb, ⟨buildRequest c (buildMessages content systemMsgs),
      env.transport w.calls (buildRequest c (buildMessages content systemMsgs))⟩, rfl, rfl, ?_⟩
    unfold client.completionStep
    rw [createChatCompletion_sent c env w content systemMsgs hb]
    cases hout : env.transport w.calls (buildRequest c (buildMessages content systemMsgs)) with
    | error err => exact Or.inl ⟨err, rfl, rfl⟩
    | ok resp =>
      right
      cases hch : resp.Choices with
      | nil => exact Or.inl ⟨resp, rfl, hch, by simp [hch]⟩
      | cons choice others => exact Or.inr ⟨resp, choice, others, rfl, hch, by simp [hch]⟩
  · left
    refine ⟨hb, .tooManyTokens (estimateOrZero env c.model (buildMessages content systemMsgs))
      (tokensMap c.model), ?_⟩
    unfold client.completionStep
    rw [createChatCompletion_rejected c env w content systemMsgs hb]

theorem completionStep_recorded (c : client) (env : Env) (w : World) (content : Str)
    (systemMsgs : List Str) :
    ∃ new, Recorded w (c.completionStep env w content systemMsgs).2 new := by
  rcases completionStep_cases c env w content systemMsgs with
    ⟨_, err, h⟩ | ⟨_, call, _, _, ⟨err, ho, h⟩ | ⟨resp, ho, _, h⟩ | ⟨resp, ch, ot, ho, _, h⟩⟩
  · exact ⟨[], by rw [h]; exact Recorded.refl w⟩
  · exact ⟨[call], by rw [h]; simp [Recorded, okResponses, ho]⟩
  · exact ⟨[call], by rw [h]; simp [Recorded, okResponses, ho, Stats.record]⟩
  · exact ⟨[call], by rw [h]; simp [Recorded, okResponses, ho, Stats.record]⟩

theorem Recorded.after_countFile {w1 w2 : World} {new : List Call} (h : Recorded w1 w2 new) :
    Recorded w1 { w2 with stats := w2.stats.countFile } new := by
  simpa [Recorded, Stats.countFile] using h

theorem summarizeRest_nil (c : client) (env : Env) (template : Str) (data : Str → Data)
    (prev : Str) (result : List Str) (w : World) :
    c.summarizeRest env template data [] prev result w
      = (.ok (trimSpace (Join result " ".toList)), { w with stats := w.stats.countFile }) := by
  simp [client.summarizeRest]

theorem summarizeRest_sys_error (c : client) (env : Env) (template : Str) (data : Str → Data)
    (chunk : Str) (rest : List Str) (prev : Str) (result : List Str) (w : World) (err : GoError)
    (hsys : chunkSystemMsgs env template (data prev) prev = .error err) :
    c.summarizeRest env template data (chunk :: rest) prev result w = (.error [] err, w) := by
  simp [client.summarizeRest, hsys]

theorem summarizeRest_step_error (c : client) (env : Env) (template : Str) (data : Str → Data)
    (chunk : Str) (rest : List Str) (prev : Str) (result : List Str) (w w1 : World)
    (systemMsgs : List Str) (val : Str) (err : GoError)
    (hsys : chunkSystemMsgs env template (data prev) prev = .ok systemMsgs)
    (hstep : c.completionStep env w chunk systemMsgs = (.error val err, w1)) :
    c.summarizeRest env template data (chunk :: rest) prev result w = (.error val err, w1) := by
  simp [client.summarizeRest, hsys, hstep]

theorem summarizeRest_step_crash (c : client) (env : Env) (template : Str) (data : Str → Data)
    (chunk : Str) (rest : List Str) (prev : Str) (result : List Str) (w w1 : World)
    (systemMsgs : List Str)
    (hsys : chunkSystemMsgs env template (data prev) prev = .ok systemMsgs)
    (hstep : c.completionStep env w chunk systemMsgs = (.runtimePanic, w1)) :
    c.summarizeRest env template data (chunk :: rest) prev result w = (.runtimePanic, w1) := by
  simp [client.summarizeRest, hsys, hstep]

theorem summarizeRest_step_ok (c : client) (env : Env) (template : Str) (data : Str → Data)
    (chunk : Str) (rest : List Str) (prev : Str) (result : List Str) (w w1 : World)
    (systemMsgs : List Str) (completion : Str)
    (hsys : chunkSystemMsgs env template (data prev) prev = .ok systemMsgs)
    (hstep : c.completionStep env w chunk systemMsgs = (.ok completion, w1)) :
    c.summarizeRest env template data (chunk :: rest) prev result w
      = c.summarizeRest env template data rest completion (result ++ [completion]) w1 := by
  simp [client.summarizeRest, hsys, hstep]

theorem summarizeRest_recorded (c : client) (env : Env) (template : Str) (data : Str → Data)
    (chunks : List Str) :
    ∀ (prev : Str) (result : List Str) (w : World),
      ∃ new, Recorded w (c.summarizeRest env template data chunks prev result w).2 new := by
  induction chunks with
  | nil =>
    intro prev result w
    rw [summarizeRest_nil]
    exact ⟨[], (Recorded.refl w).after_countFile⟩
  | cons chunk rest ih =>
    intro prev result w
    cases hsys : chunkSystemMsgs env template (data prev) prev with
    | error err =>
      rw [summarizeRest_sys_error c env template data chunk rest prev result w err hsys]
      exact ⟨[], Recorded.refl w⟩
    | ok systemMsgs =>
      obtain ⟨n1, h1⟩ := completionStep_recorded c env w chunk systemMsgs
      cases hstep : c.completionStep env w chunk systemMsgs with
      | mk r w1 =>
        rw [hstep] at h1
        cases r with
        | error val err =>
          rw [summarizeRest_step_error c env template data chunk rest prev result w w1
            systemMsgs val err hsys hstep]
          exact ⟨n1, h1⟩
        | runtimePanic =>
          rw [summarizeRest_step_crash c env template data chunk rest prev result w w1
            systemMsgs hsys hstep]
          exact ⟨n1, h1⟩
        | ok completion =>
          rw [summarizeRest_step_ok c env template data chunk rest prev result w w1
            systemMsgs completion hsys hstep]
          obtain ⟨n2, h2⟩ := ih completion (result ++ [completion]) w1
          exact ⟨n1 ++ n2, h1.trans h2⟩

theorem aggregateRest_nil_blank (c : client) (env : Env) (systemMsg prompt : Str)
    (result : List Str) (w : World) (hp : trimSpace prompt = []) :
    c.aggregateRest env systemMsg [] prompt result w
      = (.ok (trimSpace (Join result "\n".toList)), w) := by
  simp [client.aggregateRest, hp]

theorem aggregateRest_nil_flush (c : client) (env : Env) (systemMsg prompt : Str)
    (result : List Str) (w : World) (hp : trimSpace prompt ≠ []) :
    c.aggregateRest env systemMsg [] prompt result w
      = match c.completionStep env w prompt [systemMsg] with
        | (.error val err, w1) => (.error val err, w1)
        | (.runtimePanic, w1) => (.runtimePanic, w1)
        | (.ok text, w1) => (.ok (trimSpace (Join (result ++ [text]) "\n".toList)), w1) := by
  simp [client.aggregateRest, hp]

theorem aggregateRest_cons_keep (c : client) (env : Env) (systemMsg summary : Str)
    (rest : List Str) (prompt : Str) (result : List Str) (w : World)
    (hlen : ¬ ((byteLen prompt : Int) + (byteLen summary : Int)) > c.maxChunkSize) :
    c.aggregateRest env systemMsg (summary :: rest) prompt result w
      = c.aggregateRest env systemMsg rest (prompt ++ "\n".toList ++ summary) result w := by
  simp only [client.aggregateRest, hlen, if_false]

theorem aggregateRest_cons_flush (c : client) (env : Env) (systemMsg summary : Str)
    (rest : List Str) (prompt : Str) (result : List Str) (w : World)
    (hlen : ((byteLen prompt : Int) + (byteLen summary : Int)) > c.maxChunkSize) :
    c.aggregateRest env systemMsg (summary :: rest) prompt result w
      = match c.completionStep env w prompt [systemMsg] with
        | (.error val err, w1) => (.error val err, w1)
        | (.runtimePanic, w1) => (.runtimePanic, w1)
        | (.ok text, w1) =>
          c.aggregateRest env systemMsg rest ("\n".toList ++ summary) (result ++ [text]) w1 := by
  simp only [client.aggregateRest, hlen, if_true]

theorem aggregateRest_recorded (c : client) (env : Env) (systemMsg : Str)
    (changes : List Str) :
    ∀ (prompt : Str) (result : List Str) (w : World),
      ∃ new, Recorded w (c.aggregateRest env systemMsg changes prompt result w).2 new := by
  induction changes with
  | nil =>
    intro prompt result w
    by_cases hp : trimSpace prompt = []
    · rw [aggregateRest_nil_blank c env systemMsg prompt result w hp]
      exact ⟨[], Recorded.refl w⟩
    · rw [aggregateRest_nil_flush c env systemMsg prompt result w hp]
      obtain ⟨n1, h1⟩ := completionStep_recorded c env w prompt [systemMsg]
      cases hstep : c.completionStep env w prompt [systemMsg] with
      | mk r w1 =>
        rw [hstep] at h1
        cases r <;> exact ⟨n1, h1⟩
  | cons summary rest ih =>
    intro prompt result w
    by_cases hlen : ((byteLen prompt : Int) + (byteLen summary : Int)) > c.maxChunkSize
    · rw [aggregateRest_cons_flush c env systemMsg summary rest prompt result w hlen]
      obtain ⟨n1, h1⟩ := completionStep_recorded c env w prompt [systemMsg]
      cases hstep : c.completionStep env w prompt [systemMsg] with
      | mk r w1 =>
        rw [hstep] at h1
        cases r with
        | error val err => exact ⟨n1, h1⟩
        | runtimePanic => exact ⟨n1, h1⟩
        | ok text =>
          obtain ⟨n2, h2⟩ := ih ("\n".toList ++ summary) (result ++ [text]) w1
          exact ⟨n1 ++ n2, h1.trans h2⟩
    · rw [aggregateRest_cons_keep c env systemMsg summary rest prompt result w hlen]
      exact ih _ _ _

theorem foldl_wrap64_eq (f : ChatCompletionResponse → Int) (rs : List ChatCompletionResponse) :
    ∀ (acc : Int), fitsInt64 acc →
      rs.foldl (fun a r => wrap64 (a + f r)) acc = wrap64 (acc + (rs.map f).sum) := by
  induction rs with
  | nil => intro acc h; simp [wrap64_of_fits acc h]
  | cons r rest ih =>
    intro acc _
    rw [List.foldl_cons, ih _ (wrap64_fits _), wrap64_add_wrap64]
    simp [add_assoc]

theorem Recorded.accounted {w1 w2 : World} {new : List Call} (h : Recorded w1 w2 new)
    (hwf : w1.stats.wellFormed) : Accounted w1 w2 := by
  obtain ⟨a, b, c1, d, e⟩ := h
  have hn : newCalls w1 w2 = new := by simp [newCalls, a]
  unfold Accounted
  rw [hn]
  refine ⟨a, b, ?_, ?_, ?_⟩
  · rw [c1, foldl_wrap64_eq _ _ _ hwf.1]
  · rw [d, foldl_wrap64_eq _ _ _ hwf.2.1]
  · rw [e, foldl_wrap64_eq _ _ _ hwf.2.2]

theorem SummarizeChanges_recorded (c : client) (env : Env) (w : World) (changes : List Str) :
    ∃ new, Recorded w (c.SummarizeChanges env w changes).2 new := by
  unfold client.SummarizeChanges
  cases h : GetTemplateByString env env.SummarizeChangesTemplate [] with
  | mk systemMsg oerr =>
    cases oerr with
    | some err => exact ⟨[], Recorded.refl w⟩
    | none => exact aggregateRest_recorded c env systemMsg changes [] [] w

theorem FinalizeCommitMsg_recorded (c : client) (env : Env) (w : World) (prompt : Str) :
    ∃ new, Recorded w (c.FinalizeCommitMsg env w prompt).2 new := by
  unfold client.FinalizeCommitMsg
  cases h : GetTemplateByString env env.SummarizeChangesTemplate [] with
  | mk systemMsg oerr =>
    cases oerr with
    | some err => exact ⟨[], Recorded.refl w⟩
    | none => exact completionStep_recorded c env w prompt [systemMsg]

theorem completionStep_failed_stats (c : client) (env : Env) (w : World) (content : Str)
    (systemMsgs : List Str)
    (hfail : ∀ resp, (c.createChatCompletion env w content systemMsgs).1 ≠ .ok resp) :
    (c.completionStep env w content systemMsgs).2.stats = w.stats := by
  unfold client.completionStep
  cases h : c.createChatCompletion env w content systemMsgs with
  | mk out w1 =>
    cases out with
    | ok resp => exact absurd (by rw [h]) (hfail resp)
    | error err =>
      by_cases hb : withinBudget c env content systemMsgs
      · rw [createChatCompletion_sent c env w content systemMsgs hb] at h
        simp only [Prod.mk.injEq] at h
        rw [← h.2]
      · rw [createChatCompletion_rejected c env w content systemMsgs hb] at h
        simp only [Prod.mk.injEq] at h
        rw [← h.2]

/-- C10: from a state whose token counters are Go `int` values, each of
`SummarizeFile`, `SummarizeDiff`, `SummarizeChanges` and `FinalizeCommitMsg`,
whatever the backend answers, only appends to the call log, raises
`NumRequests` by the number of calls that were answered without an error and
raises `PromptTokens`, `CompletionTokens` and `TotalTokens` by the sums of the
usage counts of those answers (in Go `int` arithmetic); a completion call that
is rejected or fails leaves the `Stats` as they were. -/
theorem stats_accounting (c : client) (env : Env) (w : World) (hwf : w.stats.wellFormed)
    (op : GitOperation) (fileName fileContent diff prompt : Str) (changes : List Str) :
    Accounted w (c.SummarizeFile env w op fileName fileContent).2 ∧
    Accounted w (c.SummarizeDiff env w fileName diff).2 ∧
    Accounted w (c.SummarizeChanges env w changes).2 ∧
    Accounted w (c.FinalizeCommitMsg env w prompt).2 ∧
    (∀ content systemMsgs,
      (∀ resp, (c.createChatCompletion env w content systemMsgs).1 ≠ .ok resp) →
      (c.completionStep env w content systemMsgs).2.stats = w.stats) := by
  refine ⟨?_, ?_, ?_, ?_, ?_⟩
  · obtain ⟨new, h⟩ := summarizeRest_recorded c env env.SummarizeFileTemplate
      (fileData env op fileName) (SplitText fileContent c.maxChunkSize) []
      [operationVerb op ++ " file `".toList ++ fileName ++ "`: ".toList] w
    exact h.accounted hwf
  · obtain ⟨new, h⟩ := summarizeRest_recorded c env env.SummarizeDiffTemplate
      (diffData env fileName) (SplitText diff c.maxChunkSize) []
      ["Modified file `".toList ++ fileName ++ "`: ".toList] w
    exact h.accounted hwf
  · obtain ⟨new, h⟩ := SummarizeChanges_recorded c env w changes
    exact h.accounted hwf
  · obtain ⟨new, h⟩ := FinalizeCommitMsg_recorded c env w prompt
    exact h.accounted hwf
  · intro content systemMsgs hfail
    exact completionStep_failed_stats c env w content systemMsgs hfail

theorem stats_accounting_witness :
    World.fresh.stats.wellFormed ∧
    Accounted World.fresh
      ((exampleClient 4).SummarizeFile (exampleEnv ["one".toList, "two".toList] []) World.fresh
        OPERATION_ADD "a.go".toList "ab cd ef".toList).2 ∧
    ((exampleClient 4).SummarizeFile (exampleEnv ["one".toList, "two".toList] []) World.fresh
        OPERATION_ADD "a.go".toList "ab cd ef".toList).2.stats
      = { NumFiles := 0, NumRequests := 2, PromptTokens := 14, CompletionTokens := 4,
          TotalTokens := 18 } :=
  ⟨by decide,
   (stats_accounting (exampleClient 4) (exampleEnv ["one".toList, "two".toList] []) World.fresh
      (by decide) OPERATION_ADD "a.go".toList "ab cd ef".toList [] [] []).1,
   by decide⟩

/-! ### The commit command -/

/-- C7: for a file name that `IsBinaryFile` classifies as binary, each of the
three loops of the commit command handles the file without any completion call
(the state, call log included, is handed on unchanged) and appends exactly the
fixed sentence of its operation to the change summaries. -/
theorem binary_file_bypass (c : client) (env : Env) (removedFiles modifiedFiles rest : List Str)
    (changeSummaries : List Str) (w : World) (fileName : Str)
    (hbin : IsBinaryFile env fileName = true) :
    commitAdded c env removedFiles modifiedFiles (fileName :: rest) changeSummaries w
      = commitAdded c env removedFiles modifiedFiles rest
          (changeSummaries ++ ["Added binary file `".toList ++ fileName ++ "`".toList]) w ∧
    commitRemoved c env modifiedFiles (fileName :: rest) changeSummaries w
      = commitRemoved c env modifiedFiles rest
          (changeSummaries ++ ["Removed binary file `".toList ++ fileName ++ "`".toList]) w ∧
    commitModified c env (fileName :: rest) changeSummaries w
      = commitModified c env rest
          (changeSummaries ++ ["Replaced binary file `".toList ++ fileName ++ "`".toList]) w := by
  refine ⟨?_, ?_, ?_⟩
  · simp [commitAdded, hbin]
  · simp [commitRemoved, hbin]
  · simp [commitModified, hbin]

theorem binary_file_bypass_witness :
    IsBinaryFile (exampleEnv [] []) "img/Logo.PNG".toList = true ∧
    commitAdded (exampleClient 100) (exampleEnv [] []) [] [] ("img/Logo.PNG".toList :: [])
        [] World.fresh
      = commitAdded (exampleClient 100) (exampleEnv [] []) [] [] []
          ([] ++ ["Added binary file `".toList ++ "img/Logo.PNG".toList ++ "`".toList])
          World.fresh :=
  ⟨by decide,
   (binary_file_bypass (exampleClient 100) (exampleEnv [] []) [] [] [] [] World.fresh
      "img/Logo.PNG".toList (by decide)).1⟩

theorem completionStep_numFiles (c : client) (env : Env) (w : World) (content : Str)
    (systemMsgs : List Str) :
    (c.completionStep env w content systemMsgs).2.stats.NumFiles = w.stats.NumFiles := by
  rcases completionStep_cases c env w content systemMsgs with
    ⟨_, err, h⟩ | ⟨_, call, _, _, ⟨err, _, h⟩ | ⟨resp, _, _, h⟩ | ⟨resp, ch, ot, _, _, h⟩⟩ <;>
  rw [h] <;> simp [Stats.record]

theorem summarizeRest_numFiles (c : client) (env : Env) (template : Str) (data : Str → Data)
    (chunks : List Str) :
    ∀ (prev : Str) (result : List Str) (w : World) (summary : Str),
      (c.summarizeRest env template data chunks prev result w).1 = .ok summary →
      (c.summarizeRest env template data chunks prev result w).2.stats.NumFiles
        = w.stats.NumFiles + 1 := by
  induction chunks with
  | nil =>
    intro prev result w summary _
    rw [summarizeRest_nil]
    simp [Stats.countFile]
  | cons chunk rest ih =>
    intro prev result w summary hok
    cases hsys : chunkSystemMsgs env template (data prev) prev with
    | error err =>
      rw [summarizeRest_sys_error c env template data chunk rest prev result w err hsys] at hok
      simp at hok
    | ok systemMsgs =>
      have hnf := completionStep_numFiles c env w chunk systemMsgs
      cases hstep : c.completionStep env w chunk systemMsgs with
      | mk r w1 =>
        rw [hstep] at hnf
        cases r with
        | error val err =>
          rw [summarizeRest_step_error c env template data chunk rest prev result w w1
            systemMsgs val err hsys hstep] at hok
          simp at hok
        | runtimePanic =>
          rw [summarizeRest_step_crash c env template data chunk rest prev result w w1
            systemMsgs hsys hstep] at hok
          simp at hok
        | ok completion =>
          rw [summarizeRest_step_ok c env template data chunk rest prev result w w1
            systemMsgs completion hsys hstep] at hok ⊢
          rw [ih completion (result ++ [completion]) w1 summary hok]
          simp only at hnf
          rw [hnf]

theorem aggregateRest_numFiles (c : client) (env : Env) (systemMsg : Str) (changes : List Str) :
    ∀ (prompt : Str) (result : List Str) (w : World),
      (c.aggregateRest env systemMsg changes prompt result w).2.stats.NumFiles
        = w.stats.NumFiles := by
  induction changes with
  | nil =>
    intro prompt result w
    by_cases hp : trimSpace prompt = []
    · rw [aggregateRest_nil_blank c env systemMsg prompt result w hp]
    · rw [aggregateRest_nil_flush c env systemMsg prompt result w hp]
      have hnf := completionStep_numFiles c env w prompt [systemMsg]
      cases hstep : c.completionStep env w prompt [systemMsg] with
      | mk r w1 =>
        rw [hstep] at hnf
        cases r <;> exact hnf
  | cons summary rest ih =>
    intro prompt result w
    by_cases hlen : ((byteLen prompt : Int) + (byteLen summary : Int)) > c.maxChunkSize
    · rw [aggregateRest_cons_flush c env systemMsg summary rest prompt result w hlen]
      have hnf := completionStep_numFiles c env w prompt [systemMsg]
      cases hstep : c.completionStep env w prompt [systemMsg] with
      | mk r w1 =>
        rw [hstep] at hnf
        cases r with
        | error val err => exact hnf
        | runtimePanic => exact hnf
        | ok text =>
          simp only
          rw [ih ("\n".toList ++ summary) (result ++ [text]) w1]
          exact hnf
    · rw [aggregateRest_cons_keep c env systemMsg summary rest prompt result w hlen]
      exact ih _ _ _

theorem commitFinish_numFiles (c : client) (env : Env) (changeSummaries : List Str) (w : World) :
    (commitFinish c env changeSummaries w).2.stats.NumFiles = w.stats.NumFiles := by
  have hsc : (c.SummarizeChanges env w changeSummaries).2.stats.NumFiles = w.stats.NumFiles := by
    unfold client.SummarizeChanges
    cases h : GetTemplateByString env env.SummarizeChangesTemplate [] with
    | mk systemMsg oerr =>
      cases oerr with
      | some err => rfl
      | none => exact aggregateRest_numFiles c env systemMsg changeSummaries [] [] w
  unfold commitFinish
  cases h1 : c.SummarizeChanges env w changeSummaries with
  | mk r w1 =>
    rw [h1] at hsc
    cases r with
    | error val err => exact hsc
    | runtimePanic => exact hsc
    | ok summary =>
      simp only
      unfold client.FinalizeCommitMsg
      cases h : GetTemplateByString env env.SummarizeChangesTemplate [] with
      | mk systemMsg oerr =>
        cases oerr with
        | some err => exact hsc
        | none =>
          simp only
          rw [completionStep_numFiles c env w1 summary [systemMsg]]
          exact hsc

theorem nonBinaryCount_cons_binary (env : Env) (f : Str) (rest : List Str)
    (h : IsBinaryFile env f = true) : nonBinaryCount env (f :: rest) = nonBinaryCount env rest := by
  simp [nonBinaryCount, h]

theorem nonBinaryCount_cons_text (env : Env) (f : Str) (rest : List Str)
    (h : ¬ IsBinaryFile env f = true) :
    nonBinaryCount env (f :: rest) = nonBinaryCount env rest + 1 := by
  simp [nonBinaryCount, h]

theorem nonBinaryCount_append (env : Env) (a b : List Str) :
    nonBinaryCount env (a ++ b) = nonBinaryCount env a + nonBinaryCount env b := by
  simp [nonBinaryCount]

theorem commitModified_numFiles (c : client) (env : Env) (files : List Str) :
    ∀ (changeSummaries : List Str) (w : World) (msg : Str),
      (commitModified c env files changeSummaries w).1 = .ok msg →
      (commitModified c env files changeSummaries w).2.stats.NumFiles
        = w.stats.NumFiles + nonBinaryCount env files := by
  induction files with
  | nil =>
    intro cs w msg _
    simp [commitModified, commitFinish_numFiles, nonBinaryCount]
  | cons f rest ih =>
    intro cs w msg hok
    by_cases hbin : IsBinaryFile env f = true
    · have hstep : commitModified c env (f :: rest) cs w
          = commitModified c env rest
              (cs ++ ["Replaced binary file `".toList ++ f ++ "`".toList]) w := by
        simp [commitModified, hbin]
      rw [hstep] at hok ⊢
      rw [ih _ w msg hok, nonBinaryCount_cons_binary env f rest hbin]
    · rw [nonBinaryCount_cons_text env f rest hbin]
      cases hread : env.diffFile f with
      | error err => simp [commitModified, hbin, hread] at hok
      | ok content =>
        have hnf : ∀ summary, (c.SummarizeDiff env w f content).1 = .ok summary →
            (c.SummarizeDiff env w f content).2.stats.NumFiles = w.stats.NumFiles + 1 :=
          summarizeRest_numFiles c env env.SummarizeDiffTemplate (diffData env f)
            (SplitText content c.maxChunkSize) []
            ["Modified file `".toList ++ f ++ "`: ".toList] w
        cases hsum : c.SummarizeDiff env w f content with
        | mk r w1 =>
          cases r with
          | error val err => simp [commitModified, hbin, hread, hsum] at hok
          | runtimePanic => simp [commitModified, hbin, hread, hsum] at hok
          | ok summary =>
            have hstep : commitModified c env (f :: rest) cs w
                = commitModified c env rest (cs ++ [summary]) w1 := by
              simp [commitModified, hbin, hread, hsum]
            rw [hstep] at hok ⊢
            rw [ih _ w1 msg hok]
            have h1 := hnf summary (by rw [hsum])
            rw [hsum] at h1
            simp only at h1
            rw [h1]
            ring

theorem commitRemoved_numFiles (c : client) (env : Env) (modifiedFiles files : List Str) :
    ∀ (changeSummaries : List Str) (w : World) (msg : Str),
      (commitRemoved c env modifiedFiles files changeSummaries w).1 = .ok msg →
      (commitRemoved c env modifiedFiles files changeSummaries w).2.stats.NumFiles
        = w.stats.NumFiles + nonBinaryCount env files + nonBinaryCount env modifiedFiles := by
  induction files with
  | nil =>
    intro cs w msg hok
    simp only [commitRemoved] at hok ⊢
    rw [commitModified_numFiles c env modifiedFiles cs w msg hok]
    simp [nonBinaryCount]
  | cons f rest ih =>
    intro cs w msg hok
    by_cases hbin : IsBinaryFile env f = true
    · have hstep : commitRemoved c env modifiedFiles (f :: rest) cs w
          = commitRemoved c env modifiedFiles rest
              (cs ++ ["Removed binary file `".toList ++ f ++ "`".toList]) w := by
        simp [commitRemoved, hbin]
      rw [hstep] at hok ⊢
      rw [ih _ w msg hok, nonBinaryCount_cons_binary env f rest hbin]
    · rw [nonBinaryCount_cons_text env f rest hbin]
      cases hread : env.showDeletedFile f with
      | error err => simp [commitRemoved, hbin, hread] at hok
      | ok content =>
        have hnf : ∀ summary,
            (c.SummarizeFile env w OPERATION_DEL f (trimSpace content)).1 = .ok summary →
            (c.SummarizeFile env w OPERATION_DEL f (trimSpace content)).2.stats.NumFiles
              = w.stats.NumFiles + 1 :=
          summarizeRest_numFiles c env env.SummarizeFileTemplate (fileData env OPERATION_DEL f)
            (SplitText (trimSpace content) c.maxChunkSize) []
            [operationVerb OPERATION_DEL ++ " file `".toList ++ f ++ "`: ".toList] w
        cases hsum : c.SummarizeFile env w OPERATION_DEL f (trimSpace content) with
        | mk r w1 =>
          cases r with
          | error val err => simp [commitRemoved, hbin, hread, hsum] at hok
          | runtimePanic => simp [commitRemoved, hbin, hread, hsum] at hok
          | ok summary =>
            have hstep : commitRemoved c env modifiedFiles (f :: rest) cs w
                = commitRemoved c env modifiedFiles rest (cs ++ [summary]) w1 := by
              simp [commitRemoved, hbin, hread, hsum]
            rw [hstep] at hok ⊢
            rw [ih _ w1 msg hok]
            have h1 := hnf summary (by rw [hsum])
            rw [hsum] at h1
            simp only at h1
            rw [h1]
            ring

theorem commitAdded_numFiles (c : client) (env : Env) (removedFiles modifiedFiles : List Str)
    (files : List Str) :
    ∀ (changeSummaries : List Str) (w : World) (msg : Str),
      (commitAdded c env removedFiles modifiedFiles files changeSummaries w).1 = .ok msg →
      (commitAdded c env removedFiles modifiedFiles files changeSummaries w).2.stats.NumFiles
        = w.stats.NumFiles + nonBinaryCount env files + nonBinaryCount env removedFiles
          + nonBinaryCount env modifiedFiles := by
  induction files with
  | nil =>
    intro cs w msg hok
    simp only [commitAdded] at hok ⊢
    rw [commitRemoved_numFiles c env modifiedFiles removedFiles cs w msg hok]
    simp [nonBinaryCount]
  | cons f rest ih =>
    intro cs w msg hok
    by_cases hbin : IsBinaryFile env f = true
    · have hstep : commitAdded c env removedFiles modifiedFiles (f :: rest) cs w
          = commitAdded c env removedFiles modifiedFiles rest
              (cs ++ ["Added binary file `".toList ++ f ++ "`".toList]) w := by
        simp [commitAdded, hbin]
      rw [hstep] at hok ⊢
      rw [ih _ w msg hok, nonBinaryCount_cons_binary env f rest hbin]
    · rw [nonBinaryCount_cons_text env f rest hbin]
      cases hread : env.readFile f with
      | error err => simp [commitAdded, hbin, hread] at hok
      | ok content =>
        have hnf : ∀ summary,
            (c.SummarizeFile env w OPERATION_ADD f (trimSpace content)).1 = .ok summary →
            (c.SummarizeFile env w OPERATION_ADD f (trimSpace content)).2.stats.NumFiles
              = w.stats.NumFiles + 1 :=
          summarizeRest_numFiles c env env.SummarizeFileTemplate (fileData env OPERATION_ADD f)
            (SplitText (trimSpace content) c.maxChunkSize) []
            [operationVerb OPERATION_ADD ++ " file `".toList ++ f ++ "`: ".toList] w
        cases hsum : c.SummarizeFile env w OPERATION_ADD f (trimSpace content) with
        | mk r w1 =>
          cases r with
          | error val err => simp [commitAdded, hbin, hread, hsum] at hok
          | runtimePanic => simp [commitAdded, hbin, hread, hsum] at hok
          | ok summary =>
            have hstep : commitAdded c env removedFiles modifiedFiles (f :: rest) cs w
                = commitAdded c env removedFiles modifiedFiles rest (cs ++ [summary]) w1 := by
              simp [commitAdded, hbin, hread, hsum]
            rw [hstep] at hok ⊢
            rw [ih _ w1 msg hok]
            have h1 := hnf summary (by rw [hsum])
            rw [hsum] at h1
            simp only at h1
            rw [h1]
            ring

/-- C8 (amended): after a successful run of the commit pipeline,
`Stats.NumFiles` has grown by the number of files that are not binary: every
file summarized by `SummarizeFile` or `SummarizeDiff` counts once, and a binary
file does not count. -/
theorem commitPipeline_numFiles (c : client) (env : Env)
    (addedFiles removedFiles modifiedFiles : List Str) (w : World) (msg : Str)
    (hok : (commitPipeline c env addedFiles removedFiles modifiedFiles w).1 = .ok msg) :
    (commitPipeline c env addedFiles removedFiles modifiedFiles w).2.stats.NumFiles
      = w.stats.NumFiles + nonBinaryCount env (addedFiles ++ removedFiles ++ modifiedFiles) := by
  unfold commitPipeline at hok ⊢
  rw [commitAdded_numFiles c env removedFiles modifiedFiles addedFiles [] w msg hok,
    nonBinaryCount_append, nonBinaryCount_append]
  ring

theorem commitPipeline_numFiles_witness :
    (commitPipeline (exampleClient 100)
        (exampleEnv ["sum".toList, "dif".toList, "agg".toList, "msg".toList]
          "hello world".toList)
        ["a.txt".toList, "logo.png".toList] [] ["b.go".toList] World.fresh).1
      = .ok "msg".toList ∧
    (commitPipeline (exampleClient 100)
        (exampleEnv ["sum".toList, "dif".toList, "agg".toList, "msg".toList]
          "hello world".toList)
        ["a.txt".toList, "logo.png".toList] [] ["b.go".toList] World.fresh).2.stats.NumFiles
      = World.fresh.stats.NumFiles + nonBinaryCount
          (exampleEnv ["sum".toList, "dif".toList, "agg".toList, "msg".toList]
            "hello world".toList)
          (["a.txt".toList, "logo.png".toList] ++ [] ++ ["b.go".toList]) :=
  ⟨by decide,
   commitPipeline_numFiles (exampleClient 100)
     (exampleEnv ["sum".toList, "dif".toList, "agg".toList, "msg".toList] "hello world".toList)
     ["a.txt".toList, "logo.png".toList] [] ["b.go".toList] World.fresh "msg".toList
     (by decide)⟩

/-- C8 as stated fails: in the run over the added text file with content
"hello world" (chunk size 100) and the added binary file "logo.png", which
succeeds after one summary call, one aggregation call and the final call,
`NumFiles` is 1, not 2. -/
theorem commitPipeline_numFiles_counterexample :
    (commitPipeline (exampleClient 100)
        (exampleEnv ["sum".toList, "agg".toList, "msg".toList] "hello world".toList)
        ["a.txt".toList, "logo.png".toList] [] [] World.fresh).1 = .ok "msg".toList ∧
    (commitPipeline (exampleClient 100)
        (exampleEnv ["sum".toList, "agg".toList, "msg".toList] "hello world".toList)
        ["a.txt".toList, "logo.png".toList] [] [] World.fresh).2.stats.NumFiles = 1 ∧
    (commitPipeline (exampleClient 100)
        (exampleEnv ["sum".toList, "agg".toList, "msg".toList] "hello world".toList)
        ["a.txt".toList, "logo.png".toList] [] [] World.fresh).2.stats.NumFiles ≠ 2 := by
  decide

/-! ### Texts that fit in one chunk -/

theorem splitWords_measure (s : Str) :
    ((splitWords s).1.length : Int) + (((splitWords s).2.map (fun w => (w.length : Int) + 1)).sum)
      ≤ s.length := by
  induction s with
  | nil => simp [splitWords]
  | cons c cs ih =>
    by_cases hc : isSpace c = true
    · rw [splitWords_cons_space c cs hc]
      by_cases h1 : (splitWords cs).1 = []
      · simp only [h1, if_true, List.length_nil, List.length_cons] at ih ⊢
        push_cast
        omega
      · simp only [h1, if_false, List.length_nil, List.length_cons, List.map_cons,
          List.sum_cons]
        push_cast
        omega
    · have hc2 : isSpace c = false := by simpa using hc
      rw [splitWords_cons_noSpace c cs hc2]
      simp only [List.length_cons]
      push_cast
      omega

theorem greedyLen_le_length (s : Str) : greedyLen s ≤ (s.length : Int) + 1 := by
  have h := splitWords_measure s
  unfold greedyLen Fields
  by_cases h1 : (splitWords s).1 = []
  · simp only [h1, if_true, List.length_nil] at h ⊢
    push_cast at h
    omega
  · simp only [h1, if_false, List.map_cons, List.sum_cons]
    omega

theorem length_le_byteLen (s : Str) : s.length ≤ byteLen s := by
  induction s with
  | nil => simp [byteLen]
  | cons c cs ih =>
    have hc : 1 ≤ c.utf8Size := by
      have := Char.utf8Size_pos c
      omega
    simp only [byteLen, List.map_cons, List.sum_cons, List.length_cons] at ih ⊢
    omega

theorem foldl_splitStep_noFlush (n : Int) (ws : List Str) :
    ∀ (st : SplitState), st.chunks = [] →
      ((ws.map (fun w => (w.length : Int) + 1)).sum ≤ st.remainingSpace) →
      (ws.foldl (splitStep n) st).chunks = [] := by
  induction ws with
  | nil => intro st h _; exact h
  | cons w rest ih =>
    intro st hch hsum
    simp only [List.map_cons, List.sum_cons] at hsum
    have hnn : 0 ≤ (rest.map (fun w => (w.length : Int) + 1)).sum := by
      apply List.sum_nonneg
      intro x hx
      simp only [List.mem_map] at hx
      obtain ⟨v, _, rfl⟩ := hx
      omega
    have hle : ((w.length : Int) + 1) ≤ st.remainingSpace := by omega
    rw [List.foldl_cons]
    apply ih
    · simp [splitStep, hle, hch]
    · simp only [splitStep, hle, if_true]
      omega

/-- A text whose byte length is below the chunk size is not split. -/
theorem SplitText_single (text : Str) (n : Int) (h : (byteLen text : Int) < n) :
    ∃ chunk, SplitText text n = [chunk] := by
  have h1 := greedyLen_le_length text
  have h2 := length_le_byteLen text
  have h3 : greedyLen text ≤ n := by omega
  have h4 := foldl_splitStep_noFlush n (Fields text) ⟨[], [], n⟩ rfl h3
  refine ⟨trimSpace ((Fields text).foldl (splitStep n) ⟨[], [], n⟩).currentChunk, ?_⟩
  simp only [SplitText, h4, List.nil_append]

/-! ### Trimming -/

theorem trimSpace_eq_rdropWhile (s : Str) :
    trimSpace s = (s.dropWhile isSpace).rdropWhile isSpace := rfl

theorem rdropWhile_append_spaces (l t : Str) (ht : ∀ c ∈ t, isSpace c = true) :
    (l ++ t).rdropWhile isSpace = l.rdropWhile isSpace := by
  induction t using List.reverseRecOn with
  | nil => simp
  | append_singleton t' x ih =>
    rw [← List.append_assoc, List.rdropWhile_concat_pos _ _ _ (ht x (by simp))]
    exact ih (fun c hc => ht c (by simp [hc]))

theorem trimSpace_tight_spaces (a b : Char) (mid t : Str) (ha : isSpace a = false)
    (hb : isSpace b = false) (ht : ∀ c ∈ t, isSpace c = true) :
    trimSpace (a :: (mid ++ [b]) ++ t) = a :: (mid ++ [b]) := by
  rw [trimSpace_eq_rdropWhile]
  have hd : List.dropWhile isSpace (a :: (mid ++ [b]) ++ t) = a :: (mid ++ [b]) ++ t := by
    simp [List.dropWhile_cons, ha]
  rw [hd, rdropWhile_append_spaces _ _ ht]
  have : a :: (mid ++ [b]) = (a :: mid) ++ [b] := rfl
  rw [this, List.rdropWhile_concat_neg _ _ _ (by simp [hb])]

theorem trimSpace_tight (a b : Char) (mid : Str) (ha : isSpace a = false)
    (hb : isSpace b = false) : trimSpace (a :: (mid ++ [b])) = a :: (mid ++ [b]) := by
  simpa using trimSpace_tight_spaces a b mid [] ha hb (by simp)

theorem trimSpace_nil_or_last (s : Str) :
    trimSpace s = [] ∨ ∃ l b, trimSpace s = l ++ [b] ∧ isSpace b = false := by
  by_cases h : trimSpace s = []
  · exact Or.inl h
  · right
    rw [trimSpace_eq_rdropWhile] at h ⊢
    have hlast := List.rdropWhile_last_not isSpace (s.dropWhile isSpace) h
    refine ⟨_, _, (List.dropLast_append_getLast h).symm, ?_⟩
    simpa using hlast

theorem operationVerb_head (op : GitOperation) :
    ∃ a vs, operationVerb op = a :: vs ∧ isSpace a = false := by
  unfold operationVerb
  by_cases h1 : op = OPERATION_ADD
  · rw [if_pos h1]
    exact ⟨'A', "dded".toList, rfl, by decide⟩
  · rw [if_neg h1]
    by_cases h2 : op = OPERATION_DEL
    · rw [if_pos h2]
      exact ⟨'R', "emoved".toList, rfl, by decide⟩
    · rw [if_neg h2]
      exact ⟨'M', "odified".toList, rfl, by decide⟩

/-- The value returned by `SummarizeFile` and `SummarizeDiff` for one
completion text: the verb phrase, then two spaces and the text unless the text
is empty. -/
theorem trimSpace_Join_phrase (verb fileName text : Str)
    (hverb : ∃ a vs, verb = a :: vs ∧ isSpace a = false) :
    trimSpace (Join [verb ++ " file `".toList ++ fileName ++ "`: ".toList, trimSpace text]
        " ".toList)
      = verb ++ " file `".toList ++ fileName ++ "`:".toList
          ++ (if trimSpace text = [] then [] else "  ".toList ++ trimSpace text) := by
  obtain ⟨a, vs, rfl, ha⟩ := hverb
  have e1 : "`: ".toList = "`".toList ++ [':'] ++ [' '] := by decide
  have e2 : "`:".toList = "`".toList ++ [':'] := by decide
  have e3 : " ".toList = [' '] := by decide
  have e4 : "  ".toList = [' ', ' '] := by decide
  rw [e1, e2, e3, e4]
  simp only [Join]
  rcases trimSpace_nil_or_last text with h | ⟨l, b, h, hb⟩
  · rw [h]
    simp only [if_true, List.append_nil]
    have := trimSpace_tight_spaces a ':' (vs ++ " file `".toList ++ fileName ++ "`".toList)
      [' ', ' '] ha (by decide) (by decide)
    simpa [List.append_assoc] using this
  · rw [h]
    have hne : l ++ [b] ≠ [] := by simp
    simp only [hne, if_false]
    have := trimSpace_tight a b
      (vs ++ " file `".toList ++ fileName ++ "`".toList ++ [':'] ++ [' ', ' '] ++ l) ha hb
    simpa [List.append_assoc] using this

/-! ### One chunk, one call -/

theorem chunkSystemMsgs_first (env : Env) (template : Str) (data : Data) (t : Str)
    (h : GetTemplateByString env template data = (t, none)) :
    chunkSystemMsgs env template data [] = .ok [t] := by
  simp [chunkSystemMsgs, h]

theorem completionStep_ok (c : client) (env : Env) (w : World) (content : Str)
    (systemMsgs : List Str) (resp : ChatCompletionResponse) (choice : ChatCompletionChoice)
    (others : List ChatCompletionChoice)
    (hb : withinBudget c env content systemMsgs)
    (ht : env.transport w.calls (buildRequest c (buildMessages content systemMsgs)) = .ok resp)
    (hch : resp.Choices = choice :: others) :
    c.completionStep env w content systemMsgs
      = (.ok (trimSpace choice.Message.Content),
          { stats := w.stats.record resp.Usage
            calls := w.calls ++ [{ request := buildRequest c (buildMessages content systemMsgs)
                                   outcome := .ok resp }] }) := by
  unfold client.completionStep
  rw [createChatCompletion_sent c env w content systemMsgs hb, ht]
  simp [hch]

/-- C4 (amended): for every operation kind and file name, a file content whose
length is strictly below `maxChunkSize`, whose one request is within the token
budget and whose template renders, given a backend that answers every call
with a response whose first choice carries the text `R`: `SummarizeFile` makes
exactly one completion call and returns the verb phrase of the operation
("Added file `X`:", "Removed file `X`:" or "Modified file `X`:") followed, when
the trimmed `R` is not empty, by two spaces and the trimmed `R`. -/
theorem SummarizeFile_single_chunk (c : client) (env : Env) (w : World) (op : GitOperation)
    (fileName fileContent t : Str) (resp : ChatCompletionResponse)
    (choice : ChatCompletionChoice) (others : List ChatCompletionChoice)
    (hlen : (byteLen fileContent : Int) < c.maxChunkSize)
    (htmpl : GetTemplateByString env env.SummarizeFileTemplate (fileData env op fileName [])
      = (t, none))
    (hbudget : ∀ chunk ∈ SplitText fileContent c.maxChunkSize, withinBudget c env chunk [t])
    (hmock : ∀ calls req, env.transport calls req = .ok resp)
    (hchoice : resp.Choices = choice :: others) :
    (∃ call : Call, call.outcome = .ok resp ∧
      (c.SummarizeFile env w op fileName fileContent).2.calls = w.calls ++ [call]) ∧
    (c.SummarizeFile env w op fileName fileContent).1
      = .ok (operationVerb op ++ " file `".toList ++ fileName ++ "`:".toList
          ++ (if trimSpace choice.Message.Content = [] then []
              else "  ".toList ++ trimSpace choice.Message.Content)) ∧
    operationVerb OPERATION_ADD = "Added".toList ∧
    operationVerb OPERATION_DEL = "Removed".toList ∧
    operationVerb OPERATION_MOD = "Modified".toList := by
  obtain ⟨chunk, hchunk⟩ := SplitText_single fileContent c.maxChunkSize hlen
  have hb : withinBudget c env chunk [t] := hbudget chunk (by rw [hchunk]; simp)
  have hsys := chunkSystemMsgs_first env env.SummarizeFileTemplate (fileData env op fileName [])
    t htmpl
  have hstep := completionStep_ok c env w chunk [t] resp choice others hb (hmock _ _) hchoice
  have hrun : c.SummarizeFile env w op fileName fileContent
      = (.ok (trimSpace (Join [operationVerb op ++ " file `".toList ++ fileName
              ++ "`: ".toList, trimSpace choice.Message.Content] " ".toList)),
         { stats := (w.stats.record resp.Usage).countFile
           calls := w.calls ++ [{ request := buildRequest c (buildMessages chunk [t])
                                  outcome := .ok resp }] }) := by
    unfold client.SummarizeFile
    simp only [hchunk]
    rw [summarizeRest_step_ok c env env.SummarizeFileTemplate (fileData env op fileName)
      chunk [] [] _ w _ [t] _ hsys hstep, summarizeRest_nil]
    simp
  rw [hrun]
  refine ⟨⟨_, rfl, rfl⟩, ?_, by decide, by decide, by decide⟩
  simp only
  rw [trimSpace_Join_phrase _ _ _ (operationVerb_head op)]

theorem SummarizeFile_single_chunk_witness :
    (byteLen "hello world".toList : Int) < (exampleClient 100).maxChunkSize ∧
    (∀ chunk ∈ SplitText "hello world".toList (exampleClient 100).maxChunkSize,
      withinBudget (exampleClient 100) (mockEnv " R ".toList []) chunk
        ["summarize_file".toList]) ∧
    ((exampleClient 100).SummarizeFile (mockEnv " R ".toList []) World.fresh OPERATION_DEL
        "a.go".toList "hello world".toList).1
      = .ok (operationVerb OPERATION_DEL ++ " file `".toList ++ "a.go".toList ++ "`:".toList
          ++ (if trimSpace (replyChoice " R ".toList).Message.Content = [] then []
              else "  ".toList
                ++ trimSpace (replyChoice " R ".toList).Message.Content)) :=
  ⟨by decide, by decide,
   (SummarizeFile_single_chunk (exampleClient 100) (mockEnv " R ".toList []) World.fresh
      OPERATION_DEL "a.go".toList "hello world".toList "summarize_file".toList
      (replyWith " R ".toList) (replyChoice " R ".toList) []
      (by decide) (by decide) (by decide) (fun _ _ => rfl) (by decide)).2.1⟩

/-- C4 as stated fails: the content "a b" has length 3, which is at most the
chunk size 3, yet it is split into the chunks "a" and "b" and `SummarizeFile`
makes two completion calls, both answered with the text of the mock. -/
theorem SummarizeFile_single_chunk_counterexample :
    (byteLen "a b".toList : Int) ≤ (exampleClient 3).maxChunkSize ∧
    SplitText "a b".toList (exampleClient 3).maxChunkSize = ["a".toList, "b".toList] ∧
    ((exampleClient 3).SummarizeFile (mockEnv "R".toList []) World.fresh OPERATION_ADD
        "a.go".toList "a b".toList).2.calls.length = 2 ∧
    ((exampleClient 3).SummarizeFile (mockEnv "R".toList []) World.fresh OPERATION_ADD
        "a.go".toList "a b".toList).1 = .ok "Added file `a.go`:  R R".toList := by
  decide

/-! ### The aggregation boundary -/

theorem byteLen_append (a b : Str) : byteLen (a ++ b) = byteLen a + byteLen b := by
  simp [byteLen]

theorem byteLen_pos_of_ne_nil (s : Str) (h : s ≠ []) : 1 ≤ byteLen s := by
  have h1 := length_le_byteLen s
  have h2 : 1 ≤ s.length := by
    cases s with
    | nil => exact absurd rfl h
    | cons c cs => simp
  omega

theorem trimSpace_newline_append (s : Str) : trimSpace ("\n".toList ++ s) = trimSpace s := by
  have h : "\n".toList ++ s = '\n' :: s := rfl
  have hsp : isSpace '\n' = true := by decide
  rw [h]
  unfold trimSpace
  rw [List.dropWhile_cons_of_pos hsp]

theorem completionStep_succeeds (c : client) (env : Env) (w : World) (content : Str)
    (systemMsgs : List Str)
    (hb : withinBudget c env content systemMsgs)
    (htransport : ∀ calls req, ∃ resp choice others,
      env.transport calls req = .ok resp ∧ resp.Choices = choice :: others) :
    ∃ text call stats, call.request = buildRequest c (buildMessages content systemMsgs) ∧
      c.completionStep env w content systemMsgs
        = (.ok text, { stats := stats, calls := w.calls ++ [call] }) := by
  obtain ⟨resp, choice, others, ht, hch⟩ :=
    htransport w.calls (buildRequest c (buildMessages content systemMsgs))
  exact ⟨_, _, _, rfl,
    completionStep_ok c env w content systemMsgs resp choice others hb ht hch⟩

/-- C6 (amended): for two summaries that both contain a character that is not
white space and whose lengths sum to `maxChunkSize + 1`, with the template
rendered, the two requests that carry the two summaries within the token
budget and a backend that always answers with at least one choice,
`SummarizeChanges` succeeds and issues exactly two aggregation requests, the
first for the first summary and the second for the second. -/
theorem SummarizeChanges_boundary (c : client) (env : Env) (w : World)
    (s1 s2 systemMsg : Str)
    (hsum : (byteLen s1 : Int) + (byteLen s2 : Int) = c.maxChunkSize + 1)
    (hs1 : trimSpace s1 ≠ []) (hs2 : trimSpace s2 ≠ [])
    (htmpl : GetTemplateByString env env.SummarizeChangesTemplate [] = (systemMsg, none))
    (hb1 : withinBudget c env ("\n".toList ++ s1) [systemMsg])
    (hb2 : withinBudget c env ("\n".toList ++ s2) [systemMsg])
    (htransport : ∀ calls req, ∃ resp choice others,
      env.transport calls req = .ok resp ∧ resp.Choices = choice :: others) :
    (newCalls w (c.SummarizeChanges env w [s1, s2]).2).length = 2 ∧
    (newCalls w (c.SummarizeChanges env w [s1, s2]).2).map (fun call => call.request)
      = [buildRequest c (buildMessages ("\n".toList ++ s1) [systemMsg]),
         buildRequest c (buildMessages ("\n".toList ++ s2) [systemMsg])] ∧
    ∃ digest, (c.SummarizeChanges env w [s1, s2]).1 = .ok digest := by
  have _ := hs1
  have hrun : c.SummarizeChanges env w [s1, s2]
      = c.aggregateRest env systemMsg [s1, s2] [] [] w := by
    simp [client.SummarizeChanges, htmpl]
  rw [hrun]
  have hnl : byteLen "\n".toList = 1 := by decide
  have hnil : byteLen ([] : Str) = 0 := rfl
  have hne : s2 ≠ [] := by
    intro h
    apply hs2
    rw [h]
    rfl
  have hpos := byteLen_pos_of_ne_nil s2 hne
  -- the first summary fits, so it is put into the buffer
  have h1 : ¬ ((byteLen ([] : Str) : Int) + (byteLen s1 : Int)) > c.maxChunkSize := by
    rw [hnil]
    omega
  rw [aggregateRest_cons_keep c env systemMsg s1 [s2] [] [] w h1]
  -- the second does not fit any more: the buffer is flushed in the loop
  have h2 : ((byteLen ([] ++ "\n".toList ++ s1) : Int) + (byteLen s2 : Int))
      > c.maxChunkSize := by
    rw [byteLen_append, byteLen_append, hnl, hnil]
    push_cast
    omega
  have hb1nil : withinBudget c env ([] ++ "\n".toList ++ s1) [systemMsg] := by
    rw [List.nil_append]
    exact hb1
  obtain ⟨t1, c1, st1, r1, e1⟩ := completionStep_succeeds c env w ([] ++ "\n".toList ++ s1)
    [systemMsg] hb1nil htransport
  rw [aggregateRest_cons_flush c env systemMsg s2 [] _ _ w h2, e1]
  simp only
  -- the buffer that holds the second summary is flushed after the loop
  have h3 : trimSpace ("\n".toList ++ s2) ≠ [] := by
    rw [trimSpace_newline_append]
    exact hs2
  obtain ⟨t2, c2, st2, r2, e2⟩ := completionStep_succeeds c env
    { stats := st1, calls := w.calls ++ [c1] } ("\n".toList ++ s2) [systemMsg]
    hb2 htransport
  rw [aggregateRest_nil_flush c env systemMsg _ _ _ h3, e2]
  refine ⟨by simp [newCalls], ?_, _, rfl⟩
  simp [newCalls, r1, r2]

theorem countTokens_fallback_gpt4 (env : Env) (model : Str)
    (messages : List ChatCompletionMessage) (tkm : Str → Nat)
    (henc : ∀ m, env.encodingForModel m = .ok tkm)
    (h1 : tokensPerModel model = none)
    (h2 : Contains model "gpt-3.5-turbo".toList = false)
    (h3 : Contains model "gpt-4".toList = true) :
    countTokens env model messages = .ok (countMessages tkm 3 1 messages) := by
  have h4 : tokensPerModel "gpt-4-0613".toList = some (3, 1) := by decide
  unfold countTokens
  unfold countTokensBody
  rw [henc, h1]
  simp only [h2, h3, if_true, Bool.false_eq_true, if_false]
  rw [henc, h4]

theorem SummarizeChanges_boundary_witness :
    (byteLen "hello".toList : Int) + (byteLen "world".toList : Int)
      = (exampleClient 9).maxChunkSize + 1 ∧
    trimSpace "hello".toList ≠ [] ∧ trimSpace "world".toList ≠ [] ∧
    withinBudget (exampleClient 9) (mockEnv "ok".toList [])
      ("\n".toList ++ "hello".toList) ["summarize_changes".toList] ∧
    withinBudget (exampleClient 9) (mockEnv "ok".toList [])
      ("\n".toList ++ "world".toList) ["summarize_changes".toList] ∧
    (newCalls World.fresh ((exampleClient 9).SummarizeChanges (mockEnv "ok".toList [])
      World.fresh ["hello".toList, "world".toList]).2).length = 2 ∧
    ((exampleClient 9).SummarizeChanges (mockEnv "ok".toList []) World.fresh
      ["hello".toList, "world".toList]).1 = .ok "ok\nok".toList :=
  ⟨by decide, by decide, by decide, by decide, by decide,
   (SummarizeChanges_boundary (exampleClient 9) (mockEnv "ok".toList []) World.fresh
      "hello".toList "world".toList "summarize_changes".toList (by decide) (by decide)
      (by decide) (by decide) (by decide) (by decide)
      (fun _ _ => ⟨replyWith "ok".toList, replyChoice "ok".toList, [], rfl, rfl⟩)).1,
   by decide⟩

/-- C6 as stated fails: with `maxChunkSize = 1` the summaries "a" and " " have
lengths that sum to 2, the backend always succeeds, and `SummarizeChanges`
issues one aggregation request only, because the buffer left after the loop is
blank and is not flushed. -/
theorem SummarizeChanges_boundary_counterexample :
    (byteLen "a".toList : Int) + (byteLen " ".toList : Int)
      = (exampleClient 1).maxChunkSize + 1 ∧
    (newCalls World.fresh ((exampleClient 1).SummarizeChanges (mockEnv "ok".toList [])
      World.fresh ["a".toList, " ".toList]).2).length = 1 ∧
    ((exampleClient 1).SummarizeChanges (mockEnv "ok".toList []) World.fresh
      ["a".toList, " ".toList]).1 = .ok "ok".toList := by
  decide

/-! ### Carry-forward between chunks -/

theorem chunkSystemMsgs_ok (env : Env) (template : Str) (data : Str → Data) (prev : Str)
    (msgs : List Str) (h : chunkSystemMsgs env template (data prev) prev = .ok msgs) :
    msgs = systemMsgsFor env template data prev := by
  unfold chunkSystemMsgs at h
  unfold systemMsgsFor
  cases h1 : GetTemplateByString env template (data prev) with
  | mk t1 e1 =>
    rw [h1] at h
    cases e1 with
    | some err => simp at h
    | none =>
      by_cases hp : prev = []
      · simp only [hp, ne_eq, not_true_eq_false, if_false, if_true] at h ⊢
        simp only [Except.ok.injEq] at h
        exact h.symm
      · simp only [ne_eq, hp, not_false_eq_true, if_true, if_false] at h ⊢
        cases h2 : GetTemplateByString env env.PrevChunkSummaryTemplate
            [("prevChunkSummary".toList, prev)] with
        | mk t2 e2 =>
          rw [h2] at h
          cases e2 with
          | some err => simp at h
          | none =>
            simp only [Except.ok.injEq] at h
            exact h.symm

theorem CarriesForward.nil (env : Env) (template : Str) (data : Str → Data) (start : Str)
    (chunks : List Str) : CarriesForward env template data start chunks [] := by
  constructor
  · intro i call h
    simp at h
  · intro i h
    simp at h

theorem CarriesForward.single (env : Env) (template : Str) (data : Str → Data) (start : Str)
    (chunk : Str) (rest : List Str) (call : Call)
    (hreq : call.request.Messages
      = buildMessages chunk (systemMsgsFor env template data start)) :
    CarriesForward env template data start (chunk :: rest) [call] := by
  constructor
  · intro i c h
    cases i with
    | zero =>
      simp only [List.getElem?_cons_zero, Option.some.injEq] at h
      subst h
      exact ⟨chunk, by simp, hreq⟩
    | succ j => simp at h
  · intro i h
    simp at h

theorem CarriesForward.cons (env : Env) (template : Str) (data : Str → Data) (start : Str)
    (chunk : Str) (rest : List Str) (call : Call) (more : List Call)
    (resp : ChatCompletionResponse) (choice : ChatCompletionChoice)
    (others : List ChatCompletionChoice)
    (hreq : call.request.Messages
      = buildMessages chunk (systemMsgsFor env template data start))
    (hout : call.outcome = .ok resp) (hch : resp.Choices = choice :: others)
    (hmore : CarriesForward env template data (trimSpace choice.Message.Content) rest more) :
    CarriesForward env template data start (chunk :: rest) (call :: more) := by
  have htext : call.completionText = some (trimSpace choice.Message.Content) := by
    simp [Call.completionText, hout, hch]
  have hprev : ∀ i, prevSummaryAt start (call :: more) (i + 1)
      = prevSummaryAt (trimSpace choice.Message.Content) more i := by
    intro i
    cases i with
    | zero => simp [prevSummaryAt, htext]
    | succ j => simp [prevSummaryAt]
  constructor
  · intro i c h
    cases i with
    | zero =>
      simp only [List.getElem?_cons_zero, Option.some.injEq] at h
      subst h
      exact ⟨chunk, by simp, hreq⟩
    | succ j =>
      simp only [List.getElem?_cons_succ] at h
      obtain ⟨ch, h1, h2⟩ := hmore.1 j c h
      refine ⟨ch, by simpa using h1, ?_⟩
      rw [hprev j]
      exact h2
  · intro i h
    cases i with
    | zero =>
      exact ⟨call, resp, choice, others, by simp, hout, hch, by rw [hprev 0]; rfl⟩
    | succ j =>
      have hj : j + 1 < more.length := by simpa using h
      obtain ⟨c2, r2, ch2, ot2, g1, g2, g3, g4⟩ := hmore.2 j hj
      exact ⟨c2, r2, ch2, ot2, by simpa using g1, g2, g3, by rw [hprev (j + 1)]; exact g4⟩

theorem summarizeRest_carries (c : client) (env : Env) (template : Str) (data : Str → Data)
    (chunks : List Str) :
    ∀ (prev : Str) (result : List Str) (w : World),
      ∃ new, (c.summarizeRest env template data chunks prev result w).2.calls = w.calls ++ new ∧
        CarriesForward env template data prev chunks new ∧
        (∀ summary, (c.summarizeRest env template data chunks prev result w).1 = .ok summary →
          new.length = chunks.length) := by
  induction chunks with
  | nil =>
    intro prev result w
    rw [summarizeRest_nil]
    exact ⟨[], by simp, CarriesForward.nil _ _ _ _ _, fun _ _ => rfl⟩
  | cons chunk rest ih =>
    intro prev result w
    cases hsys : chunkSystemMsgs env template (data prev) prev with
    | error err =>
      rw [summarizeRest_sys_error c env template data chunk rest prev result w err hsys]
      exact ⟨[], by simp, CarriesForward.nil _ _ _ _ _, fun _ h => by simp at h⟩
    | ok systemMsgs =>
      have hmsgs := chunkSystemMsgs_ok env template data prev systemMsgs hsys
      rcases completionStep_cases c env w chunk systemMsgs with
        ⟨_, err, h⟩ | ⟨_, call, hreq, _, ⟨err, ho, h⟩ | ⟨resp, ho, _, h⟩ |
          ⟨resp, ch, ot, ho, hch, h⟩⟩
      · rw [summarizeRest_step_error c env template data chunk rest prev result w _
          systemMsgs _ err hsys h]
        exact ⟨[], by simp, CarriesForward.nil _ _ _ _ _, fun _ h => by simp at h⟩
      · rw [summarizeRest_step_error c env template data chunk rest prev result w _
          systemMsgs _ err hsys h]
        refine ⟨[call], rfl, CarriesForward.single _ _ _ _ _ _ _ ?_, fun _ h => by simp at h⟩
        rw [hreq, ← hmsgs]
        rfl
      · rw [summarizeRest_step_crash c env template data chunk rest prev result w _
          systemMsgs hsys h]
        refine ⟨[call], rfl, CarriesForward.single _ _ _ _ _ _ _ ?_, fun _ h => by simp at h⟩
        rw [hreq, ← hmsgs]
        rfl
      · rw [summarizeRest_step_ok c env template data chunk rest prev result w _
          systemMsgs _ hsys h]
        obtain ⟨more, hcalls, hcarry, hlen⟩ := ih (trimSpace ch.Message.Content)
          (result ++ [trimSpace ch.Message.Content])
          { stats := w.stats.record resp.Usage, calls := w.calls ++ [call] }
        refine ⟨call :: more, ?_, CarriesForward.cons _ _ _ _ _ _ _ _ resp ch ot ?_ ho hch hcarry,
          ?_⟩
        · rw [hcalls]
          simp
        · rw [hreq, ← hmsgs]
          rfl
        · intro summary hok
          simp [hlen summary hok]

/-- C5 (amended): whatever the backend answers, the calls that `SummarizeFile`
and `SummarizeDiff` make are, in order, for the chunks of `SplitText`, one call
per chunk; the first request carries the rendered template as its only system
message; every call followed by another one succeeded with a first choice, and
the next request carries the template rendered with the trimmed text `p` of
that choice and, as a second system message, the continuation template
rendered with `p` if `p` is not empty, and no second system message if `p` is
empty; and when the summarization succeeds, every chunk got its call. -/
theorem carry_forward (c : client) (env : Env) (w : World) (op : GitOperation)
    (fileName fileContent diff : Str) :
    (CarriesForward env env.SummarizeFileTemplate (fileData env op fileName) []
        (SplitText fileContent c.maxChunkSize)
        (newCalls w (c.SummarizeFile env w op fileName fileContent).2) ∧
      (∀ summary, (c.SummarizeFile env w op fileName fileContent).1 = .ok summary →
        (newCalls w (c.SummarizeFile env w op fileName fileContent).2).length
          = (SplitText fileContent c.maxChunkSize).length)) ∧
    (CarriesForward env env.SummarizeDiffTemplate (diffData env fileName) []
        (SplitText diff c.maxChunkSize)
        (newCalls w (c.SummarizeDiff env w fileName diff).2) ∧
      (∀ summary, (c.SummarizeDiff env w fileName diff).1 = .ok summary →
        (newCalls w (c.SummarizeDiff env w fileName diff).2).length
          = (SplitText diff c.maxChunkSize).length)) := by
  constructor
  · obtain ⟨new, hcalls, hcarry, hlen⟩ := summarizeRest_carries c env env.SummarizeFileTemplate
      (fileData env op fileName) (SplitText fileContent c.maxChunkSize) []
      [operationVerb op ++ " file `".toList ++ fileName ++ "`: ".toList] w
    have hn : newCalls w (c.SummarizeFile env w op fileName fileContent).2 = new := by
      unfold newCalls client.SummarizeFile
      rw [hcalls]
      simp
    rw [hn]
    exact ⟨hcarry, hlen⟩
  · obtain ⟨new, hcalls, hcarry, hlen⟩ := summarizeRest_carries c env env.SummarizeDiffTemplate
      (diffData env fileName) (SplitText diff c.maxChunkSize) []
      ["Modified file `".toList ++ fileName ++ "`: ".toList] w
    have hn : newCalls w (c.SummarizeDiff env w fileName diff).2 = new := by
      unfold newCalls client.SummarizeDiff
      rw [hcalls]
      simp
    rw [hn]
    exact ⟨hcarry, hlen⟩

theorem carry_forward_witness :
    ((exampleClient 3).SummarizeFile (exampleEnv [" one ".toList, "two".toList] []) World.fresh
        OPERATION_ADD "a.go".toList "ab cd".toList).1 = .ok "Added file `a.go`:  one two".toList ∧
    (newCalls World.fresh ((exampleClient 3).SummarizeFile
        (exampleEnv [" one ".toList, "two".toList] []) World.fresh
        OPERATION_ADD "a.go".toList "ab cd".toList).2).length
      = (SplitText "ab cd".toList (exampleClient 3).maxChunkSize).length :=
  ⟨by decide,
   (carry_forward (exampleClient 3) (exampleEnv [" one ".toList, "two".toList] []) World.fresh
      OPERATION_ADD "a.go".toList "ab cd".toList []).1.2 "Added file `a.go`:  one two".toList
      (by decide)⟩

/-- C5 as stated fails: "ab cd" is split into two chunks for chunk size 3, both
completion calls succeed, the first with the blank text "  ", and the request
for the second chunk carries one system message only, without continuation
context. -/
theorem carry_forward_counterexample :
    SplitText "ab cd".toList (exampleClient 3).maxChunkSize = ["ab".toList, "cd".toList] ∧
    ((exampleClient 3).SummarizeFile (exampleEnv ["  ".toList, "done".toList] []) World.fresh
        OPERATION_ADD "a.go".toList "ab cd".toList).1 = .ok "Added file `a.go`:   done".toList ∧
    (((exampleClient 3).SummarizeFile (exampleEnv ["  ".toList, "done".toList] []) World.fresh
        OPERATION_ADD "a.go".toList "ab cd".toList).2.calls.map
        (fun call => (call.request.Messages.map (fun m => (m.Role, m.Content)), call.outcome)))
      = [ ([("system".toList, "summarize_file".toList), ("user".toList, "ab".toList)],
            .ok (replyWith "  ".toList)),
          ([("system".toList, "summarize_file".toList), ("user".toList, "cd".toList)],
            .ok (replyWith "done".toList)) ] := by
  decide

/-- The carry-forward on a concrete run: the trimmed answer "one" to the first
chunk comes back in both system messages of the request for the second. -/
theorem carry_forward_example :
    (((exampleClient 3).SummarizeFile (exampleEnv [" one ".toList, "two".toList] []) World.fresh
        OPERATION_ADD "a.go".toList "ab cd".toList).2.calls.map
        (fun call => call.request.Messages.map (fun m => (m.Role, m.Content))))
      = [ [("system".toList, "summarize_file".toList), ("user".toList, "ab".toList)],
          [("system".toList, "summarize_file one".toList),
           ("system".toList, "prev_chunk_summary one".toList),
           ("user".toList, "cd".toList)] ] := by
  decide

/-! ### The token estimate -/

theorem countMessages_foldl (tkm : Str → Nat) (P A : Int)
    (messages : List ChatCompletionMessage) :
    ∀ (acc : Int),
      messages.foldl
        (fun numTokens msg =>
          numTokens + P + (tkm msg.Content : Int) + (tkm msg.Role : Int)
            + (tkm msg.Name : Int) + (if msg.Name ≠ [] then A else 0))
        acc
      = acc + (messages.map (messageTokens tkm P A)).sum := by
  induction messages with
  | nil => intro acc; simp
  | cons m rest ih =>
    intro acc
    rw [List.foldl_cons, ih]
    simp only [List.map_cons, List.sum_cons, messageTokens]
    ring

theorem countMessages_eq_sum (tkm : Str → Nat) (P A : Int)
    (messages : List ChatCompletionMessage) :
    countMessages tkm P A messages = 3 + (messages.map (messageTokens tkm P A)).sum := by
  unfold countMessages
  rw [countMessages_foldl]
  ring

theorem tokensPerModel_listed31 (model : Str) (h : model ∈ listedModels31) :
    tokensPerModel model = some (3, 1) := by
  simp only [listedModels31, List.mem_cons, List.mem_singleton, List.not_mem_nil, or_false] at h
  unfold tokensPerModel
  rw [if_pos h]

theorem countTokens_of_listed (env : Env) (model : Str) (enc : Str → Nat) (P A : Int)
    (messages : List ChatCompletionMessage)
    (henc : env.encodingForModel model = .ok enc)
    (hlisted : tokensPerModel model = some (P, A)) :
    countTokens env model messages = .ok (countMessages enc P A messages) := by
  unfold countTokens countTokensBody
  rw [henc, hlisted]

/-- C14: for each of the seven models that the `switch` lists, with `enc` the
length function of the tokenizer found for the model, `countTokens` returns
3 plus the sum over the messages of `P + enc(content) + enc(role) + enc(name)`
plus `A` when the name is not empty, where `P = 3`, `A = 1` for the six models
of the first case and `P = 4`, `A = -1` for "gpt-3.5-turbo-0301"; for an empty
message list the estimate is 3. -/
theorem countTokens_listed (env : Env) (model : Str) (enc : Str → Nat)
    (messages : List ChatCompletionMessage)
    (henc : env.encodingForModel model = .ok enc) :
    (model ∈ listedModels31 →
      countTokens env model messages
        = .ok (3 + (messages.map (fun msg =>
            3 + (enc msg.Content : Int) + (enc msg.Role : Int) + (enc msg.Name : Int)
              + (if msg.Name ≠ [] then 1 else 0))).sum) ∧
      countTokens env model [] = .ok 3) ∧
    (model = "gpt-3.5-turbo-0301".toList →
      countTokens env model messages
        = .ok (3 + (messages.map (fun msg =>
            4 + (enc msg.Content : Int) + (enc msg.Role : Int) + (enc msg.Name : Int)
              + (if msg.Name ≠ [] then -1 else 0))).sum) ∧
      countTokens env model [] = .ok 3) := by
  constructor
  · intro h
    have hl := tokensPerModel_listed31 model h
    rw [countTokens_of_listed env model enc 3 1 messages henc hl,
      countTokens_of_listed env model enc 3 1 [] henc hl, countMessages_eq_sum,
      countMessages_eq_sum]
    exact ⟨rfl, rfl⟩
  · intro h
    have hl : tokensPerModel model = some (4, -1) := by rw [h]; decide
    rw [countTokens_of_listed env model enc 4 (-1) messages henc hl,
      countTokens_of_listed env model enc 4 (-1) [] henc hl, countMessages_eq_sum,
      countMessages_eq_sum]
    exact ⟨rfl, rfl⟩

theorem countTokens_listed_witness :
    (exampleEnv [] []).encodingForModel "gpt-4-0613".toList = .ok (fun s => s.length) ∧
    "gpt-4-0613".toList ∈ listedModels31 ∧
    countTokens (exampleEnv [] []) "gpt-4-0613".toList
        (buildMessages "hello".toList ["sys".toList])
      = .ok (3 + ((buildMessages "hello".toList ["sys".toList]).map (fun msg =>
          3 + ((fun s : Str => s.length) msg.Content : Int)
            + ((fun s : Str => s.length) msg.Role : Int)
            + ((fun s : Str => s.length) msg.Name : Int)
            + (if msg.Name ≠ [] then 1 else 0))).sum) :=
  ⟨rfl, by decide,
   ((countTokens_listed (exampleEnv [] []) "gpt-4-0613".toList (fun s => s.length)
      (buildMessages "hello".toList ["sys".toList]) rfl).1 (by decide)).1⟩

theorem Contains_of_isPrefixOf (s sub : Str) (h : sub.isPrefixOf s = true) :
    Contains s sub = true := by
  cases s with
  | nil =>
    cases sub with
    | nil => rfl
    | cons a as => simp [List.isPrefixOf] at h
  | cons c cs => simp [Contains, h]

theorem countTokensBody_listed (env : Env)
    (r1 r2 : Str → List ChatCompletionMessage → Result Int) (model : Str) (P A : Int)
    (messages : List ChatCompletionMessage) (hlisted : tokensPerModel model = some (P, A)) :
    countTokensBody env r1 model messages = countTokensBody env r2 model messages := by
  unfold countTokensBody
  cases env.encodingForModel model with
  | error err => rfl
  | ok tkm => simp only [hlisted]

theorem countTokens_fallback35 (env : Env) (model : Str) (enc : Str → Nat)
    (messages : List ChatCompletionMessage)
    (henc : env.encodingForModel model = .ok enc)
    (hun : tokensPerModel model = none)
    (h35 : Contains model "gpt-3.5-turbo".toList = true) :
    countTokens env model messages = countTokens env "gpt-3.5-turbo-0613".toList messages := by
  have hl : tokensPerModel "gpt-3.5-turbo-0613".toList = some (3, 1) := by decide
  have hstep : countTokens env model messages
      = countTokensBody env (fun _ _ => .runtimePanic) "gpt-3.5-turbo-0613".toList messages := by
    unfold countTokens
    conv_lhs => unfold countTokensBody
    rw [henc, hun]
    simp only [h35, if_true]
    rfl
  rw [hstep]
  unfold countTokens
  exact countTokensBody_listed env _ _ _ 3 1 messages hl

theorem countTokens_fallback4 (env : Env) (model : Str) (enc : Str → Nat)
    (messages : List ChatCompletionMessage)
    (henc : env.encodingForModel model = .ok enc)
    (hun : tokensPerModel model = none)
    (h35 : Contains model "gpt-3.5-turbo".toList = false)
    (h4 : Contains model "gpt-4".toList = true) :
    countTokens env model messages = countTokens env "gpt-4-0613".toList messages := by
  have hl : tokensPerModel "gpt-4-0613".toList = some (3, 1) := by decide
  have hstep : countTokens env model messages
      = countTokensBody env (fun _ _ => .runtimePanic) "gpt-4-0613".toList messages := by
    unfold countTokens
    conv_lhs => unfold countTokensBody
    rw [henc, hun]
    simp only [h35, h4, if_true, Bool.false_eq_true, if_false]
    rfl
  rw [hstep]
  unfold countTokens
  exact countTokensBody_listed env _ _ _ 3 1 messages hl

theorem countTokens_baselines_agree (env : Env) (messages : List ChatCompletionMessage)
    (hsame : env.encodingForModel "gpt-3.5-turbo-0613".toList
      = env.encodingForModel "gpt-4-0613".toList) :
    countTokens env "gpt-3.5-turbo-0613".toList messages
      = countTokens env "gpt-4-0613".toList messages := by
  have h1 : tokensPerModel "gpt-3.5-turbo-0613".toList = some (3, 1) := by decide
  have h2 : tokensPerModel "gpt-4-0613".toList = some (3, 1) := by decide
  unfold countTokens countTokensBody
  rw [hsame, h1, h2]

/-- C13: for a model name that the `switch` does not list and whose tokenizer
lookup succeeds, `countTokens` gives the estimate of "gpt-4-0613" when the name
begins with "gpt-4", and the estimate of "gpt-3.5-turbo-0613" when the name
begins with "gpt-3.5-turbo".  The code tests for "gpt-3.5-turbo" anywhere in
the name before it tests for "gpt-4", so a name that begins with "gpt-4" and
contains "gpt-3.5-turbo" goes through the baseline "gpt-3.5-turbo-0613"; its
estimate is that of "gpt-4-0613" because the tokenizer lookup gives both
baseline names the same tokenizer, which is the one fact about the tokenizer
library that this case uses. -/
theorem countTokens_unlisted_baseline (env : Env) (model : Str) (enc : Str → Nat)
    (messages : List ChatCompletionMessage)
    (henc : env.encodingForModel model = .ok enc)
    (hun : tokensPerModel model = none) :
    ("gpt-4".toList.isPrefixOf model = true →
      (Contains model "gpt-3.5-turbo".toList = false ∨
        env.encodingForModel "gpt-3.5-turbo-0613".toList
          = env.encodingForModel "gpt-4-0613".toList) →
      countTokens env model messages = countTokens env "gpt-4-0613".toList messages) ∧
    ("gpt-3.5-turbo".toList.isPrefixOf model = true →
      countTokens env model messages
        = countTokens env "gpt-3.5-turbo-0613".toList messages) := by
  refine ⟨?_, ?_⟩
  · intro hp hside
    cases h35 : Contains model "gpt-3.5-turbo".toList with
    | true =>
      rcases hside with hno | hsame
      · rw [h35] at hno
        exact absurd hno (by decide)
      · rw [countTokens_fallback35 env model enc messages henc hun h35]
        exact countTokens_baselines_agree env messages hsame
    | false =>
      exact countTokens_fallback4 env model enc messages henc hun h35
        (Contains_of_isPrefixOf _ _ hp)
  · intro hp
    exact countTokens_fallback35 env model enc messages henc hun
      (Contains_of_isPrefixOf _ _ hp)

theorem countTokens_unlisted_baseline_witness :
    (exampleEnv [] []).encodingForModel "gpt-4-gpt-3.5-turbo".toList
      = .ok (fun s => s.length) ∧
    tokensPerModel "gpt-4-gpt-3.5-turbo".toList = none ∧
    "gpt-4".toList.isPrefixOf "gpt-4-gpt-3.5-turbo".toList = true ∧
    (exampleEnv [] []).encodingForModel "gpt-3.5-turbo-0613".toList
      = (exampleEnv [] []).encodingForModel "gpt-4-0613".toList ∧
    countTokens (exampleEnv [] []) "gpt-4-gpt-3.5-turbo".toList
        (buildMessages "hello".toList ["sys".toList])
      = countTokens (exampleEnv [] []) "gpt-4-0613".toList
          (buildMessages "hello".toList ["sys".toList]) ∧
    countTokens (exampleEnv [] []) "gpt-4-0613".toList
        (buildMessages "hello".toList ["sys".toList]) = .ok 27 ∧
    (exampleEnv [] []).encodingForModel "gpt-3.5-turbo-1106".toList
      = .ok (fun s => s.length) ∧
    tokensPerModel "gpt-3.5-turbo-1106".toList = none ∧
    "gpt-3.5-turbo".toList.isPrefixOf "gpt-3.5-turbo-1106".toList = true ∧
    countTokens (exampleEnv [] []) "gpt-3.5-turbo-1106".toList
        (buildMessages "hello".toList ["sys".toList])
      = countTokens (exampleEnv [] []) "gpt-3.5-turbo-0613".toList
          (buildMessages "hello".toList ["sys".toList]) :=
  ⟨rfl, by decide, by decide, rfl,
   (countTokens_unlisted_baseline (exampleEnv [] []) "gpt-4-gpt-3.5-turbo".toList
      (fun s => s.length) (buildMessages "hello".toList ["sys".toList]) rfl (by decide)).1
      (by decide) (Or.inr rfl),
   by decide, rfl, by decide, by decide,
   (countTokens_unlisted_baseline (exampleEnv [] []) "gpt-3.5-turbo-1106".toList
      (fun s => s.length) (buildMessages "hello".toList ["sys".toList]) rfl (by decide)).2
      (by decide)⟩

/-- C12 (code at the failing input): for the model "llama-2", for which the
tokenizer lookup fails, `countTokens` returns its error, but
`createChatCompletion` drops it and goes on with the estimate 0: with 100
reserved completion tokens it returns the too-many-tokens error for 0 tokens
and limit 0, and with 0 reserved tokens it calls the backend. -/
theorem createChatCompletion_unknown_model :
    countTokens (noTokenizerEnv "ok".toList) "llama-2".toList
        (buildMessages "hello".toList ["sys".toList])
      = .error 0 (.external "no encoding for model".toList) ∧
    (unknownModelClient 100).createChatCompletion (noTokenizerEnv "ok".toList) World.fresh
        "hello".toList ["sys".toList]
      = (.error (.tooManyTokens 0 0), World.fresh) ∧
    ((unknownModelClient 0).createChatCompletion (noTokenizerEnv "ok".toList) World.fresh
        "hello".toList ["sys".toList]).1 = .ok (replyWith "ok".toList) ∧
    ((unknownModelClient 0).createChatCompletion (noTokenizerEnv "ok".toList) World.fresh
        "hello".toList ["sys".toList]).2.calls.length = 1 := by
  decide

/-! ### Defects of the aggregation loop and of the reading of the first choice -/

/-- C19 (code at the failing input): with `maxChunkSize = 3` and the single
summary "abcdef", which alone is longer than the chunk size, the loop of
`SummarizeChanges` flushes the buffer while it is still empty: the first of
its two requests has the empty user content. -/
theorem SummarizeChanges_empty_flush :
    ((exampleClient 3).SummarizeChanges (mockEnv "ok".toList []) World.fresh
        ["abcdef".toList]).2.calls.map (fun call => userContents call.request)
      = [[[]], ["abcdef".toList]] ∧
    ((exampleClient 3).SummarizeChanges (mockEnv "ok".toList []) World.fresh
        ["abcdef".toList]).1 = .ok "ok\nok".toList := by
  decide

/-- C20 (code at the failing input): when the backend answers without an error
but with an empty list of choices, each of `FinalizeCommitMsg`,
`SummarizeFile`, `SummarizeDiff` and `SummarizeChanges` panics on reading
`resp.Choices[0]` after its first call, instead of returning a value or an
error. -/
theorem first_choice_out_of_range :
    ((exampleClient 100).FinalizeCommitMsg noChoiceEnv World.fresh "digest".toList).1
      = .runtimePanic ∧
    ((exampleClient 100).SummarizeFile noChoiceEnv World.fresh OPERATION_ADD "a.go".toList
        "hello world".toList).1 = .runtimePanic ∧
    ((exampleClient 100).SummarizeDiff noChoiceEnv World.fresh "a.go".toList
        "hello world".toList).1 = .runtimePanic ∧
    ((exampleClient 100).SummarizeChanges noChoiceEnv World.fresh ["summary".toList]).1
      = .runtimePanic ∧
    ((exampleClient 100).FinalizeCommitMsg noChoiceEnv World.fresh "digest".toList).2.calls.map
        (fun call => call.outcome)
      = [.ok { Choices := [], Usage := { PromptTokens := 7, CompletionTokens := 0,
                                         TotalTokens := 7 } }] := by
  decide

/-! ### Greediness of the splitter -/

theorem PairsOverflow_concat (n : Int) (l : List Str) (y : Str)
    (h : PairsOverflow n l) (hlast : ∀ x ∈ l.getLast?, Overflows n x y) :
    PairsOverflow n (l ++ [y]) := by
  induction l with
  | nil => simp [PairsOverflow]
  | cons a rest ih =>
    cases rest with
    | nil =>
      simp only [List.cons_append, List.nil_append, PairsOverflow, and_true]
      exact hlast a (by simp)
    | cons b rest2 =>
      simp only [List.cons_append, PairsOverflow] at h ⊢
      refine ⟨h.1, ?_⟩
      apply ih h.2
      intro x hx
      apply hlast x
      simpa using hx

theorem PairsOverflow_getElem (n : Int) (l : List Str) (h : PairsOverflow n l) :
    ∀ i a b, l[i]? = some a → l[i + 1]? = some b → Overflows n a b := by
  induction l with
  | nil => intro i a b ha; simp at ha
  | cons x rest ih =>
    intro i a b ha hb
    cases rest with
    | nil => simp at hb
    | cons y rest2 =>
      simp only [PairsOverflow] at h
      cases i with
      | zero =>
        simp only [List.getElem?_cons_zero, Option.some.injEq, zero_add,
          List.getElem?_cons_succ] at ha hb
        subst ha
        subst hb
        exact h.1
      | succ j =>
        rw [List.getElem?_cons_succ] at ha hb
        exact ih h.2 j a b ha hb

theorem Overflows_trim_right (n : Int) (a b : Str) (h : Overflows n a b) :
    Overflows n a (trimSpace b) := by
  unfold Overflows at *
  rw [Fields_trimSpace]
  exact h

theorem Overflows_trim_left (n : Int) (a b : Str) (h : Overflows n a b) :
    Overflows n (trimSpace a) b := by
  unfold Overflows at *
  rw [greedyLen_trimSpace]
  exact h

/-- Invariant of the loop of `SplitText` that carries greediness: the flushed
chunks overflow pairwise, and the current chunk starts with a word that would
have overflowed the chunk flushed last. -/
theorem splitStep_greedy (n : Int) (st : SplitState) (w : Str) (hw : IsWord w)
    (hcur : st.currentChunk = [] ∨ ∃ a sp, st.currentChunk = a ++ [sp] ∧ isSpace sp = true)
    (hrem : st.remainingSpace = n - greedyLen st.currentChunk)
    (hpairs : PairsOverflow n st.chunks)
    (hlast : ∀ x ∈ st.chunks.getLast?, Overflows n x st.currentChunk) :
    PairsOverflow n (splitStep n st w).chunks ∧
    (∀ x ∈ (splitStep n st w).chunks.getLast?,
      Overflows n x (splitStep n st w).currentChunk) := by
  unfold splitStep
  by_cases hle : ((w.length : Int) + 1) ≤ st.remainingSpace
  · simp only [hle, if_true]
    refine ⟨hpairs, ?_⟩
    intro x hx
    obtain ⟨v, rest, hf, hgt⟩ := hlast x hx
    exact ⟨v, rest ++ [w], by rw [Fields_append_word _ _ hw hcur, hf]; rfl, hgt⟩
  · simp only [hle, if_false]
    have hf : Fields (w ++ [' ']) = [w] := by simpa using Fields_word_space w hw []
    constructor
    · apply PairsOverflow_concat n _ _ hpairs
      intro x hx
      exact Overflows_trim_right n _ _ (hlast x hx)
    · intro x hx
      have hx2 : x = trimSpace st.currentChunk := by
        simpa [Option.or] using hx.symm
      subst hx2
      apply Overflows_trim_left
      exact ⟨w, [], hf, by omega⟩

theorem foldl_splitStep_greedy (n : Int) (ws : List Str) :
    ∀ (st : SplitState), (∀ w ∈ ws, IsWord w) →
    (st.currentChunk = [] ∨ ∃ a sp, st.currentChunk = a ++ [sp] ∧ isSpace sp = true) →
    st.remainingSpace = n - greedyLen st.currentChunk →
    PairsOverflow n st.chunks →
    (∀ x ∈ st.chunks.getLast?, Overflows n x st.currentChunk) →
    PairsOverflow n (ws.foldl (splitStep n) st).chunks ∧
    (∀ x ∈ (ws.foldl (splitStep n) st).chunks.getLast?,
      Overflows n x (ws.foldl (splitStep n) st).currentChunk) := by
  induction ws with
  | nil => intro st _ _ _ hp hl; exact ⟨hp, hl⟩
  | cons w rest ih =>
    intro st hws hcur hrem hp hl
    have hw := hws w (by simp)
    have hg := splitStep_greedy n st w hw hcur hrem hp hl
    have hc := (splitStep_words n st w hw hcur).2
    have hr : (splitStep n st w).remainingSpace
        = n - greedyLen (splitStep n st w).currentChunk := by
      unfold splitStep
      by_cases hle : ((w.length : Int) + 1) ≤ st.remainingSpace
      · simp only [hle, if_true]
        simp only [greedyLen, Fields_append_word _ _ hw hcur, List.map_append,
          List.sum_append, List.map_cons, List.map_nil, List.sum_cons, List.sum_nil]
        simp only [greedyLen] at hrem
        omega
      · simp only [hle, if_false]
        have hf : Fields (w ++ [' ']) = [w] := by simpa using Fields_word_space w hw []
        simp [greedyLen, hf]
    rw [List.foldl_cons]
    exact ih _ (fun v hv => hws v (by simp [hv])) hc hr hg.1 hg.2

/-- C18: `SplitText` is greedy: for every text and positive chunk size and for
every two consecutive chunks, the earlier chunk's word-greedy length plus the
rune count + 1 of the first word of the later chunk exceeds `chunkSize`: the
later chunk starts at a word that would have overflowed the earlier one. -/
theorem SplitText_greedy (text : Str) (chunkSize : Int) (hpos : 0 < chunkSize) :
    ∀ i a b, (SplitText text chunkSize)[i]? = some a →
      (SplitText text chunkSize)[i + 1]? = some b →
      ∃ w rest, Fields b = w :: rest ∧
        chunkSize < greedyLen a + ((w.length : Int) + 1) := by
  have _ := hpos
  have h := foldl_splitStep_greedy chunkSize (Fields text) ⟨[], [], chunkSize⟩
    (Fields_isWord text) (Or.inl rfl) (by simp [greedyLen, Fields_nil])
    (by simp [PairsOverflow]) (by simp)
  have hall : PairsOverflow chunkSize (SplitText text chunkSize) := by
    unfold SplitText
    apply PairsOverflow_concat chunkSize _ _ h.1
    intro x hx
    exact Overflows_trim_right chunkSize _ _ (h.2 x hx)
  exact PairsOverflow_getElem chunkSize _ hall

theorem SplitText_greedy_witness :
    (0 : Int) < 5 ∧
    (SplitText "abcde fg h ij".toList 5)[1]? = some "abcde".toList ∧
    (SplitText "abcde fg h ij".toList 5)[1 + 1]? = some "fg h".toList ∧
    ∃ w rest, Fields "fg h".toList = w :: rest ∧
      (5 : Int) < greedyLen "abcde".toList + ((w.length : Int) + 1) :=
  ⟨by decide, by decide, by decide,
   SplitText_greedy "abcde fg h ij".toList 5 (by decide) 1 "abcde".toList "fg h".toList
     (by decide) (by decide)⟩

/-! ### The size of the aggregation requests -/

theorem byteLen_dropWhile_le (s : Str) : byteLen (s.dropWhile isSpace) ≤ byteLen s := by
  conv_rhs => rw [← List.takeWhile_append_dropWhile isSpace s]
  rw [byteLen_append]
  omega

theorem byteLen_rdropWhile_le (s : Str) :
    byteLen ((s.reverse.dropWhile isSpace).reverse) ≤ byteLen s := by
  have h : s = (s.reverse.dropWhile isSpace).reverse ++ (s.reverse.takeWhile isSpace).reverse := by
    rw [← List.reverse_append, List.takeWhile_append_dropWhile, List.reverse_reverse]
  conv_rhs => rw [h]
  rw [byteLen_append]
  omega

theorem byteLen_trimSpace_le (s : Str) : byteLen (trimSpace s) ≤ byteLen s := by
  unfold trimSpace
  exact le_trans (byteLen_rdropWhile_le _) (byteLen_dropWhile_le s)

theorem userContents_buildRequest (c : client) (content systemMsg : Str) :
    userContents (buildRequest c (buildMessages content [systemMsg])) = [trimSpace content] := by
  have h1 : (ChatMessageRoleSystem == ChatMessageRoleUser) = false := by decide
  have h2 : (ChatMessageRoleUser == ChatMessageRoleUser) = true := by decide
  simp [userContents, buildRequest, buildMessages, List.filter, h1, h2]

theorem completionStep_calls (c : client) (env : Env) (w : World) (content : Str)
    (systemMsgs : List Str) :
    ∃ new, (c.completionStep env w content systemMsgs).2.calls = w.calls ++ new ∧
      ∀ call ∈ new, call.request = buildRequest c (buildMessages content systemMsgs) := by
  rcases completionStep_cases c env w content systemMsgs with
    ⟨_, err, h⟩ | ⟨_, call, hreq, _, ⟨err, _, h⟩ | ⟨resp, _, _, h⟩ | ⟨resp, ch, ot, _, _, h⟩⟩
  · exact ⟨[], by rw [h]; simp, by simp⟩
  · exact ⟨[call], by rw [h], by simpa using hreq⟩
  · exact ⟨[call], by rw [h], by simpa using hreq⟩
  · exact ⟨[call], by rw [h], by simpa using hreq⟩

/-- The buffer of `SummarizeChanges` is empty or starts with the newline that
`Sprintf` puts before every summary, and is at most one byte longer than the
chunk size. -/
theorem aggregateRest_content_bound (c : client) (env : Env) (systemMsg : Str)
    (hpos : 0 < c.maxChunkSize) (changes : List Str) :
    ∀ (prompt : Str) (result : List Str) (w : World),
      (∀ s ∈ changes, (byteLen s : Int) ≤ c.maxChunkSize) →
      (prompt = [] ∨ ∃ rest, prompt = '\n' :: rest ∧
        (byteLen prompt : Int) ≤ c.maxChunkSize + 1) →
      ∃ new, (c.aggregateRest env systemMsg changes prompt result w).2.calls = w.calls ++ new ∧
        ∀ call ∈ new, ∀ content ∈ userContents call.request,
          (byteLen content : Int) ≤ c.maxChunkSize := by
  have hflush : ∀ (prompt : Str) (w : World),
      (prompt = [] ∨ ∃ rest, prompt = '\n' :: rest ∧
        (byteLen prompt : Int) ≤ c.maxChunkSize + 1) →
      ∃ new, (c.completionStep env w prompt [systemMsg]).2.calls = w.calls ++ new ∧
        ∀ call ∈ new, ∀ content ∈ userContents call.request,
          (byteLen content : Int) ≤ c.maxChunkSize := by
    intro prompt w hinv
    obtain ⟨new, hcalls, hreq⟩ := completionStep_calls c env w prompt [systemMsg]
    refine ⟨new, hcalls, ?_⟩
    intro call hcall content hcontent
    rw [hreq call hcall, userContents_buildRequest] at hcontent
    simp only [List.mem_singleton] at hcontent
    subst hcontent
    rcases hinv with rfl | ⟨rest, rfl, hlen⟩
    · have : trimSpace ([] : Str) = [] := rfl
      rw [this]
      simp only [byteLen, List.map_nil, List.sum_nil]
      omega
    · have h1 : trimSpace ('\n' :: rest) = trimSpace rest := trimSpace_newline_append rest
      have h2 := byteLen_trimSpace_le rest
      have h3 : byteLen ('\n' :: rest) = 1 + byteLen rest := by
        have : byteLen ("\n".toList ++ rest) = byteLen "\n".toList + byteLen rest :=
          byteLen_append _ _
        simpa using this
      rw [h1]
      rw [h3] at hlen
      push_cast at hlen
      omega
  have hnext : ∀ (prompt summary : Str), (byteLen summary : Int) ≤ c.maxChunkSize →
      (prompt = [] ∨ ∃ rest, prompt = '\n' :: rest ∧
        (byteLen prompt : Int) ≤ c.maxChunkSize + 1) →
      ¬ ((byteLen prompt : Int) + (byteLen summary : Int)) > c.maxChunkSize →
      ∃ rest, prompt ++ "\n".toList ++ summary = '\n' :: rest ∧
        (byteLen (prompt ++ "\n".toList ++ summary) : Int) ≤ c.maxChunkSize + 1 := by
    intro prompt summary hs hinv hfit
    have hnl : byteLen "\n".toList = 1 := by decide
    have hlen : (byteLen (prompt ++ "\n".toList ++ summary) : Int) ≤ c.maxChunkSize + 1 := by
      rw [byteLen_append, byteLen_append, hnl]
      push_cast
      omega
    rcases hinv with rfl | ⟨rest, rfl, _⟩
    · exact ⟨summary, rfl, hlen⟩
    · exact ⟨rest ++ "\n".toList ++ summary, rfl, hlen⟩
  induction changes with
  | nil =>
    intro prompt result w _ hinv
    by_cases hp : trimSpace prompt = []
    · rw [aggregateRest_nil_blank c env systemMsg prompt result w hp]
      exact ⟨[], by simp, by simp⟩
    · rw [aggregateRest_nil_flush c env systemMsg prompt result w hp]
      obtain ⟨new, hcalls, hbound⟩ := hflush prompt w hinv
      cases hstep : c.completionStep env w prompt [systemMsg] with
      | mk r w1 =>
        rw [hstep] at hcalls
        cases r <;> exact ⟨new, hcalls, hbound⟩
  | cons summary rest ih =>
    intro prompt result w hlen hinv
    have hs : (byteLen summary : Int) ≤ c.maxChunkSize := hlen summary (by simp)
    have hrest : ∀ s ∈ rest, (byteLen s : Int) ≤ c.maxChunkSize :=
      fun s hs => hlen s (by simp [hs])
    by_cases hover : ((byteLen prompt : Int) + (byteLen summary : Int)) > c.maxChunkSize
    · rw [aggregateRest_cons_flush c env systemMsg summary rest prompt result w hover]
      obtain ⟨new, hcalls, hbound⟩ := hflush prompt w hinv
      cases hstep : c.completionStep env w prompt [systemMsg] with
      | mk r w1 =>
        rw [hstep] at hcalls
        cases r with
        | error val err => exact ⟨new, hcalls, hbound⟩
        | runtimePanic => exact ⟨new, hcalls, hbound⟩
        | ok text =>
          have hinv2 : ("\n".toList ++ summary = [] ∨ ∃ r2, "\n".toList ++ summary = '\n' :: r2 ∧
              (byteLen ("\n".toList ++ summary) : Int) ≤ c.maxChunkSize + 1) := by
            right
            refine ⟨summary, rfl, ?_⟩
            have hnl : byteLen "\n".toList = 1 := by decide
            rw [byteLen_append, hnl]
            push_cast
            omega
          obtain ⟨new2, hcalls2, hbound2⟩ := ih ("\n".toList ++ summary) (result ++ [text]) w1
            hrest hinv2
          refine ⟨new ++ new2, ?_, ?_⟩
          · simp only at hcalls hcalls2 ⊢
            rw [hcalls2, hcalls, List.append_assoc]
          · intro call hcall
            rcases List.mem_append.mp hcall with h | h
            · exact hbound call h
            · exact hbound2 call h
    · rw [aggregateRest_cons_keep c env systemMsg summary rest prompt result w hover]
      exact ih _ result w hrest (Or.inr (hnext prompt summary hs hinv hover))

/-- C16: for every positive `maxChunkSize` and every list of summaries of
length at most `maxChunkSize` each, whatever the backend answers, the user
content of every request that `SummarizeChanges` sends (the trimmed buffer)
has length at most `maxChunkSize`. -/
theorem SummarizeChanges_content_bound (c : client) (env : Env) (w : World)
    (changes : List Str) (hpos : 0 < c.maxChunkSize)
    (hlen : ∀ s ∈ changes, (byteLen s : Int) ≤ c.maxChunkSize) :
    ∀ call ∈ newCalls w (c.SummarizeChanges env w changes).2,
      ∀ content ∈ userContents call.request, (byteLen content : Int) ≤ c.maxChunkSize := by
  unfold client.SummarizeChanges
  cases h : GetTemplateByString env env.SummarizeChangesTemplate [] with
  | mk systemMsg oerr =>
    cases oerr with
    | some err =>
      intro call hcall
      simp [newCalls] at hcall
    | none =>
      obtain ⟨new, hcalls, hbound⟩ := aggregateRest_content_bound c env systemMsg hpos changes
        [] [] w hlen (Or.inl rfl)
      intro call hcall
      simp only [newCalls, hcalls, List.drop_left] at hcall
      exact hbound call hcall

theorem SummarizeChanges_content_bound_witness :
    (0 : Int) < (exampleClient 12).maxChunkSize ∧
    (∀ s ∈ ["hello".toList, "world".toList, "and more".toList],
      (byteLen s : Int) ≤ (exampleClient 12).maxChunkSize) ∧
    (newCalls World.fresh ((exampleClient 12).SummarizeChanges (mockEnv "ok".toList [])
        World.fresh ["hello".toList, "world".toList, "and more".toList]).2).map
        (fun call => userContents call.request)
      = [["hello\nworld".toList], ["and more".toList]] ∧
    ∀ call ∈ newCalls World.fresh ((exampleClient 12).SummarizeChanges (mockEnv "ok".toList [])
        World.fresh ["hello".toList, "world".toList, "and more".toList]).2,
      ∀ content ∈ userContents call.request,
        (byteLen content : Int) ≤ (exampleClient 12).maxChunkSize :=
  ⟨by decide, by decide, by decide,
   SummarizeChanges_content_bound (exampleClient 12) (mockEnv "ok".toList []) World.fresh
     ["hello".toList, "world".toList, "and more".toList] (by decide) (by decide)⟩

/-! ### The batches of the aggregation -/

theorem bufferOf_nil : bufferOf [] = [] := rfl

theorem bufferOf_concat (batch : List Str) (s : Str) :
    bufferOf (batch ++ [s]) = bufferOf batch ++ "\n".toList ++ s := by
  simp [bufferOf, List.flatMap_append]

theorem bufferOf_singleton (s : Str) : bufferOf [s] = "\n".toList ++ s := by
  simp [bufferOf]

theorem trimSpace_eq_nil_iff (s : Str) : trimSpace s = [] ↔ ∀ c ∈ s, isSpace c = true := by
  rw [trimSpace_eq_rdropWhile, List.rdropWhile_eq_nil_iff]
  constructor
  · intro h
    have hd : s.dropWhile isSpace = [] := by
      by_contra hne
      have h0 : 0 < (s.dropWhile isSpace).length := List.length_pos.mpr hne
      have hnot := List.dropWhile_get_zero_not isSpace s h0
      have hmem : (s.dropWhile isSpace).get ⟨0, h0⟩ ∈ s.dropWhile isSpace :=
        List.get_mem _ _ _
      exact hnot (h _ hmem)
    exact List.dropWhile_eq_nil_iff.mp hd
  · intro h x hx
    exact h x ((List.dropWhile_sublist isSpace).subset hx)

theorem blank_of_bufferOf_blank (batch : List Str) (h : trimSpace (bufferOf batch) = []) :
    ∀ s ∈ batch, trimSpace s = [] := by
  rw [trimSpace_eq_nil_iff] at h
  intro s hs
  rw [trimSpace_eq_nil_iff]
  intro ch hch
  apply h
  simp only [bufferOf, List.mem_flatMap]
  exact ⟨s, hs, by simp [hch]⟩

theorem completionStep_ok_inv (c : client) (env : Env) (w : World) (content : Str)
    (systemMsgs : List Str) (text : Str) (w1 : World)
    (h : c.completionStep env w content systemMsgs = (.ok text, w1)) :
    ∃ call : Call, call.request = buildRequest c (buildMessages content systemMsgs) ∧
      call.completionText = some text ∧ w1.calls = w.calls ++ [call] := by
  rcases completionStep_cases c env w content systemMsgs with
    ⟨_, err, h1⟩ | ⟨_, call, hreq, _, ⟨err, _, h1⟩ | ⟨resp, _, _, h1⟩ | ⟨resp, ch, ot, ho, hch, h1⟩⟩
  · rw [h1] at h
    simp at h
  · rw [h1] at h
    simp at h
  · rw [h1] at h
    simp at h
  · rw [h1] at h
    simp only [Prod.mk.injEq, Result.ok.injEq] at h
    obtain ⟨ht, hw⟩ := h
    refine ⟨call, hreq, ?_, ?_⟩
    · simp [Call.completionText, ho, hch, ht]
    · rw [← hw]

theorem completionStep_rejected (c : client) (env : Env) (w : World) (content : Str)
    (systemMsgs : List Str) (hb : ¬ withinBudget c env content systemMsgs) :
    c.completionStep env w content systemMsgs
      = (.error [] (.tooManyTokens (estimateOrZero env c.model (buildMessages content systemMsgs))
          (tokensMap c.model)), w) := by
  unfold client.completionStep
  rw [createChatCompletion_rejected c env w content systemMsgs hb]

theorem aggregateRest_batches (c : client) (env : Env) (systemMsg : Str)
    (changes : List Str) :
    ∀ (cur : List Str) (result : List Str) (w : World) (digest : Str),
      (c.aggregateRest env systemMsg changes (bufferOf cur) result w).1 = .ok digest →
      ∃ (batches : List (List Str)) (leftover : List Str) (new : List Call),
        cur ++ changes = batches.flatten ++ leftover ∧
        (∀ s ∈ leftover, trimSpace s = []) ∧
        (c.aggregateRest env systemMsg changes (bufferOf cur) result w).2.calls
          = w.calls ++ new ∧
        new.map (fun call => userContents call.request)
          = batches.map (fun b => [trimSpace (bufferOf b)]) ∧
        (∀ call ∈ new, ∃ text, call.completionText = some text) ∧
        digest = trimSpace (Join
            (result ++ new.map (fun call => call.completionText.getD [])) "\n".toList) := by
  induction changes with
  | nil =>
    intro cur result w digest hok
    by_cases hp : trimSpace (bufferOf cur) = []
    · rw [aggregateRest_nil_blank c env systemMsg _ result w hp] at hok ⊢
      simp only [Result.ok.injEq] at hok
      exact ⟨[], cur, [], by simp, blank_of_bufferOf_blank cur hp, by simp, by simp, by simp,
        by simp [← hok]⟩
    · rw [aggregateRest_nil_flush c env systemMsg _ result w hp] at hok ⊢
      cases hstep : c.completionStep env w (bufferOf cur) [systemMsg] with
      | mk r w1 =>
        rw [hstep] at hok
        cases r with
        | error val err => simp at hok
        | runtimePanic => simp at hok
        | ok text =>
          simp only [Result.ok.injEq] at hok
          obtain ⟨call, hreq, htext, hcalls⟩ :=
            completionStep_ok_inv c env w (bufferOf cur) [systemMsg] text w1 hstep
          refine ⟨[cur], [], [call], by simp, by simp, hcalls, ?_, ?_, ?_⟩
          · simp [hreq, userContents_buildRequest]
          · intro call1 hcall1
            simp only [List.mem_singleton] at hcall1
            exact ⟨text, by rw [hcall1]; exact htext⟩
          · simp [htext, ← hok]
  | cons summary rest ih =>
    intro cur result w digest hok
    by_cases hover : ((byteLen (bufferOf cur) : Int) + (byteLen summary : Int)) > c.maxChunkSize
    · rw [aggregateRest_cons_flush c env systemMsg summary rest _ result w hover] at hok ⊢
      cases hstep : c.completionStep env w (bufferOf cur) [systemMsg] with
      | mk r w1 =>
        rw [hstep] at hok
        cases r with
        | error val err => simp at hok
        | runtimePanic => simp at hok
        | ok text =>
          simp only at hok ⊢
          obtain ⟨call, hreq, htext, hcalls⟩ :=
            completionStep_ok_inv c env w (bufferOf cur) [systemMsg] text w1 hstep
          rw [← bufferOf_singleton summary] at hok ⊢
          obtain ⟨batches, leftover, new, hsplit, hblank, hlog, hreqs, htexts, hres⟩ :=
            ih [summary] (result ++ [text]) w1 digest hok
          refine ⟨cur :: batches, leftover, call :: new, ?_, hblank, ?_, ?_, ?_, ?_⟩
          · simp only [List.flatten_cons, List.append_assoc]
            rw [← hsplit]
            simp
          · rw [hlog, hcalls]
            simp
          · simp [hreq, userContents_buildRequest, hreqs]
          · intro call1 hcall1
            rcases List.mem_cons.mp hcall1 with h1 | h1
            · exact ⟨text, by rw [h1]; exact htext⟩
            · exact htexts call1 h1
          · rw [hres]
            simp [htext]
    · rw [aggregateRest_cons_keep c env systemMsg summary rest _ result w hover,
        ← bufferOf_concat] at hok ⊢
      obtain ⟨batches, leftover, new, hsplit, hblank, hlog, hreqs, htexts, hres⟩ :=
        ih (cur ++ [summary]) result w digest hok
      exact ⟨batches, leftover, new, by rw [← hsplit]; simp, hblank, hlog, hreqs, htexts, hres⟩

theorem aggregateRest_returns (c : client) (env : Env) (systemMsg : Str)
    (htransport : ∀ calls req, ∃ resp choice others,
      env.transport calls req = .ok resp ∧ resp.Choices = choice :: others)
    (changes : List Str) :
    ∀ (prompt : Str) (result : List Str) (w : World),
      (∃ digest, (c.aggregateRest env systemMsg changes prompt result w).1 = .ok digest) ∨
      (∃ numTokens tokenLimit,
        (c.aggregateRest env systemMsg changes prompt result w).1
          = .error [] (.tooManyTokens numTokens tokenLimit)) := by
  induction changes with
  | nil =>
    intro prompt result w
    by_cases hp : trimSpace prompt = []
    · rw [aggregateRest_nil_blank c env systemMsg _ result w hp]
      exact Or.inl ⟨_, rfl⟩
    · rw [aggregateRest_nil_flush c env systemMsg _ result w hp]
      by_cases hb : withinBudget c env prompt [systemMsg]
      · obtain ⟨text, call, st, _, hstep⟩ :=
          completionStep_succeeds c env w prompt [systemMsg] hb htransport
        rw [hstep]
        exact Or.inl ⟨_, rfl⟩
      · rw [completionStep_rejected c env w prompt [systemMsg] hb]
        exact Or.inr ⟨_, _, rfl⟩
  | cons summary rest ih =>
    intro prompt result w
    by_cases hover : ((byteLen prompt : Int) + (byteLen summary : Int)) > c.maxChunkSize
    · rw [aggregateRest_cons_flush c env systemMsg summary rest _ result w hover]
      by_cases hb : withinBudget c env prompt [systemMsg]
      · obtain ⟨text, call, st, _, hstep⟩ :=
          completionStep_succeeds c env w prompt [systemMsg] hb htransport
        rw [hstep]
        exact ih _ _ _
      · rw [completionStep_rejected c env w prompt [systemMsg] hb]
        exact Or.inr ⟨_, _, rfl⟩
    · rw [aggregateRest_cons_keep c env systemMsg summary rest _ result w hover]
      exact ih _ _ _

/-- C15 (amended): in every run of `SummarizeChanges` that returns a digest,
the summaries split, in order, into the batches that were flushed and a rest
of blank summaries that is not sent: the user content of the j-th request is
the trimmed buffer built from the j-th batch (each of its summaries preceded
by a newline), so every summary with text that is not white space is sent
exactly once and in input order; every request was answered with a choice, and
the digest is the trimmed newline-join of the trimmed first-choice texts, in
request order.  With the template rendered and a backend that answers every
call with at least one choice, the run returns a digest unless the
token-budget check rejects a request, in which case it returns the
too-many-tokens error. -/
theorem SummarizeChanges_batches (c : client) (env : Env) (w : World) (changes : List Str) :
    (∀ digest, (c.SummarizeChanges env w changes).1 = .ok digest →
      ∃ (batches : List (List Str)) (leftover : List Str),
        changes = batches.flatten ++ leftover ∧
        (∀ s ∈ leftover, trimSpace s = []) ∧
        (newCalls w (c.SummarizeChanges env w changes).2).map
            (fun call => userContents call.request)
          = batches.map (fun b => [trimSpace (bufferOf b)]) ∧
        (∀ call ∈ newCalls w (c.SummarizeChanges env w changes).2,
          ∃ text, call.completionText = some text) ∧
        digest = trimSpace (Join
            ((newCalls w (c.SummarizeChanges env w changes).2).map
              (fun call => call.completionText.getD [])) "\n".toList)) ∧
    (∀ systemMsg,
      GetTemplateByString env env.SummarizeChangesTemplate [] = (systemMsg, none) →
      (∀ calls req, ∃ resp choice others,
        env.transport calls req = .ok resp ∧ resp.Choices = choice :: others) →
      (∃ digest, (c.SummarizeChanges env w changes).1 = .ok digest) ∨
      (∃ numTokens tokenLimit,
        (c.SummarizeChanges env w changes).1
          = .error [] (.tooManyTokens numTokens tokenLimit))) := by
  refine ⟨?_, ?_⟩
  · intro digest hok
    cases htmpl : GetTemplateByString env env.SummarizeChangesTemplate [] with
    | mk systemMsg oerr =>
      cases oerr with
      | some err =>
        simp [client.SummarizeChanges, htmpl] at hok
      | none =>
        have hrun : c.SummarizeChanges env w changes
            = c.aggregateRest env systemMsg changes (bufferOf []) [] w := by
          simp [client.SummarizeChanges, htmpl, bufferOf_nil]
        rw [hrun] at hok ⊢
        obtain ⟨batches, leftover, new, hsplit, hblank, hlog, hreqs, htexts, hres⟩ :=
          aggregateRest_batches c env systemMsg changes [] [] w digest hok
        have hn : newCalls w (c.aggregateRest env systemMsg changes (bufferOf []) [] w).2
            = new := by
          simp [newCalls, hlog]
        rw [hn]
        exact ⟨batches, leftover, by simpa using hsplit, hblank, hreqs, htexts,
          by simpa using hres⟩
  · intro systemMsg htmpl htransport
    have hrun : c.SummarizeChanges env w changes
        = c.aggregateRest env systemMsg changes [] [] w := by
      simp [client.SummarizeChanges, htmpl]
    rw [hrun]
    exact aggregateRest_returns c env systemMsg htransport changes [] [] w

theorem SummarizeChanges_batches_witness :
    ((exampleClient 12).SummarizeChanges (mockEnv " ok ".toList []) World.fresh
        ["hello".toList, "world".toList, "and more".toList, "  ".toList]).1
      = .ok "ok\nok".toList ∧
    (newCalls World.fresh ((exampleClient 12).SummarizeChanges (mockEnv " ok ".toList [])
        World.fresh ["hello".toList, "world".toList, "and more".toList, "  ".toList]).2).map
        (fun call => userContents call.request)
      = [["hello\nworld".toList], ["and more".toList]] ∧
    (∃ (batches : List (List Str)) (leftover : List Str),
      ["hello".toList, "world".toList, "and more".toList, "  ".toList]
        = batches.flatten ++ leftover ∧
      (∀ s ∈ leftover, trimSpace s = []) ∧
      (newCalls World.fresh ((exampleClient 12).SummarizeChanges (mockEnv " ok ".toList [])
          World.fresh ["hello".toList, "world".toList, "and more".toList, "  ".toList]).2).map
          (fun call => userContents call.request)
        = batches.map (fun b => [trimSpace (bufferOf b)]) ∧
      (∀ call ∈ newCalls World.fresh ((exampleClient 12).SummarizeChanges
          (mockEnv " ok ".toList []) World.fresh
          ["hello".toList, "world".toList, "and more".toList, "  ".toList]).2,
        ∃ text, call.completionText = some text) ∧
      "ok\nok".toList = trimSpace (Join
          ((newCalls World.fresh ((exampleClient 12).SummarizeChanges
              (mockEnv " ok ".toList []) World.fresh
              ["hello".toList, "world".toList, "and more".toList, "  ".toList]).2).map
            (fun call => call.completionText.getD [])) "\n".toList)) ∧
    ((∃ digest, ((exampleClient 12).SummarizeChanges (mockEnv " ok ".toList []) World.fresh
        ["hello".toList, "world".toList, "and more".toList, "  ".toList]).1 = .ok digest) ∨
     (∃ numTokens tokenLimit,
        ((exampleClient 12).SummarizeChanges (mockEnv " ok ".toList []) World.fresh
          ["hello".toList, "world".toList, "and more".toList, "  ".toList]).1
          = .error [] (.tooManyTokens numTokens tokenLimit))) :=
  ⟨by decide, by decide,
   (SummarizeChanges_batches (exampleClient 12) (mockEnv " ok ".toList []) World.fresh
     ["hello".toList, "world".toList, "and more".toList, "  ".toList]).1
     "ok\nok".toList (by decide),
   (SummarizeChanges_batches (exampleClient 12) (mockEnv " ok ".toList []) World.fresh
     ["hello".toList, "world".toList, "and more".toList, "  ".toList]).2
     "summarize_changes".toList (by decide)
     (fun _ _ => ⟨replyWith " ok ".toList, replyChoice " ok ".toList, [], rfl, rfl⟩)⟩

theorem trimSpace_of_no_space (s : Str) (h : ∀ ch ∈ s, isSpace ch = false) :
    trimSpace s = s := by
  rw [trimSpace_eq_rdropWhile]
  have hd : s.dropWhile isSpace = s := by
    cases s with
    | nil => rfl
    | cons a rest =>
      have ha : ¬ isSpace a = true := by
        rw [h a (by simp)]
        decide
      rw [List.dropWhile_cons_of_neg ha]
  rw [hd, List.rdropWhile_eq_self_iff]
  intro hne
  rw [h _ (List.getLast_mem hne)]
  decide

theorem byteLen_replicate_ascii (n : Nat) : byteLen (List.replicate n 'a') = n := by
  have h : Char.utf8Size 'a' = 1 := by decide
  simp [byteLen, h]

/-- A summary of `n` letters, with `n` above the 8056 that the budget of the
example client leaves for the user content, followed by a second summary: the
loop of `SummarizeChanges` flushes the empty buffer, and the flush of the
buffer with the first summary is rejected by the budget check. -/
theorem SummarizeChanges_long_summary (n : Nat) (hn : 8056 < n) :
    ((exampleClient 12).SummarizeChanges (mockEnv "ok".toList []) World.fresh
        [List.replicate n 'a', "b".toList]).1
      = .error [] (.tooManyTokens (36 + (n : Int)) 8192) ∧
    (newCalls World.fresh ((exampleClient 12).SummarizeChanges (mockEnv "ok".toList [])
        World.fresh [List.replicate n 'a', "b".toList]).2).map
        (fun call => userContents call.request) = [[[]]] := by
  have htmpl : GetTemplateByString (mockEnv "ok".toList [])
      (mockEnv "ok".toList []).SummarizeChangesTemplate []
        = ("summarize_changes".toList, none) := by decide
  have hrun : (exampleClient 12).SummarizeChanges (mockEnv "ok".toList []) World.fresh
        [List.replicate n 'a', "b".toList]
      = (exampleClient 12).aggregateRest (mockEnv "ok".toList []) "summarize_changes".toList
          [List.replicate n 'a', "b".toList] [] [] World.fresh := by
    unfold client.SummarizeChanges
    rw [htmpl]
  have hlenA := byteLen_replicate_ascii n
  have hnil : byteLen ([] : Str) = 0 := rfl
  have hnl : byteLen "\n".toList = 1 := by decide
  have hb : byteLen "b".toList = 1 := by decide
  have hmax : (exampleClient 12).maxChunkSize = 12 := rfl
  -- the first summary does not fit: the empty buffer is flushed
  have h1 : ((byteLen ([] : Str) : Int) + (byteLen (List.replicate n 'a') : Int))
      > (exampleClient 12).maxChunkSize := by
    rw [hnil, hlenA, hmax]
    omega
  have hb1 : withinBudget (exampleClient 12) (mockEnv "ok".toList []) []
      ["summarize_changes".toList] := by decide
  obtain ⟨t1, c1, st1, r1, e1⟩ := completionStep_succeeds (exampleClient 12)
    (mockEnv "ok".toList []) World.fresh [] ["summarize_changes".toList] hb1
    (fun _ _ => ⟨replyWith "ok".toList, replyChoice "ok".toList, [], rfl, rfl⟩)
  -- the second does not fit either: the buffer with the first summary is flushed
  have h2 : ((byteLen ("\n".toList ++ List.replicate n 'a') : Int)
      + (byteLen "b".toList : Int)) > (exampleClient 12).maxChunkSize := by
    rw [byteLen_append, hnl, hlenA, hb, hmax]
    omega
  have htrim : trimSpace ("\n".toList ++ List.replicate n 'a') = List.replicate n 'a' := by
    rw [trimSpace_newline_append]
    apply trimSpace_of_no_space
    intro ch hch
    rw [List.eq_of_mem_replicate hch]
    decide
  have hest : estimateOrZero (mockEnv "ok".toList []) (exampleClient 12).model
      (buildMessages ("\n".toList ++ List.replicate n 'a') ["summarize_changes".toList])
        = 36 + (n : Int) := by
    apply estimateOrZero_of_ok
    rw [countTokens_fallback_gpt4 (mockEnv "ok".toList []) (exampleClient 12).model _
      (fun s => s.length) (fun _ => rfl) (by decide) (by decide) (by decide)]
    have hsys : trimSpace "summarize_changes".toList = "summarize_changes".toList := by decide
    simp only [countMessages, buildMessages, htrim, hsys, List.map_cons, List.map_nil,
      List.singleton_append, List.foldl_cons, List.foldl_nil, List.length_replicate]
    simp [ChatMessageRoleSystem, ChatMessageRoleUser]
    ring
  have hlim : tokensMap (exampleClient 12).model = 8192 := by decide
  have hb2 : ¬ withinBudget (exampleClient 12) (mockEnv "ok".toList [])
      ("\n".toList ++ List.replicate n 'a') ["summarize_changes".toList] := by
    unfold withinBudget
    rw [hest, hlim]
    have hw : wrap64 (8192 - (exampleClient 12).maxTokens) = 8092 := by decide
    rw [hw]
    omega
  have hrej := completionStep_rejected (exampleClient 12) (mockEnv "ok".toList [])
    { stats := st1, calls := World.fresh.calls ++ [c1] }
    ("\n".toList ++ List.replicate n 'a') ["summarize_changes".toList] hb2
  rw [hest, hlim] at hrej
  rw [hrun, aggregateRest_cons_flush _ _ _ _ _ _ _ _ h1, e1]
  simp only
  rw [aggregateRest_cons_flush _ _ _ _ _ _ _ _ h2, hrej]
  refine ⟨rfl, ?_⟩
  simp [newCalls, World.fresh, r1, userContents_buildRequest]
  rfl

/-- C15 as stated fails: the backend answers every call, yet for a first
summary of 9000 letters followed by the summary "b", with `maxChunkSize = 12`,
the token-budget check rejects the request that carries the first summary
(9036 tokens against the 8092 that the limit of 8192 leaves):
`SummarizeChanges` returns the too-many-tokens error and no digest, and the one
request that was sent, for the buffer that was still empty, carries neither
summary. -/
theorem SummarizeChanges_batches_counterexample :
    (∀ calls req, (mockEnv "ok".toList []).transport calls req
      = .ok (replyWith "ok".toList)) ∧
    trimSpace "b".toList ≠ [] ∧
    ((exampleClient 12).SummarizeChanges (mockEnv "ok".toList []) World.fresh
        [List.replicate 9000 'a', "b".toList]).1
      = .error [] (.tooManyTokens 9036 8192) ∧
    (newCalls World.fresh ((exampleClient 12).SummarizeChanges (mockEnv "ok".toList [])
        World.fresh [List.replicate 9000 'a', "b".toList]).2).map
        (fun call => userContents call.request) = [[[]]] :=
  ⟨fun _ _ => rfl, by decide, (SummarizeChanges_long_summary 9000 (by decide)).1,
   (SummarizeChanges_long_summary 9000 (by decide)).2⟩

/-! ### Failure in the middle of a file -/

theorem summarizeRest_of_reach (c : client) (env : Env) (template : Str) (data : Str → Data)
    (pre : List Str) :
    ∀ (tail : List Str) (prev : Str) (result : List Str) (w : World) (prev1 : Str)
      (result1 : List Str) (w1 : World),
      c.summarizeReach env template data pre prev result w = some (prev1, result1, w1) →
      c.summarizeRest env template data (pre ++ tail) prev result w
          = c.summarizeRest env template data tail prev1 result1 w1 ∧
        w1.stats.NumFiles = w.stats.NumFiles := by
  induction pre with
  | nil =>
    intro tail prev result w prev1 result1 w1 h
    simp only [client.summarizeReach, Option.some.injEq, Prod.mk.injEq] at h
    obtain ⟨rfl, rfl, rfl⟩ := h
    exact ⟨rfl, rfl⟩
  | cons chunk rest ih =>
    intro tail prev result w prev1 result1 w1 h
    unfold client.summarizeReach at h
    cases hsys : chunkSystemMsgs env template (data prev) prev with
    | error err => simp [hsys] at h
    | ok systemMsgs =>
      simp only [hsys] at h
      have hnf := completionStep_numFiles c env w chunk systemMsgs
      cases hstep : c.completionStep env w chunk systemMsgs with
      | mk r w2 =>
        rw [hstep] at h hnf
        cases r with
        | error val err => simp at h
        | runtimePanic => simp at h
        | ok completion =>
          simp only at h hnf
          obtain ⟨h1, h2⟩ := ih tail completion (result ++ [completion]) w2 prev1 result1 w1 h
          rw [List.cons_append, summarizeRest_step_ok c env template data chunk (rest ++ tail)
            prev result w w2 systemMsgs completion hsys hstep]
          exact ⟨h1, by rw [h2, hnf]⟩

theorem completionStep_of_failed (c : client) (env : Env) (w : World) (content : Str)
    (systemMsgs : List Str) (err : GoError)
    (hfail : (c.createChatCompletion env w content systemMsgs).1 = .error err) :
    c.completionStep env w content systemMsgs
        = (.error [] err, (c.createChatCompletion env w content systemMsgs).2) ∧
      (c.createChatCompletion env w content systemMsgs).2.stats = w.stats ∧
      ((c.createChatCompletion env w content systemMsgs).2.calls = w.calls ∨
        ∃ call : Call, call.outcome = .error err ∧
          (c.createChatCompletion env w content systemMsgs).2.calls = w.calls ++ [call]) := by
  refine ⟨?_, ?_, ?_⟩
  · unfold client.completionStep
    cases h : c.createChatCompletion env w content systemMsgs with
    | mk out w1 =>
      rw [h] at hfail
      simp only at hfail
      subst hfail
      rfl
  · by_cases hb : withinBudget c env content systemMsgs
    · rw [createChatCompletion_sent c env w content systemMsgs hb]
    · rw [createChatCompletion_rejected c env w content systemMsgs hb]
  · by_cases hb : withinBudget c env content systemMsgs
    · right
      rw [createChatCompletion_sent c env w content systemMsgs hb] at hfail ⊢
      exact ⟨_, hfail, rfl⟩
    · left
      rw [createChatCompletion_rejected c env w content systemMsgs hb]

theorem summarizeRest_abort (c : client) (env : Env) (template : Str) (data : Str → Data)
    (pre : List Str) (chunk : Str) (post : List Str) (start : List Str) (w : World)
    (prev : Str) (result : List Str) (w1 : World) (systemMsgs : List Str) (err : GoError)
    (hreach : c.summarizeReach env template data pre [] start w = some (prev, result, w1))
    (hsys : chunkSystemMsgs env template (data prev) prev = .ok systemMsgs)
    (hfail : (c.createChatCompletion env w1 chunk systemMsgs).1 = .error err) :
    c.summarizeRest env template data (pre ++ chunk :: post) [] start w
        = (.error [] err, (c.createChatCompletion env w1 chunk systemMsgs).2) ∧
      (c.createChatCompletion env w1 chunk systemMsgs).2.stats.NumFiles = w.stats.NumFiles ∧
      ((c.createChatCompletion env w1 chunk systemMsgs).2.calls = w1.calls ∨
        ∃ call : Call, call.outcome = .error err ∧
          (c.createChatCompletion env w1 chunk systemMsgs).2.calls = w1.calls ++ [call]) := by
  obtain ⟨h1, h2⟩ := summarizeRest_of_reach c env template data pre (chunk :: post) [] start w
    prev result w1 hreach
  obtain ⟨g1, g2, g3⟩ := completionStep_of_failed c env w1 chunk systemMsgs err hfail
  refine ⟨?_, by rw [g2, h2], g3⟩
  rw [h1, summarizeRest_step_error c env template data chunk post prev result w1 _ systemMsgs
    [] err hsys g1]

/-- C11: let the chunks of a file (or diff) be `pre`, then `chunk`, then
`post`, let the loop reach `chunk` after going through `pre`, and let the
completion call for `chunk` fail, rejected by the budget check or failed by
the backend.  Then `SummarizeFile` (and `SummarizeDiff`) returns that error
with the empty summary, in the state that the failed call left: no call is
made for the chunks of `post`, and `Stats.NumFiles` is what it was before. -/
theorem summarize_abort (c : client) (env : Env) (w : World) (op : GitOperation)
    (fileName text : Str) (pre : List Str) (chunk : Str) (post : List Str)
    (prev : Str) (result : List Str) (w1 : World) (systemMsgs : List Str) (err : GoError)
    (hsplit : SplitText text c.maxChunkSize = pre ++ chunk :: post)
    (hfail : (c.createChatCompletion env w1 chunk systemMsgs).1 = .error err) :
    (c.summarizeReach env env.SummarizeFileTemplate (fileData env op fileName) pre []
        [operationVerb op ++ " file `".toList ++ fileName ++ "`: ".toList] w
        = some (prev, result, w1) →
      chunkSystemMsgs env env.SummarizeFileTemplate (fileData env op fileName prev) prev
        = .ok systemMsgs →
      c.SummarizeFile env w op fileName text
          = (.error [] err, (c.createChatCompletion env w1 chunk systemMsgs).2) ∧
        (c.SummarizeFile env w op fileName text).2.stats.NumFiles = w.stats.NumFiles ∧
        ((c.SummarizeFile env w op fileName text).2.calls = w1.calls ∨
          ∃ call : Call, call.outcome = .error err ∧
            (c.SummarizeFile env w op fileName text).2.calls = w1.calls ++ [call])) ∧
    (c.summarizeReach env env.SummarizeDiffTemplate (diffData env fileName) pre []
        ["Modified file `".toList ++ fileName ++ "`: ".toList] w
        = some (prev, result, w1) →
      chunkSystemMsgs env env.SummarizeDiffTemplate (diffData env fileName prev) prev
        = .ok systemMsgs →
      c.SummarizeDiff env w fileName text
          = (.error [] err, (c.createChatCompletion env w1 chunk systemMsgs).2) ∧
        (c.SummarizeDiff env w fileName text).2.stats.NumFiles = w.stats.NumFiles ∧
        ((c.SummarizeDiff env w fileName text).2.calls = w1.calls ∨
          ∃ call : Call, call.outcome = .error err ∧
            (c.SummarizeDiff env w fileName text).2.calls = w1.calls ++ [call])) := by
  constructor
  · intro hreach hsys
    obtain ⟨h1, h2, h3⟩ := summarizeRest_abort c env env.SummarizeFileTemplate
      (fileData env op fileName) pre chunk post _ w prev result w1 systemMsgs err hreach hsys
      hfail
    have hrun : c.SummarizeFile env w op fileName text
        = (.error [] err, (c.createChatCompletion env w1 chunk systemMsgs).2) := by
      unfold client.SummarizeFile
      simp only [hsplit]
      exact h1
    rw [hrun]
    exact ⟨rfl, h2, h3⟩
  · intro hreach hsys
    obtain ⟨h1, h2, h3⟩ := summarizeRest_abort c env env.SummarizeDiffTemplate
      (diffData env fileName) pre chunk post _ w prev result w1 systemMsgs err hreach hsys
      hfail
    have hrun : c.SummarizeDiff env w fileName text
        = (.error [] err, (c.createChatCompletion env w1 chunk systemMsgs).2) := by
      unfold client.SummarizeDiff
      simp only [hsplit]
      exact h1
    rw [hrun]
    exact ⟨rfl, h2, h3⟩

theorem summarize_abort_witness :
    SplitText "ab cd ef".toList (exampleClient 3).maxChunkSize
      = ["ab".toList] ++ "cd".toList :: ["ef".toList] ∧
    ((exampleClient 3).createChatCompletion (exampleEnv ["one".toList] [])
        ((exampleClient 3).completionStep (exampleEnv ["one".toList] []) World.fresh
          "ab".toList ["summarize_file".toList]).2
        "cd".toList ["summarize_file one".toList, "prev_chunk_summary one".toList]).1
      = .error (.external "no reply".toList) ∧
    (exampleClient 3).SummarizeFile (exampleEnv ["one".toList] []) World.fresh OPERATION_ADD
        "a.go".toList "ab cd ef".toList
      = (.error [] (.external "no reply".toList),
         ((exampleClient 3).createChatCompletion (exampleEnv ["one".toList] [])
            ((exampleClient 3).completionStep (exampleEnv ["one".toList] []) World.fresh
              "ab".toList ["summarize_file".toList]).2
            "cd".toList ["summarize_file one".toList, "prev_chunk_summary one".toList]).2) ∧
    ((exampleClient 3).SummarizeFile (exampleEnv ["one".toList] []) World.fresh OPERATION_ADD
        "a.go".toList "ab cd ef".toList).2.stats.NumFiles = World.fresh.stats.NumFiles ∧
    ((exampleClient 3).SummarizeFile (exampleEnv ["one".toList] []) World.fresh OPERATION_ADD
        "a.go".toList "ab cd ef".toList).2.calls.length = 2 :=
  ⟨by decide, by decide,
   ((summarize_abort (exampleClient 3) (exampleEnv ["one".toList] []) World.fresh
      OPERATION_ADD "a.go".toList "ab cd ef".toList ["ab".toList] "cd".toList ["ef".toList]
      "one".toList ["Added file `a.go`: ".toList, "one".toList]
      ((exampleClient 3).completionStep (exampleEnv ["one".toList] []) World.fresh
        "ab".toList ["summarize_file".toList]).2
      ["summarize_file one".toList, "prev_chunk_summary one".toList]
      (.external "no reply".toList) (by decide) (by decide)).1 (by rfl) (by rfl)).1,
   ((summarize_abort (exampleClient 3) (exampleEnv ["one".toList] []) World.fresh
      OPERATION_ADD "a.go".toList "ab cd ef".toList ["ab".toList] "cd".toList ["ef".toList]
      "one".toList ["Added file `a.go`: ".toList, "one".toList]
      ((exampleClient 3).completionStep (exampleEnv ["one".toList] []) World.fresh
        "ab".toList ["summarize_file".toList]).2
      ["summarize_file one".toList, "prev_chunk_summary one".toList]
      (.external "no reply".toList) (by decide) (by decide)).1 (by rfl) (by rfl)).2.1,
   by decide⟩

/-! ### The partition of the status lines -/

theorem parseStatusLine_spec (acc : StatusLists) (line : Bytes) :
    parseStatusLine acc line
      = { added := acc.added ++ ([line].filter (lineHasStatus OPERATION_ADD)).map
            (fun l => trimSpaceBytes (l.drop 3))
          removed := acc.removed ++ ([line].filter (lineHasStatus OPERATION_DEL)).map
            (fun l => trimSpaceBytes (l.drop 3))
          modified := acc.modified ++ ([line].filter (lineHasStatus OPERATION_MOD)).map
            (fun l => trimSpaceBytes (l.drop 3)) } := by
  have hAD : utf8Bytes OPERATION_ADD ≠ utf8Bytes OPERATION_DEL := by decide
  have hAM : utf8Bytes OPERATION_ADD ≠ utf8Bytes OPERATION_MOD := by decide
  have hDM : utf8Bytes OPERATION_DEL ≠ utf8Bytes OPERATION_MOD := by decide
  unfold parseStatusLine
  by_cases hlen : line.length < 4
  · have h4 : ¬ 4 ≤ line.length := by omega
    simp [hlen, lineHasStatus, h4]
  · have h4 : 4 ≤ line.length := by omega
    simp only [hlen, if_false]
    by_cases hA : trimSpaceBytes (line.take 2) = utf8Bytes OPERATION_ADD
    · have hD : ¬ trimSpaceBytes (line.take 2) = utf8Bytes OPERATION_DEL := by
        rw [hA]; exact hAD
      have hM : ¬ trimSpaceBytes (line.take 2) = utf8Bytes OPERATION_MOD := by
        rw [hA]; exact hAM
      simp [lineHasStatus, h4, hA, hAD, hAM]
    · by_cases hD : trimSpaceBytes (line.take 2) = utf8Bytes OPERATION_DEL
      · simp [lineHasStatus, h4, hD, hAD.symm, hDM]
      · by_cases hM : trimSpaceBytes (line.take 2) = utf8Bytes OPERATION_MOD
        · simp [lineHasStatus, h4, hM, hAM.symm, hDM.symm]
        · simp [lineHasStatus, h4, hA, hD, hM]

theorem foldl_parseStatusLine (lines : List Bytes) :
    ∀ (acc : StatusLists),
      lines.foldl parseStatusLine acc
        = { added := acc.added ++ (lines.filter (lineHasStatus OPERATION_ADD)).map
              (fun l => trimSpaceBytes (l.drop 3))
            removed := acc.removed ++ (lines.filter (lineHasStatus OPERATION_DEL)).map
              (fun l => trimSpaceBytes (l.drop 3))
            modified := acc.modified ++ (lines.filter (lineHasStatus OPERATION_MOD)).map
              (fun l => trimSpaceBytes (l.drop 3)) } := by
  induction lines with
  | nil => intro acc; simp
  | cons line rest ih =>
    intro acc
    rw [List.foldl_cons, ih, parseStatusLine_spec]
    have hsplit : ∀ op, (line :: rest).filter (lineHasStatus op)
        = [line].filter (lineHasStatus op) ++ rest.filter (lineHasStatus op) := by
      intro op
      rw [← List.filter_append]
      rfl
    simp only [hsplit, List.map_append, List.append_assoc]

/-- C17: for every status text, with lengths and positions counted in bytes as
`len` and the slices of the code do, the added, removed and modified lists of
`ParseGitStatus` are, in the order of the lines, the trimmed texts after the
third byte of the lines that have at least 4 bytes and whose first two bytes
trim to exactly "A", "D" and "M" respectively; no line goes to two lists, and
a line of none of these three kinds goes to no list. -/
theorem ParseGitStatus_partition (status : Bytes) :
    (ParseGitStatus status).added
      = ((splitLines status).filter (lineHasStatus OPERATION_ADD)).map
          (fun line => trimSpaceBytes (line.drop 3)) ∧
    (ParseGitStatus status).removed
      = ((splitLines status).filter (lineHasStatus OPERATION_DEL)).map
          (fun line => trimSpaceBytes (line.drop 3)) ∧
    (ParseGitStatus status).modified
      = ((splitLines status).filter (lineHasStatus OPERATION_MOD)).map
          (fun line => trimSpaceBytes (line.drop 3)) ∧
    (∀ line, ¬ (lineHasStatus OPERATION_ADD line = true ∧ lineHasStatus OPERATION_DEL line = true)
      ∧ ¬ (lineHasStatus OPERATION_ADD line = true ∧ lineHasStatus OPERATION_MOD line = true)
      ∧ ¬ (lineHasStatus OPERATION_DEL line = true
            ∧ lineHasStatus OPERATION_MOD line = true)) := by
  have hAD : utf8Bytes OPERATION_ADD ≠ utf8Bytes OPERATION_DEL := by decide
  have hAM : utf8Bytes OPERATION_ADD ≠ utf8Bytes OPERATION_MOD := by decide
  have hDM : utf8Bytes OPERATION_DEL ≠ utf8Bytes OPERATION_MOD := by decide
  unfold ParseGitStatus
  rw [foldl_parseStatusLine]
  refine ⟨by simp, by simp, by simp, ?_⟩
  intro line
  simp only [lineHasStatus, Bool.and_eq_true, decide_eq_true_eq]
  refine ⟨?_, ?_, ?_⟩
  · rintro ⟨⟨_, h1⟩, ⟨_, h2⟩⟩
    exact hAD (h1.symm.trans h2)
  · rintro ⟨⟨_, h1⟩, ⟨_, h2⟩⟩
    exact hAM (h1.symm.trans h2)
  · rintro ⟨⟨_, h1⟩, ⟨_, h2⟩⟩
    exact hDM (h1.symm.trans h2)

/-- The partition on a concrete status text. -/
theorem ParseGitStatus_example :
    ParseGitStatus
        (utf8Bytes "A  new.go\n M old file.go \nD  gone.go\n?? x.txt\nAM both.go\nM\nMM y".toList)
      = { added := [utf8Bytes "new.go".toList]
          removed := [utf8Bytes "gone.go".toList]
          modified := [utf8Bytes "old file.go".toList] } := by
  decide

/-! ### Templates that are not loaded -/

theorem processTemplate_missing (env : Env) (name : Str) (data : Data)
    (h : env.templates name = none) :
    processTemplate env name data = .error (.templateNotFound name) := by
  simp [processTemplate, h]

/-- For a name without a loaded template `GetTemplateByString` returns the
"template not found" error, together with the text "<nil>". -/
theorem GetTemplateByString_missing (env : Env) (name : Str) (data : Data)
    (h : env.templates name = none) :
    GetTemplateByString env name data
      = (trimSpace "<nil>".toList, some (.templateNotFound name)) := by
  simp [GetTemplateByString, processTemplate_missing env name data h]

/-- For a name without a loaded template `GetTemplateByBytes` panics. -/
theorem GetTemplateByBytes_missing (env : Env) (name : Str) (data : Data)
    (h : env.templates name = none) :
    GetTemplateByBytes env name data = .runtimePanic := by
  simp [GetTemplateByBytes, processTemplate_missing env name data h]

/-- Whenever `InstallHook` gets as far as rendering, with the hook script text
not the name of a loaded template, it panics. -/
theorem InstallHook_missing (env : Env) (git : GitEnv) (hookPath : Str)
    (hpath : git.hookPath = .ok hookPath)
    (hnew : git.isFile (git.pathJoin (trimSpace hookPath) hookFileName) = false)
    (h : env.templates hookTemplate = none) :
    InstallHook env git = .runtimePanic := by
  simp [InstallHook, hpath, hnew, GetTemplateByBytes_missing env hookTemplate [] h]

/-- C21 (code at the failing input): with the four templates of the client
loaded, the hook script text is not the name of a template.
`GetTemplateByString` returns the "template not found" error for it (with the
text "<nil>"), but `GetTemplateByBytes` evaluates `tpl.Bytes()` on the nil
buffer before it returns and panics, and so does `InstallHook`, which calls it
with the hook script text as the name. -/
theorem template_not_found_crash :
    loadedEnv.templates hookTemplate = none ∧
    GetTemplateByString loadedEnv hookTemplate []
      = ("<nil>".toList, some (.templateNotFound hookTemplate)) ∧
    GetTemplateByBytes loadedEnv hookTemplate [] = .runtimePanic ∧
    InstallHook loadedEnv exampleGit = .runtimePanic ∧
    GetTemplateByBytes loadedEnv "summarize_file".toList [] = .ok "summarize_file".toList := by
  refine ⟨by rfl, by decide, by decide, by decide, by decide⟩

end GitGpt
